import Mathlib

/-!
Verification development for the `FileSandbox` service
(`src/fs_agent/services/filesystem.py`).

The sandbox guards filesystem operations inside a root directory.  We give a
shallow embedding: POSIX paths are lists of components, the filesystem is an
explicit finite state (`FS`), and every public operation of the service is a
Lean function `FS → FS × Except Err String` mirroring the Python method body
(Python exceptions correspond to the `.error` outcome with the mutations made
before the raise retained in the returned state, exactly as an escaping Python
exception leaves them on disk).
-/

set_option autoImplicit false

namespace FSA

/-! ## Paths

A resolved absolute POSIX path is a `List String` of components, the empty
list being the filesystem root `/`.  The platform separator is `/`
(`os.sep` on POSIX).
-/

/-- Split a list of characters on a separator character. -/
def splitChar (sep : Char) : List Char → List (List Char)
  | [] => [[]]
  | c :: cs =>
    let rest := splitChar sep cs
    if c = sep then [] :: rest
    else match rest with
      | [] => [[c]]
      | r :: rs => (c :: r) :: rs

/-- The segments of a path string: split on `/`, dropping empty segments and
`.` segments (as `pathlib.PurePosixPath` does on construction, and as
`Path.resolve` drops `.`). `..` segments are kept. -/
def pathSegs (s : String) : List String :=
  ((splitChar '/' s.data).map String.mk).filter (fun seg => seg ≠ "" && seg ≠ ".")

/-- Whether a path string is absolute (starts with the separator). -/
def isAbsStr (s : String) : Bool :=
  match s.data with
  | [] => false
  | c :: _ => c = '/'

/-- Lexical normalization performed by `Path.resolve()`: `..` pops the last
component (staying put at the filesystem root), other components are kept.
The input has no `""`/`"."` segments (`pathSegs` already dropped them). -/
def pyNormalize (segs : List String) : List String :=
  segs.foldl (fun acc seg => if seg = ".." then acc.dropLast else acc ++ [seg]) []

/-- The characters of path components joined with the separator. -/
def sepJoin : List String → List Char
  | [] => []
  | [a] => a.data
  | a :: b :: rest => a.data ++ '/' :: sepJoin (b :: rest)

/-- `str()` of an absolute `pathlib` path: `/` followed by the components
joined with `/`; the filesystem root renders as `/`. -/
def pathStr (p : List String) : String :=
  String.mk ('/' :: sepJoin p)

/-- `str.startswith` : `s` starts with `pre`. -/
def pyStartsWith (s pre : String) : Bool :=
  pre.data.isPrefixOf s.data

/-- A valid resolved path component: nonempty, no separator, not `.`/`..`
(what `Path.resolve()` produces for each component of an absolute path). -/
def validSeg (s : String) : Bool :=
  s ≠ "" && s ≠ "." && s ≠ ".." && decide ('/' ∉ s.data)

/-- A well-formed sandbox root: every component valid. -/
def validRoot (root : List String) : Bool := root.all validSeg

/-- `self.root / rel` of `pathlib`: an absolute right operand replaces the
left operand entirely; otherwise the segments are appended. -/
def joinPath (root : List String) (rel : String) : List String :=
  if isAbsStr rel then pathSegs rel else root ++ pathSegs rel

/-- The resolved target `(self.root / rel).resolve()` of `FileSandbox._resolve`. -/
def resolveTarget (root : List String) (rel : String) : List String :=
  pyNormalize (joinPath root rel)

/-- The containment test of `FileSandbox._resolve` (line 22 of the source):
`target == sandbox or str(target).startswith(str(sandbox) + os.sep)`. -/
def inSandboxB (sandbox target : List String) : Bool :=
  target == sandbox || pyStartsWith (pathStr target) (pathStr sandbox ++ "/")

/-- Error outcomes of the service.  `security` is the `ValueError` raised by
`_resolve` ("For security reasons, ..."), `value` any other `ValueError`
raised by the service itself, `os` an `OSError` escaping from the OS layer
(`mkdir`, `rename`, ...). -/
inductive Err where
  | security (msg : String)
  | value (msg : String)
  | os (msg : String)
  deriving DecidableEq, Repr

/-- Whether an error is the security violation of the containment guard. -/
def Err.isSecurity : Err → Bool
  | .security _ => true
  | _ => false

/-- `FileSandbox._resolve(rel)`: compute `sandbox = root.resolve()` and
`target = (root / rel).resolve()`; succeed with the target iff the
containment test passes, otherwise raise the security `ValueError` naming
the offending path. -/
def resolveRel (root : List String) (rel : String) : Except Err (List String) :=
  if inSandboxB (pyNormalize root) (resolveTarget root rel) then .ok (resolveTarget root rel)
  else .error (.security
    ("For security reasons, paths must stay inside " ++ pathStr (pyNormalize root) ++
     ". Got: " ++ pathStr (resolveTarget root rel)))

/-! ## Filesystem state

The filesystem is a finite state: a set of directories and a finite map from
file paths to their (text) contents.  The filesystem root `[]` always exists
as a directory.
-/

/-- Filesystem state: directory paths and files with contents. -/
structure FS where
  dirs : List (List String)
  files : List (List String × String)
  deriving DecidableEq, Repr

/-- Whether `p` is a directory (the filesystem root `[]` always is). -/
def FS.isDirB (fs : FS) (p : List String) : Bool :=
  p == [] || decide (p ∈ fs.dirs)

/-- The content of the file at `p`, if any. -/
def FS.getContent (fs : FS) (p : List String) : Option String :=
  fs.files.lookup p

/-- Whether a file exists at `p`. -/
def FS.isFileB (fs : FS) (p : List String) : Bool :=
  (fs.getContent p).isSome

/-- `Path.exists()`. -/
def FS.existsB (fs : FS) (p : List String) : Bool :=
  fs.isDirB p || fs.isFileB p

/-- Create or overwrite the file at `p` with content `c`. -/
def FS.setFile (fs : FS) (p : List String) (c : String) : FS :=
  { fs with files := (p, c) :: fs.files.filter (fun e => e.1 ≠ p) }

/-- `Path.unlink()` (no error reporting; callers check existence). -/
def FS.removeFile (fs : FS) (p : List String) : FS :=
  { fs with files := fs.files.filter (fun e => e.1 ≠ p) }

/-- Remove the directory entry at `p` (used by `rmdir` and `rename`). -/
def FS.removeDir (fs : FS) (p : List String) : FS :=
  { fs with dirs := fs.dirs.filter (fun q => q ≠ p) }

/-- `shutil.rmtree(p)`: remove `p` and everything below it. -/
def FS.rmtree (fs : FS) (p : List String) : FS :=
  { dirs := fs.dirs.filter (fun q => ¬ p.isPrefixOf q),
    files := fs.files.filter (fun e => ¬ p.isPrefixOf e.1) }

/-- Remap every path lying at or under `s` to the corresponding path at or
under `d` (the effect of `os.rename` on a subtree). -/
def FS.remapAll (fs : FS) (s d : List String) : FS :=
  { dirs := fs.dirs.map (fun q => if s.isPrefixOf q then d ++ q.drop s.length else q),
    files := fs.files.map (fun e =>
      (if s.isPrefixOf e.1 then d ++ e.1.drop s.length else e.1, e.2)) }

/-- All prefixes of a path, from `[]` up to the path itself. -/
def pathPrefixes (p : List String) : List (List String) :=
  (List.range (p.length + 1)).map (fun k => p.take k)

/-- Names of the direct children of directory `d` that exist in `fs`,
without duplicates (in first-occurrence order; sorting is applied by the
listing code). -/
def FS.childNames (fs : FS) (d : List String) : List String :=
  (((fs.dirs ++ fs.files.map Prod.fst).filterMap
    (fun q => if q.dropLast = d ∧ q ≠ [] then q.getLast? else none))).dedup

/-- All existing paths strictly below `b`. -/
def FS.descPaths (fs : FS) (b : List String) : List (List String) :=
  ((fs.dirs ++ fs.files.map Prod.fst).filter
    (fun q => b.isPrefixOf q && q ≠ b)).dedup

/-- `Path.mkdir(parents=True, exist_ok=existOk)`: error if any prefix of `p`
is an existing file; error if `p` is already a directory and `existOk` is
false; otherwise create all missing ancestor directories and `p`. On error
nothing is created (matching `pathlib`, which can only fail here before
creating anything new). -/
def FS.mkdirP (fs : FS) (p : List String) (existOk : Bool) : Except Err FS :=
  if (pathPrefixes p).any (fun q => fs.isFileB q) then
    .error (.os ("mkdir: file in the way of " ++ pathStr p))
  else if fs.isDirB p then
    if existOk then .ok fs
    else .error (.os ("mkdir: FileExistsError: " ++ pathStr p))
  else
    .ok { fs with dirs :=
      fs.dirs ++ (pathPrefixes p).filter (fun q => ¬ (fs.isDirB q = true)) }

/-- The last component of a path (`Path.name`; `""` for the root). -/
def lastName (p : List String) : String :=
  (p.getLast?).getD ""

/-- `os.rename(s, d)` / `Path.rename` (POSIX semantics): the source must
exist and the destination's parent must be a directory; renaming a path to
itself succeeds without change; a file may silently replace an existing
file but not a directory; a directory may replace only an empty directory,
may not replace a file, and may not be moved into its own subtree. -/
def FS.renameP (fs : FS) (s d : List String) : Except Err FS :=
  if ¬ (fs.existsB s = true) then .error (.os ("rename: ENOENT: " ++ pathStr s))
  else if s = d then .ok fs
  else if ¬ (fs.isDirB d.dropLast = true) then
    .error (.os ("rename: ENOENT parent: " ++ pathStr d))
  else if fs.isFileB s then
    if fs.isDirB d then .error (.os ("rename: EISDIR: " ++ pathStr d))
    else .ok ((fs.removeFile d).remapAll s d)
  else
    if s.isPrefixOf d then .error (.os ("rename: EINVAL: " ++ pathStr d))
    else if fs.isFileB d then .error (.os ("rename: ENOTDIR: " ++ pathStr d))
    else if fs.isDirB d then
      if fs.childNames d ≠ [] then .error (.os ("rename: ENOTEMPTY: " ++ pathStr d))
      else .ok ((fs.removeDir d).remapAll s d)
    else .ok (fs.remapAll s d)

/-- The effective destination of `shutil.copy2(s, d)`: copying onto an
existing directory copies into it under the source's name. -/
def FS.copyDst (fs : FS) (s d : List String) : List String :=
  if fs.isDirB d then d ++ [lastName s] else d

/-- `shutil.copy2(s, d)` for a source file: fails if the effective
destination is itself a directory, otherwise the file content is written. -/
def FS.copy2 (fs : FS) (s d : List String) : Except Err FS :=
  if fs.isDirB (fs.copyDst s d) then
    .error (.os ("copy2: IsADirectoryError: " ++ pathStr (fs.copyDst s d)))
  else match fs.getContent s with
    | none => .error (.os ("copy2: ENOENT: " ++ pathStr s))
    | some c => .ok (fs.setFile (fs.copyDst s d) c)

/-- `Path.write_text` (callers have just created the parent directory):
fails if the path is a directory, otherwise creates/overwrites the file. -/
def FS.writeText (fs : FS) (p : List String) (c : String) : Except Err FS :=
  if fs.isDirB p then .error (.os ("write_text: IsADirectoryError: " ++ pathStr p))
  else .ok (fs.setFile p c)

/-- Well-formedness of a filesystem state (always true of a real on-disk
tree): no file path is also a directory, and no existing path lies strictly
below a file. -/
def FS.wf (fs : FS) : Bool :=
  fs.files.all (fun e =>
    !(fs.isDirB e.1) &&
    (fs.dirs ++ fs.files.map Prod.fst).all
      (fun q => !(e.1.isPrefixOf q && q ≠ e.1)))

/-! ## Numerals and reports -/

/-- Python `str(i)` for an int. -/
def intStr (i : Int) : String := toString i

/-- Python `str.zfill(k)`: left-pad with zeros to width `k`, keeping a
leading sign in front of the padding. -/
def zfill (s : String) (k : Nat) : String :=
  if s.length ≥ k then s
  else if pyStartsWith s "-" then
    "-" ++ String.mk (List.replicate (k - s.length) '0') ++ String.mk (s.data.drop 1)
  else String.mk (List.replicate (k - s.length) '0') ++ s

/-- The numeral of a sequence index: `str(i).zfill(zero_pad) if zero_pad > 0
else str(i)`. -/
def pyNum (i : Int) (zeroPad : Nat) : String :=
  if zeroPad > 0 then zfill (intStr i) zeroPad else intStr i

/-- Python `range(start, stop + 1)` as a list of ints. -/
def intRange (start stop : Int) : List Int :=
  (List.range (stop + 1 - start).toNat).map (fun k => start + Int.ofNat k)

/-- `"\n".join(l) if l else "(none)"` as used by the sequence reports. -/
def joinOrNone (l : List String) : String :=
  if l = [] then "(none)" else String.intercalate "\n" l

/-- Round `a / b` to the nearest integer, ties to even (the rounding of
`"{x:.0f}"`; the divisions by 1024 are exact in binary floating point, so
the rational `a / b` is the value being formatted). -/
def roundHalfEven (a b : Nat) : Nat :=
  let q := a / b
  let r := a % b
  if 2 * r < b then q
  else if 2 * r > b then q + 1
  else if q % 2 = 0 then q else q + 1

/-- `FileSandbox._format_size`: repeatedly divide by 1024 through the units,
rendering with no decimal places. `d` is the current divisor `1024^k`. -/
def formatSizeAux (n : Nat) : Nat → List String → String
  | d, [] => toString (roundHalfEven n d) ++ " PB"
  | d, u :: us =>
    if n < 1024 * d then toString (roundHalfEven n d) ++ " " ++ u
    else formatSizeAux n (1024 * d) us

/-- `FileSandbox._format_size(n)`. -/
def formatSize (n : Nat) : String :=
  formatSizeAux n 1 ["B", "KB", "MB", "GB", "TB"]

/-- The byte size on disk of a file written with `write_text(encoding="utf-8")`:
the UTF-8 encoded length of its content (`Path.stat().st_size`). -/
def strBytes (s : String) : Nat :=
  s.data.foldl (fun n c => n + c.utf8Size) 0

/-! ## Glob matching

`glob.glob(str(root / pattern), recursive=True)` for the modeled fragment:
`*` and `?` wildcards within a segment, `**` matching any number of
segments, and literal segments (including `..`, which the OS resolves at
lookup).
-/

/-- `fnmatch` on one segment with `*` and `?` wildcards. -/
def segMatch : List Char → List Char → Bool
  | [], [] => true
  | '*' :: ps, [] => segMatch ps []
  | '*' :: ps, c :: s => segMatch ps (c :: s) || segMatch ('*' :: ps) s
  | '?' :: ps, _ :: s => segMatch ps s
  | p :: ps, c :: s => p = c && segMatch ps s
  | _ :: _, [] => false
  | [], _ :: _ => false
  termination_by p s => (p.length, s.length)

/-- Whether a pattern segment contains a wildcard. -/
def isWildSeg (s : String) : Bool :=
  s.data.any (fun c => c = '*' || c = '?')

/-- One pattern segment applied to a set of candidate paths: `**` yields the
paths and all their descendants, a wildcard segment matches existing child
names, and a literal segment extends the path (normalizing `..` as the OS
lookup does). -/
def globStep (fs : FS) (cur : List (List String)) (seg : String) : List (List String) :=
  if seg = "**" then (cur.flatMap (fun p => p :: fs.descPaths p)).dedup
  else if isWildSeg seg then
    cur.flatMap (fun p =>
      ((fs.childNames p).filter (fun n => segMatch seg.data n.data)).map (fun n => p ++ [n]))
  else (cur.map (fun p => pyNormalize (p ++ [seg]))).dedup

/-- The matches of a glob pattern (given as the segments of
`root / pattern`): existing paths only. -/
def globMatches (fs : FS) (segs : List String) : List (List String) :=
  ((segs.foldl (globStep fs) [[]]).filter (fun p => fs.existsB p)).dedup

/-! ## Sorting and tree rendering -/

/-- Code-point comparison of strings (Python's `str` ordering). -/
def charsLe : List Char → List Char → Bool
  | [], _ => true
  | _ :: _, [] => false
  | a :: as, b :: bs => a < b || (a = b && charsLe as bs)

/-- `a <= b` on strings by code points. -/
def strLeB (a b : String) : Bool := charsLe a.data b.data

/-- Insert into a sorted list (stable insertion sort). -/
def insertBy {α : Type} (le : α → α → Bool) (a : α) : List α → List α
  | [] => [a]
  | b :: bs => if le a b then a :: b :: bs else b :: insertBy le a bs

/-- Stable sort by a boolean `le`. -/
def sortBy {α : Type} (le : α → α → Bool) (l : List α) : List α :=
  l.foldr (insertBy le) []

/-- The sort key of `list_dir`/`tree`: files after directories, then name
case-insensitively (ties broken by the exact name to make the order
deterministic). -/
def entryLe (fs : FS) (d : List String) (a b : String) : Bool :=
  let fa := fs.isFileB (d ++ [a])
  let fb := fs.isFileB (d ++ [b])
  if fa = fb then
    if a.toLower = b.toLower then strLeB a b else strLeB a.toLower b.toLower
  else fb

/-- The sorted entries of a directory as `sorted(dir_path.iterdir(), key=...)`. -/
def FS.sortedChildren (fs : FS) (d : List String) : List String :=
  sortBy (entryLe fs d) (fs.childNames d)

/-- The size annotation of a file entry in the tree. -/
def fileAnnot (fs : FS) (p : List String) : String :=
  match fs.getContent p with
  | some c => formatSize (strBytes c)
  | none => "?"

/-- The recursive walk of `FileSandbox.tree`: `fuel` is the number of
remaining levels (`max_depth - depth + 1`). -/
def treeWalk (fs : FS) : Nat → List String → String → List String
  | 0, _, _ => []
  | fuel + 1, dir, pre =>
    let entries := fs.sortedChildren dir
    let total := entries.length
    (entries.enum.flatMap (fun en =>
      let last := en.1 = total - 1
      let branch := if last then "└── " else "├── "
      let child := dir ++ [en.2]
      if fs.isDirB child then
        (pre ++ branch ++ en.2 ++ "/") ::
          treeWalk fs fuel child (pre ++ (if last then "    " else "│   "))
      else
        [pre ++ branch ++ en.2 ++ " (" ++ fileAnnot fs child ++ ")"]))

/-- `FileSandbox.tree(base, max_depth)`: header line for the base, then the
walk (skipped entirely when `max_depth < 0`; the walk starts at depth 1 and
stops once the depth exceeds `max_depth`). -/
def treeStr (fs : FS) (base : List String) (maxDepth : Int) : String :=
  let lines := [lastName base ++ "/"]
  if maxDepth < 0 then String.intercalate "\n" lines
  else String.intercalate "\n" (lines ++ treeWalk fs maxDepth.toNat base "")

/-! ## Public operations

Each operation is a function `FS → FS × Except Err String`: the final
filesystem state (with the mutations performed before a raise retained) and
either the returned string or the raised error.  Every operation begins
with `self.ensure()`, i.e. `self.root.mkdir(parents=True, exist_ok=True)`.
-/

/-- The result of one service call. -/
abbrev OpResult := FS × Except Err String

/-- Sequence a fallible step: on error, return the given state with the
error (the Python exception propagates, keeping prior mutations). -/
def bindE {α : Type} (st : FS) (e : Except Err α) (k : α → OpResult) : OpResult :=
  match e with
  | .error err => (st, .error err)
  | .ok a => k a

/-- `open(path, "a").write(content)`: fails on a directory, otherwise
appends to the file (creating it if missing). -/
def FS.appendText (fs : FS) (p : List String) (c : String) : Except Err FS :=
  if fs.isDirB p then .error (.os ("append: IsADirectoryError: " ++ pathStr p))
  else .ok (fs.setFile p ((fs.getContent p).getD "" ++ c))

/-- `str(p.relative_to(self.root))` for a path under the root. -/
def relStr (root p : List String) : String :=
  String.intercalate "/" (p.drop root.length)

/-- One line of the flat (non-tree) listing: the entry name with a trailing
`/` for directories, a tab, and the size annotation or `-`. -/
def flatEntry (fs : FS) (p : List String) (n : String) : String :=
  n ++ (if fs.isDirB (p ++ [n]) then "/" else "") ++ "\t" ++
    (if fs.isFileB (p ++ [n]) then fileAnnot fs (p ++ [n]) else "-")

/-- `FileSandbox.list_dir(path, tree, max_depth)`. -/
def list_dir (root : List String) (fs : FS) (path : String) (tr : Bool)
    (maxDepth : Int) : OpResult :=
  bindE fs (fs.mkdirP root true) fun fs =>
  bindE fs (resolveRel root path) fun p =>
  if ¬ (fs.existsB p = true) then
    (fs, .error (.value ("Path " ++ path ++ " does not exist.")))
  else if tr then (fs, .ok (treeStr fs p maxDepth))
  else if fs.isFileB p then
    (fs, .ok (lastName p ++ "\t" ++ fileAnnot fs p))
  else
    (fs, .ok (if (fs.sortedChildren p).map (flatEntry fs p) = [] then "(empty)"
      else String.intercalate "\n" ((fs.sortedChildren p).map (flatEntry fs p))))

/-- `FileSandbox.read_file(path, max_bytes)`. -/
def read_file (root : List String) (fs : FS) (path : String) (maxBytes : Nat) : OpResult :=
  bindE fs (fs.mkdirP root true) fun fs =>
  bindE fs (resolveRel root path) fun t =>
  if ¬ (fs.existsB t = true ∧ fs.isFileB t = true) then
    (fs, .error (.value ("File " ++ path ++ " does not exist.")))
  else if strBytes ((fs.getContent t).getD "") > maxBytes then
    (fs, .error (.value ("File is " ++ toString (strBytes ((fs.getContent t).getD "")) ++
      " bytes; exceeds limit " ++ toString maxBytes ++ ". Increase max_bytes if needed.")))
  else (fs, .ok ((fs.getContent t).getD ""))

/-- `FileSandbox.write_file(path, content)`. -/
def write_file (root : List String) (fs : FS) (path content : String) : OpResult :=
  bindE fs (fs.mkdirP root true) fun fs =>
  bindE fs (resolveRel root path) fun t =>
  bindE fs (fs.mkdirP t.dropLast true) fun fs =>
  bindE fs (fs.writeText t content) fun fs =>
  (fs, .ok (pathStr t))

/-- `FileSandbox.append_file(path, content)`. -/
def append_file (root : List String) (fs : FS) (path content : String) : OpResult :=
  bindE fs (fs.mkdirP root true) fun fs =>
  bindE fs (resolveRel root path) fun t =>
  bindE fs (fs.mkdirP t.dropLast true) fun fs =>
  bindE fs (fs.appendText t content) fun fs =>
  (fs, .ok (pathStr t))

/-- `FileSandbox.copy_file(src, dst, overwrite)`. -/
def copy_file (root : List String) (fs : FS) (src dst : String) (overwrite : Bool) : OpResult :=
  bindE fs (fs.mkdirP root true) fun fs =>
  bindE fs (resolveRel root src) fun s =>
  bindE fs (resolveRel root dst) fun d =>
  if ¬ (fs.existsB s = true ∧ fs.isFileB s = true) then
    (fs, .error (.value ("Source file " ++ src ++ " does not exist.")))
  else if fs.existsB d ∧ ¬ (overwrite = true) then
    (fs, .error (.value ("Destination " ++ dst ++ " already exists. Use overwrite=True.")))
  else
    bindE fs (fs.mkdirP d.dropLast true) fun fs =>
    bindE fs (fs.copy2 s d) fun fs =>
    (fs, .ok (pathStr d))

/-- Removal of a conflicting destination before an overwriting move/rename
(`if d.is_file(): d.unlink() else: shutil.rmtree(d)` guarded by existence). -/
def FS.clearTarget (fs : FS) (p : List String) : FS :=
  if fs.existsB p then (if fs.isFileB p then fs.removeFile p else fs.rmtree p) else fs

/-- `FileSandbox.move_file(src, dst, overwrite)`. -/
def move_file (root : List String) (fs : FS) (src dst : String) (overwrite : Bool) : OpResult :=
  bindE fs (fs.mkdirP root true) fun fs =>
  bindE fs (resolveRel root src) fun s =>
  bindE fs (resolveRel root dst) fun d =>
  if ¬ (fs.existsB s = true) then
    (fs, .error (.value ("Source " ++ src ++ " does not exist.")))
  else if fs.existsB d ∧ ¬ (overwrite = true) then
    (fs, .error (.value ("Destination " ++ dst ++ " already exists. Use overwrite=True.")))
  else if fs.existsB d ∧ fs.isFileB s ∧ fs.isDirB d then
    (fs, .error (.value "Cannot overwrite a directory with a file."))
  else if fs.existsB d ∧ fs.isDirB s ∧ fs.isFileB d then
    (fs, .error (.value "Cannot overwrite a file with a directory."))
  else
    bindE (fs.clearTarget d) ((fs.clearTarget d).mkdirP d.dropLast true) fun fs =>
    bindE fs (fs.renameP s d) fun fs =>
    (fs, .ok (pathStr d))

/-- `FileSandbox.create_file(path, content)`. -/
def create_file (root : List String) (fs : FS) (path content : String) : OpResult :=
  bindE fs (fs.mkdirP root true) fun fs =>
  bindE fs (resolveRel root path) fun t =>
  if fs.existsB t then
    (fs, .error (.value ("File " ++ path ++ " already exists.")))
  else
    bindE fs (fs.mkdirP t.dropLast true) fun fs =>
    bindE fs (fs.writeText t content) fun fs =>
    (fs, .ok (pathStr t))

/-- The loop of `create_files_sequence`: per index, build the relative name,
guard it, and create the file or record it as skipped. -/
def create_files_loop (root : List String) (pre suf : String) (zeroPad : Nat)
    (content : String) : List Int → FS → List String → List String →
    FS × Except Err (List String × List String)
  | [], fs, created, skipped => (fs, .ok (created, skipped))
  | i :: is, fs, created, skipped =>
    match resolveRel root (pre ++ pyNum i zeroPad ++ suf) with
    | .error e => (fs, .error e)
    | .ok p =>
      if fs.existsB p then
        create_files_loop root pre suf zeroPad content is fs created
          (skipped ++ [pre ++ pyNum i zeroPad ++ suf])
      else match fs.mkdirP p.dropLast true with
        | .error e => (fs, .error e)
        | .ok fs1 => match fs1.writeText p content with
          | .error e => (fs1, .error e)
          | .ok fs2 => create_files_loop root pre suf zeroPad content is fs2
              (created ++ [pre ++ pyNum i zeroPad ++ suf]) skipped

/-- `FileSandbox.create_files_sequence(prefix, suffix, start, end, zero_pad, content)`. -/
def create_files_sequence (root : List String) (fs : FS) (pre suf : String)
    (start stop : Int) (zeroPad : Nat) (content : String) : OpResult :=
  bindE fs (fs.mkdirP root true) fun fs =>
  match create_files_loop root pre suf zeroPad content (intRange start stop) fs [] [] with
  | (fs, .error e) => (fs, .error e)
  | (fs, .ok (created, skipped)) =>
    (fs, .ok ("Created:\n" ++ joinOrNone created ++
      "\n\nSkipped (already existed):\n" ++ joinOrNone skipped))

/-- `FileSandbox.rename_file(old_path, new_path)`. -/
def rename_file (root : List String) (fs : FS) (oldPath newPath : String) : OpResult :=
  bindE fs (fs.mkdirP root true) fun fs =>
  bindE fs (resolveRel root oldPath) fun o =>
  bindE fs (resolveRel root newPath) fun n =>
  if ¬ (fs.existsB o = true) then
    (fs, .error (.value ("File " ++ oldPath ++ " does not exist.")))
  else
    bindE fs (fs.mkdirP n.dropLast true) fun fs =>
    bindE fs (fs.renameP o n) fun fs =>
    (fs, .ok (pathStr n))

/-- The loop of `rename_files_sequence`: per index, build the old and new
relative names, guard both, then skip/fail on a missing source, skip or
remove a conflicting target, and rename. -/
def rename_seq_loop (root : List String) (oldPre oldSuf newPre newSuf : String)
    (zeroPad : Nat) (skipMissing overwrite : Bool) : List Int → FS →
    List String → List String → List String →
    FS × Except Err (List String × List String × List String)
  | [], fs, ren, mis, con => (fs, .ok (ren, mis, con))
  | i :: is, fs, ren, mis, con =>
    match resolveRel root (oldPre ++ pyNum i zeroPad ++ oldSuf) with
    | .error e => (fs, .error e)
    | .ok oldP =>
      match resolveRel root (newPre ++ pyNum i zeroPad ++ newSuf) with
      | .error e => (fs, .error e)
      | .ok newP =>
        if ¬ (fs.existsB oldP = true) then
          if ¬ (skipMissing = true) then
            (fs, .error (.value ("Missing: " ++ (oldPre ++ pyNum i zeroPad ++ oldSuf))))
          else rename_seq_loop root oldPre oldSuf newPre newSuf zeroPad skipMissing overwrite
            is fs ren (mis ++ [oldPre ++ pyNum i zeroPad ++ oldSuf]) con
        else if fs.existsB newP ∧ ¬ (overwrite = true) then
          rename_seq_loop root oldPre oldSuf newPre newSuf zeroPad skipMissing overwrite
            is fs ren mis (con ++ [newPre ++ pyNum i zeroPad ++ newSuf])
        else
          match (fs.clearTarget newP).mkdirP newP.dropLast true with
          | .error e => (fs.clearTarget newP, .error e)
          | .ok fs1 =>
            match fs1.renameP oldP newP with
            | .error e => (fs1, .error e)
            | .ok fs2 =>
              rename_seq_loop root oldPre oldSuf newPre newSuf zeroPad skipMissing overwrite
                is fs2 (ren ++ [(oldPre ++ pyNum i zeroPad ++ oldSuf) ++ " -> " ++
                  (newPre ++ pyNum i zeroPad ++ newSuf)]) mis con

/-- `FileSandbox.rename_files_sequence(...)`. -/
def rename_files_sequence (root : List String) (fs : FS)
    (oldPre oldSuf newPre newSuf : String) (start stop : Int) (zeroPad : Nat)
    (skipMissing overwrite : Bool) : OpResult :=
  bindE fs (fs.mkdirP root true) fun fs =>
  match rename_seq_loop root oldPre oldSuf newPre newSuf zeroPad skipMissing overwrite
      (intRange start stop) fs [] [] [] with
  | (fs, .error e) => (fs, .error e)
  | (fs, .ok (ren, mis, con)) =>
    (fs, .ok ("Renamed:\n" ++ joinOrNone ren ++
      "\n\nMissing:\n" ++ joinOrNone mis ++
      "\n\nConflicted (exists, not overwritten):\n" ++ joinOrNone con))

/-- `FileSandbox.delete_file(path)`. -/
def delete_file (root : List String) (fs : FS) (path : String) : OpResult :=
  bindE fs (fs.mkdirP root true) fun fs =>
  bindE fs (resolveRel root path) fun t =>
  if ¬ (fs.existsB t = true) then
    (fs, .error (.value ("File " ++ path ++ " does not exist.")))
  else if fs.isDirB t then
    (fs, .error (.value "delete_file only deletes files, not directories."))
  else (fs.removeFile t, .ok (pathStr t))

/-- The matched set of `FileSandbox.delete_glob(pattern)`: the glob
expansion against the root, filtered to matches that resolve inside the
sandbox (others are silently skipped) and are files. -/
def globDeleteSet (root : List String) (fs : FS) (pattern : String) : List (List String) :=
  (globMatches fs (joinPath root pattern)).filter
    (fun p => inSandboxB (pyNormalize root) p && fs.isFileB p)

/-- `FileSandbox.delete_glob(pattern)` (continued): the matched set is the
glob expansion filtered to in-sandbox files. -/
def delete_glob (root : List String) (fs : FS) (pattern : String) : OpResult :=
  bindE fs (fs.mkdirP root true) fun fs =>
  if globDeleteSet root fs pattern = [] then (fs, .ok "No files matched.")
  else ((globDeleteSet root fs pattern).foldl FS.removeFile fs,
    .ok ("Deleted " ++ toString (globDeleteSet root fs pattern).length ++ " files."))

/-- `FileSandbox.create_folder(path, exist_ok)`. -/
def create_folder (root : List String) (fs : FS) (path : String) (existOk : Bool) : OpResult :=
  bindE fs (fs.mkdirP root true) fun fs =>
  bindE fs (resolveRel root path) fun d =>
  if fs.existsB d ∧ ¬ (fs.isDirB d = true) then
    (fs, .error (.value ("Path exists and is not a directory: " ++ path)))
  else
    bindE fs (fs.mkdirP d existOk) fun fs =>
    (fs, .ok (pathStr d))

/-- The loop of `create_folders_sequence`. -/
def create_folders_loop (root : List String) (pre suf : String) (zeroPad : Nat) :
    List Int → FS → List String → List String →
    FS × Except Err (List String × List String)
  | [], fs, created, skipped => (fs, .ok (created, skipped))
  | i :: is, fs, created, skipped =>
    match resolveRel root (pre ++ pyNum i zeroPad ++ suf) with
    | .error e => (fs, .error e)
    | .ok d =>
      if fs.existsB d then
        create_folders_loop root pre suf zeroPad is fs created
          (skipped ++ [pre ++ pyNum i zeroPad ++ suf])
      else match fs.mkdirP d true with
        | .error e => (fs, .error e)
        | .ok fs1 => create_folders_loop root pre suf zeroPad is fs1
            (created ++ [pre ++ pyNum i zeroPad ++ suf]) skipped

/-- `FileSandbox.create_folders_sequence(prefix, suffix, start, end, zero_pad)`. -/
def create_folders_sequence (root : List String) (fs : FS) (pre suf : String)
    (start stop : Int) (zeroPad : Nat) : OpResult :=
  bindE fs (fs.mkdirP root true) fun fs =>
  match create_folders_loop root pre suf zeroPad (intRange start stop) fs [] [] with
  | (fs, .error e) => (fs, .error e)
  | (fs, .ok (created, skipped)) =>
    (fs, .ok ("Created:\n" ++ joinOrNone created ++
      "\n\nSkipped (already existed):\n" ++ joinOrNone skipped))

/-- `FileSandbox.delete_folder(path, recursive)`: `rmdir` failing on a
non-empty directory surfaces as the "not empty" `ValueError`. -/
def delete_folder (root : List String) (fs : FS) (path : String) (recursive : Bool) : OpResult :=
  bindE fs (fs.mkdirP root true) fun fs =>
  bindE fs (resolveRel root path) fun d =>
  if ¬ (fs.existsB d = true) then
    (fs, .error (.value ("Folder " ++ path ++ " does not exist.")))
  else if ¬ (fs.isDirB d = true) then
    (fs, .error (.value ("Path " ++ path ++ " is not a directory.")))
  else if recursive then
    (fs.rmtree d, .ok ("Recursively deleted " ++ path))
  else if fs.childNames d ≠ [] then
    (fs, .error (.value ("Folder " ++ path ++ " is not empty. Use recursive=True.")))
  else (fs.removeDir d, .ok ("Deleted empty folder " ++ path))

/-- The loop of `bulk_rename_regex` over the sorted walker entries.  The
regex substitution `re.compile(pattern).sub(replacement, ·)` on a file name
is modeled as the pure function `subst : String → String`; the name checks
of `Path.with_name` (which rejects `""`, `"."` and names containing the
separator) are applied to its output. -/
def bulk_loop (root : List String) (subst : String → String) (testOnly : Bool) :
    List (List String) → FS → List String → FS × Except Err (List String)
  | [], fs, changes => (fs, .ok changes)
  | p :: ps, fs, changes =>
    if ¬ (fs.isFileB p = true) then bulk_loop root subst testOnly ps fs changes
    else if subst (lastName p) = lastName p then bulk_loop root subst testOnly ps fs changes
    else if subst (lastName p) = "" ∨ subst (lastName p) = "." ∨
        (subst (lastName p)).data.contains '/' then
      (fs, .error (.value ("Invalid name " ++ subst (lastName p))))
    else
      match resolveRel root (relStr root (p.dropLast ++ [subst (lastName p)])) with
      | .error e => (fs, .error e)
      | .ok _ =>
        if testOnly then bulk_loop root subst testOnly ps fs (changes ++
          [relStr root p ++ " -> " ++ relStr root (p.dropLast ++ [subst (lastName p)])])
        else if fs.existsB (pyNormalize (p.dropLast ++ [subst (lastName p)])) then
          (fs, .error (.value ("Target already exists: " ++
            relStr root (p.dropLast ++ [subst (lastName p)]))))
        else match fs.renameP p (pyNormalize (p.dropLast ++ [subst (lastName p)])) with
          | .error e => (fs, .error e)
          | .ok fs1 => bulk_loop root subst testOnly ps fs1 (changes ++
              [relStr root p ++ " -> " ++ relStr root (p.dropLast ++ [subst (lastName p)])])

/-- The walker of `bulk_rename_regex`: `base.rglob("*")` or `base.glob("*")`,
materialized and sorted (paths compare by their string form). -/
def bulkWalker (fs : FS) (base : List String) (includeSubdirs : Bool) : List (List String) :=
  sortBy (fun a b => strLeB (pathStr a) (pathStr b))
    (if includeSubdirs then fs.descPaths base
     else (fs.childNames base).map (fun n => base ++ [n]))

/-- `FileSandbox.bulk_rename_regex(base_path, pattern, replacement,
include_subdirs, test_only)` with the substitution `subst` standing for
`re.compile(pattern).sub(replacement, ·)`. -/
def bulk_rename_regex (root : List String) (fs : FS) (basePath : String)
    (subst : String → String) (includeSubdirs testOnly : Bool) : OpResult :=
  bindE fs (fs.mkdirP root true) fun fs =>
  bindE fs (resolveRel root basePath) fun base =>
  if ¬ (fs.existsB base = true) then
    (fs, .error (.value ("Base path " ++ basePath ++ " does not exist.")))
  else if ¬ (fs.isDirB base = true) then
    (fs, .error (.value ("Base path " ++ basePath ++ " is not a directory.")))
  else
    match bulk_loop root subst testOnly (bulkWalker fs base includeSubdirs) fs [] with
    | (fs, .error e) => (fs, .error e)
    | (fs, .ok changes) =>
      if changes = [] then (fs, .ok "No matches.")
      else (fs, .ok ((if testOnly then "Preview (no changes):\n" else "Renamed:\n") ++
        String.intercalate "\n" changes))

/-- The sandbox root directory exists and no file sits at or above it (true
of every real sandbox on disk). -/
def rootIntact (root : List String) (fs : FS) : Prop :=
  fs.isDirB root = true ∧ ∀ q, q.isPrefixOf root = true → fs.isFileB q = false

/-- The cumulative effect of the renames performed by a
`rename_files_sequence` run over the index list `is`: each index moves the
root-level entry named by the old scheme to the one named by the new
scheme. -/
def renSeqFold (root : List String) (oldPre oldSuf newPre newSuf : String)
    (zp : Nat) (is : List Int) (fs : FS) : FS :=
  is.foldl (fun f i => f.remapAll (root ++ [oldPre ++ pyNum i zp ++ oldSuf])
    (root ++ [newPre ++ pyNum i zp ++ newSuf])) fs

/-- The cumulative effect of the renames performed by a non-test
`bulk_rename_regex` run: each walker entry `p` that is renamed moves to its
sibling named by the substitution. -/
def bulkRenFold (subst : String → String) (ws : List (List String)) (fs : FS) : FS :=
  ws.foldl (fun f p => f.remapAll p (p.dropLast ++ [subst (lastName p)])) fs

/-! ## Lemmas about the primitives -/

@[simp] theorem bindE_ok {α : Type} (st : FS) (a : α) (k : α → OpResult) :
    bindE st (.ok a) k = k a := rfl

@[simp] theorem bindE_error {α : Type} (st : FS) (e : Err) (k : α → OpResult) :
    bindE st (.error e) k = (st, .error e) := rfl

theorem lookup_filter_ne {β : Type} (l : List (List String × β)) (p q : List String)
    (h : q ≠ p) : (l.filter (fun e => e.1 ≠ p)).lookup q = l.lookup q := by
  induction l with
  | nil => rfl
  | cons e l ih =>
    obtain ⟨k, b⟩ := e
    by_cases hp : k = p
    · rw [List.filter_cons_of_neg (by simp [hp])]
      rw [List.lookup_cons]
      have hqk : (q == k) = false := by subst hp; simp [h]
      simp only [hqk, ih]
    · rw [List.filter_cons_of_pos (by simp [hp])]
      rw [List.lookup_cons, List.lookup_cons]
      cases hqk : (q == k) with
      | true => simp only [hqk]
      | false => simp only [hqk, ih]

theorem lookup_filter_self {β : Type} (l : List (List String × β)) (p : List String) :
    (l.filter (fun e => e.1 ≠ p)).lookup p = none := by
  induction l with
  | nil => rfl
  | cons e l ih =>
    obtain ⟨k, b⟩ := e
    by_cases hp : k = p
    · rw [List.filter_cons_of_neg (by simp [hp])]
      exact ih
    · rw [List.filter_cons_of_pos (by simp [hp])]
      rw [List.lookup_cons]
      have hqk : (p == k) = false := by simp [Ne.symm hp]
      simp only [hqk, ih]


@[simp] theorem getContent_setFile_self (fs : FS) (p : List String) (c : String) :
    (fs.setFile p c).getContent p = some c := by
  simp [FS.setFile, FS.getContent, List.lookup_cons]

theorem getContent_setFile_ne (fs : FS) (p q : List String) (c : String) (h : q ≠ p) :
    (fs.setFile p c).getContent q = fs.getContent q := by
  have hqp : (q == p) = false := by simp [h]
  simp only [FS.setFile, FS.getContent, List.lookup_cons, hqp]
  exact lookup_filter_ne fs.files p q h

@[simp] theorem getContent_removeFile_self (fs : FS) (p : List String) :
    (fs.removeFile p).getContent p = none := by
  simp only [FS.removeFile, FS.getContent]
  exact lookup_filter_self fs.files p

theorem getContent_removeFile_ne (fs : FS) (p q : List String) (h : q ≠ p) :
    (fs.removeFile p).getContent q = fs.getContent q := by
  simp only [FS.removeFile, FS.getContent]
  exact lookup_filter_ne fs.files p q h

@[simp] theorem dirs_setFile (fs : FS) (p : List String) (c : String) :
    (fs.setFile p c).dirs = fs.dirs := rfl

@[simp] theorem dirs_removeFile (fs : FS) (p : List String) :
    (fs.removeFile p).dirs = fs.dirs := rfl

@[simp] theorem isDirB_setFile (fs : FS) (p q : List String) (c : String) :
    (fs.setFile p c).isDirB q = fs.isDirB q := rfl

@[simp] theorem isDirB_removeFile (fs : FS) (p q : List String) :
    (fs.removeFile p).isDirB q = fs.isDirB q := rfl

theorem lookup_none_iff {β : Type} (l : List (List String × β)) (p : List String) :
    l.lookup p = none ↔ ∀ e ∈ l, e.1 ≠ p := by
  induction l with
  | nil => simp
  | cons e l ih =>
    obtain ⟨k, b⟩ := e
    rw [List.lookup_cons]
    cases hqk : (p == k) with
    | true =>
      have hpk : p = k := by simpa using hqk
      simp only [hqk]
      constructor
      · intro h
        exact absurd h (by simp)
      · intro hall
        exact absurd hpk.symm (hall (k, b) (by simp))
    | false =>
      simp only [hqk, ih, List.mem_cons]
      constructor
      · rintro hall x (rfl | hx)
        · intro hcon
          rw [show ((k, b) : List String × β).1 = k from rfl] at hcon
          subst hcon
          simp at hqk
        · exact hall x hx
      · intro hall x hx
        exact hall x (Or.inr hx)

theorem removeFile_eq_of_not_file (fs : FS) (p : List String)
    (h : fs.isFileB p = false) : fs.removeFile p = fs := by
  have hnone : fs.files.lookup p = none := by
    cases hl : fs.files.lookup p with
    | none => rfl
    | some c => simp [FS.isFileB, FS.getContent, hl] at h
  have hall : ∀ e ∈ fs.files, e.1 ≠ p := (lookup_none_iff _ _).1 hnone
  cases fs with
  | mk dirs files =>
    simp only [FS.removeFile, FS.mk.injEq, and_true, true_and]
    refine List.filter_eq_self.2 (fun e he => ?_)
    simp only [ne_eq, decide_not, Bool.not_eq_eq_eq_not, Bool.not_true, decide_eq_false_iff_not]
    exact hall e he

theorem mkdirP_files (fs fs' : FS) (p : List String) (ok : Bool)
    (h : fs.mkdirP p ok = .ok fs') : fs'.files = fs.files := by
  unfold FS.mkdirP at h
  split at h
  · exact absurd h (by simp)
  · split at h
    · split at h
      · cases h; rfl
      · exact absurd h (by simp)
    · cases h; rfl

theorem mkdirP_dirs_mono (fs fs' : FS) (p q : List String) (ok : Bool)
    (h : fs.mkdirP p ok = .ok fs') (hq : fs.isDirB q = true) : fs'.isDirB q = true := by
  unfold FS.mkdirP at h
  split at h
  · exact absurd h (by simp)
  · split at h
    · split at h
      · cases h; exact hq
      · exact absurd h (by simp)
    · cases h
      simp only [FS.isDirB, Bool.or_eq_true, decide_eq_true_eq, List.mem_append,
        beq_iff_eq] at hq ⊢
      rcases hq with hq | hq
      · exact Or.inl hq
      · exact Or.inr (Or.inl hq)

theorem mkdirP_getContent (fs fs' : FS) (p q : List String) (ok : Bool)
    (h : fs.mkdirP p ok = .ok fs') : fs'.getContent q = fs.getContent q := by
  simp [FS.getContent, mkdirP_files fs fs' p ok h]

theorem mkdirP_isFileB (fs fs' : FS) (p q : List String) (ok : Bool)
    (h : fs.mkdirP p ok = .ok fs') : fs'.isFileB q = fs.isFileB q := by
  simp [FS.isFileB, mkdirP_getContent fs fs' p q ok h]

theorem mkdirP_error_os (fs : FS) (p : List String) (ok : Bool) (e : Err)
    (h : fs.mkdirP p ok = .error e) : ∃ m, e = .os m := by
  unfold FS.mkdirP at h
  split at h
  · injection h with h'
    exact ⟨_, h'.symm⟩
  · split at h
    · split at h
      · exact absurd h (by simp)
      · injection h with h'
        exact ⟨_, h'.symm⟩
    · exact absurd h (by simp)

theorem mkdirP_self_ok (fs : FS) (p : List String)
    (h : fs.mkdirP p true = .ok fs) :
    fs.isDirB p = true ∧ ∀ q, q.isPrefixOf p = true → fs.isFileB q = false := by
  unfold FS.mkdirP at h
  split at h
  · exact absurd h (by simp)
  · rename_i hnof
    have hq : ∀ q, q.isPrefixOf p = true → fs.isFileB q = false := by
      intro q hqp
      by_contra hf
      apply hnof
      refine (List.any_eq_true).2 ⟨q, ?_, by simpa using hf⟩
      have := List.isPrefixOf_iff_prefix.1 hqp
      rcases this with ⟨t, rfl⟩
      simp only [pathPrefixes, List.mem_map, List.mem_range]
      refine ⟨q.length, by rw [List.length_append]; omega, ?_⟩
      simp [List.take_left]
    refine ⟨?_, hq⟩
    split at h
    · assumption
    · rename_i hnd
      exfalso
      have heq : ({ fs with dirs := fs.dirs ++
          (pathPrefixes p).filter (fun q => ¬ (fs.isDirB q = true)) } : FS) = fs := by
        injection h
      have hdirs : fs.dirs ++
          (pathPrefixes p).filter (fun q => ¬ (fs.isDirB q = true)) = fs.dirs := by
        have := congrArg FS.dirs heq
        simpa using this
      have hnil : (pathPrefixes p).filter (fun q => ¬ (fs.isDirB q = true)) = [] := by
        have : fs.dirs ++ (pathPrefixes p).filter (fun q => ¬ (fs.isDirB q = true)) =
            fs.dirs ++ [] := by simpa using hdirs
        exact List.append_cancel_left this
      have hp_mem : p ∈ (pathPrefixes p).filter (fun q => ¬ (fs.isDirB q = true)) := by
        refine List.mem_filter.2 ⟨?_, by simpa using hnd⟩
        simp only [pathPrefixes, List.mem_map, List.mem_range]
        exact ⟨p.length, by omega, by simp⟩
      rw [hnil] at hp_mem
      exact absurd hp_mem (List.not_mem_nil p)

/-! ## Lemmas about paths and resolution -/

theorem string_ext {a b : String} (h : a.data = b.data) : a = b := by
  cases a; cases b; exact congrArg String.mk h

theorem splitChar_no_sep (sep : Char) : ∀ r ∈ splitChar sep [], sep ∉ r := by
  intro r hr
  simp [splitChar] at hr
  simp [hr]

theorem splitChar_mem_no_sep (sep : Char) :
    ∀ (l : List Char), ∀ r ∈ splitChar sep l, sep ∉ r := by
  intro l
  induction l with
  | nil =>
    intro r hr
    simp only [splitChar, List.mem_singleton] at hr
    simp [hr]
  | cons c cs ih =>
    intro r hr
    simp only [splitChar] at hr
    by_cases hc : c = sep
    · rw [if_pos hc] at hr
      rcases List.mem_cons.1 hr with rfl | hr
      · simp
      · exact ih r hr
    · rw [if_neg hc] at hr
      cases hrest : splitChar sep cs with
      | nil =>
        rw [hrest] at hr
        simp only [List.mem_singleton] at hr
        subst hr
        intro hmem
        exact hc (List.mem_singleton.1 hmem).symm
      | cons r0 rs =>
        rw [hrest] at hr
        rcases List.mem_cons.1 hr with rfl | hr
        · intro hmem
          rcases List.mem_cons.1 hmem with rfl | hmem
          · exact hc rfl
          · exact ih r0 (hrest ▸ List.mem_cons_self r0 rs) hmem
        · exact ih r (hrest ▸ List.mem_cons.2 (Or.inr hr))

theorem pathSegs_no_slash (s : String) : ∀ seg ∈ pathSegs s, '/' ∉ seg.data := by
  intro seg hseg
  simp only [pathSegs, List.mem_filter, List.mem_map] at hseg
  obtain ⟨⟨r, hr, rfl⟩, _⟩ := hseg
  exact splitChar_mem_no_sep '/' s.data r hr

theorem pathSegs_ne_empty (s : String) : ∀ seg ∈ pathSegs s, seg ≠ "" := by
  intro seg hseg
  simp only [pathSegs, List.mem_filter] at hseg
  have := hseg.2
  simp only [Bool.and_eq_true, decide_eq_true_eq] at this
  exact this.1

theorem pyNormalize_mem (segs : List String) :
    ∀ x ∈ pyNormalize segs, x ∈ segs := by
  suffices h : ∀ (acc : List String), ∀ x ∈ segs.foldl
      (fun acc seg => if seg = ".." then acc.dropLast else acc ++ [seg]) acc,
      x ∈ acc ∨ x ∈ segs by
    intro x hx
    rcases h [] x hx with hc | hc
    · exact absurd hc (List.not_mem_nil x)
    · exact hc
  induction segs with
  | nil => intro acc x hx; exact Or.inl hx
  | cons seg rest ih =>
    intro acc x hx
    simp only [List.foldl_cons] at hx
    by_cases hs : seg = ".."
    · rw [if_pos hs] at hx
      rcases ih _ x hx with hc | hc
      · exact Or.inl (List.dropLast_prefix acc |>.subset hc)
      · exact Or.inr (List.mem_cons.2 (Or.inr hc))
    · rw [if_neg hs] at hx
      rcases ih _ x hx with hc | hc
      · rcases List.mem_append.1 hc with hc | hc
        · exact Or.inl hc
        · simp only [List.mem_singleton] at hc
          exact Or.inr (hc ▸ List.mem_cons_self seg rest)
      · exact Or.inr (List.mem_cons.2 (Or.inr hc))

theorem pyNormalize_of_no_dotdot (segs : List String)
    (h : ∀ x ∈ segs, x ≠ "..") : pyNormalize segs = segs := by
  suffices haux : ∀ (acc : List String), segs.foldl
      (fun acc seg => if seg = ".." then acc.dropLast else acc ++ [seg]) acc = acc ++ segs by
    simpa using haux []
  induction segs with
  | nil => intro acc; simp
  | cons seg rest ih =>
    intro acc
    simp only [List.foldl_cons]
    rw [if_neg (h seg (List.mem_cons_self seg rest))]
    rw [ih (fun x hx => h x (List.mem_cons.2 (Or.inr hx)))]
    simp

theorem slashfree_prefix : ∀ (a : List Char), ∀ (b u v : List Char), '/' ∉ a → '/' ∉ b →
    (a ++ '/' :: u) <+: (b ++ '/' :: v) → a = b ∧ u <+: v := by
  intro a
  induction a with
  | nil =>
    intro b u v _ hb h
    cases b with
    | nil =>
      simp only [List.nil_append] at h
      exact ⟨rfl, (List.cons_prefix_cons.1 h).2⟩
    | cons d ds =>
      simp only [List.nil_append, List.cons_append] at h
      have := (List.cons_prefix_cons.1 h).1
      exact absurd this.symm (by intro hh; exact hb (hh ▸ List.mem_cons_self d ds))
  | cons c cs ih =>
    intro b u v ha hb h
    cases b with
    | nil =>
      simp only [List.cons_append, List.nil_append] at h
      have := (List.cons_prefix_cons.1 h).1
      exact absurd this (by intro hh; exact ha (hh ▸ List.mem_cons_self c cs))
    | cons d ds =>
      simp only [List.cons_append] at h
      obtain ⟨hcd, h2⟩ := List.cons_prefix_cons.1 h
      have ha' : '/' ∉ cs := fun hm => ha (List.mem_cons.2 (Or.inr hm))
      have hb' : '/' ∉ ds := fun hm => hb (List.mem_cons.2 (Or.inr hm))
      obtain ⟨heq, hp⟩ := ih ds u v ha' hb' h2
      exact ⟨by rw [hcd, heq], hp⟩

theorem sepJoin_cons (s : String) (ts : List String) :
    sepJoin (s :: ts) = s.data ++ (if ts = [] then [] else '/' :: sepJoin ts) := by
  cases ts with
  | nil => simp [sepJoin]
  | cons t' ts' => simp [sepJoin]

theorem sepJoin_prefix : ∀ (root : List String), ∀ (t : List String),
    (∀ x ∈ root, '/' ∉ x.data) → (∀ x ∈ t, '/' ∉ x.data ∧ x ≠ "") →
    (sepJoin root ++ ['/']) <+: sepJoin t → root <+: t := by
  intro root
  induction root with
  | nil => intro t _ _ _; exact List.nil_prefix
  | cons r rs ih =>
    intro t hroot ht h
    cases t with
    | nil =>
      exfalso
      have h' : sepJoin (r :: rs) ++ ['/'] <+: ([] : List Char) := h
      have h0 := List.prefix_nil.1 h'
      simpa using congrArg List.length h0
    | cons s ts =>
      cases ts with
      | nil =>
        exfalso
        have hs : '/' ∉ s.data := (ht s (by simp)).1
        have h' : sepJoin (r :: rs) ++ ['/'] <+: s.data := h
        exact hs (h'.subset (List.mem_append.2 (Or.inr (by simp))))
      | cons t' ts' =>
        have hLHS : sepJoin (r :: rs) ++ ['/'] =
            r.data ++ '/' :: (if rs = [] then [] else sepJoin rs ++ ['/']) := by
          cases rs with
          | nil => simp [sepJoin]
          | cons r' rs' => simp [sepJoin]
        rw [hLHS, show sepJoin (s :: t' :: ts') = s.data ++ '/' :: sepJoin (t' :: ts') from rfl] at h
        obtain ⟨heq, hp⟩ := slashfree_prefix r.data s.data _ _
          (hroot r (by simp)) ((ht s (by simp)).1) h
        have hrs2 : r = s := string_ext heq
        subst hrs2
        refine List.cons_prefix_cons.2 ⟨rfl, ?_⟩
        by_cases hrs : rs = []
        · subst hrs
          exact List.nil_prefix
        · rw [if_neg hrs] at hp
          exact ih (t' :: ts') (fun x hx => hroot x (List.mem_cons.2 (Or.inr hx)))
            (fun x hx => ht x (List.mem_cons.2 (Or.inr hx))) hp

theorem startsWith_component_prefix (root t : List String)
    (hroot : ∀ x ∈ root, '/' ∉ x.data)
    (ht : ∀ x ∈ t, '/' ∉ x.data ∧ x ≠ "")
    (h : pyStartsWith (pathStr t) (pathStr root ++ "/") = true) : root <+: t := by
  apply sepJoin_prefix root t hroot ht
  have hdata : ((pathStr root ++ "/").data).isPrefixOf (pathStr t).data = true := h
  rw [String.data_append] at hdata
  have : (('/' :: sepJoin root) ++ ['/']) <+: ('/' :: sepJoin t) := by
    have := List.isPrefixOf_iff_prefix.1 hdata
    simpa [pathStr] using this
  have h2 : ('/' :: (sepJoin root ++ ['/'])) <+: ('/' :: sepJoin t) := by
    simpa using this
  exact (List.cons_prefix_cons.1 h2).2


theorem validSeg_spec (s : String) (h : validSeg s = true) :
    s ≠ "" ∧ s ≠ "." ∧ s ≠ ".." ∧ '/' ∉ s.data := by
  simp only [validSeg, Bool.and_eq_true, decide_eq_true_eq, ne_eq] at h
  exact ⟨h.1.1.1, h.1.1.2, h.1.2, h.2⟩

theorem validRoot_normalize (root : List String) (h : validRoot root = true) :
    pyNormalize root = root := by
  apply pyNormalize_of_no_dotdot
  intro x hx
  have := List.all_eq_true.1 h x hx
  exact (validSeg_spec x this).2.2.1

theorem validRoot_segs (root : List String) (h : validRoot root = true) :
    ∀ x ∈ root, '/' ∉ x.data ∧ x ≠ "" := by
  intro x hx
  have := validSeg_spec x (List.all_eq_true.1 h x hx)
  exact ⟨this.2.2.2, this.1⟩

theorem resolveTarget_segs (root : List String) (rel : String)
    (hroot : validRoot root = true) :
    ∀ x ∈ resolveTarget root rel, '/' ∉ x.data ∧ x ≠ "" := by
  intro x hx
  have hmem := pyNormalize_mem _ x hx
  unfold joinPath at hmem
  by_cases habs : isAbsStr rel = true
  · rw [if_pos habs] at hmem
    exact ⟨pathSegs_no_slash rel x hmem, pathSegs_ne_empty rel x hmem⟩
  · rw [if_neg habs] at hmem
    rcases List.mem_append.1 hmem with hm | hm
    · exact validRoot_segs root hroot x hm
    · exact ⟨pathSegs_no_slash rel x hm, pathSegs_ne_empty rel x hm⟩

theorem resolve_ok_elim (root : List String) (rel : String) (t : List String)
    (h : resolveRel root rel = .ok t) :
    t = resolveTarget root rel ∧
    inSandboxB (pyNormalize root) (resolveTarget root rel) = true := by
  unfold resolveRel at h
  split at h
  · exact ⟨by injection h with h2; exact h2.symm, by assumption⟩
  · exact absurd h (by simp)

theorem resolve_error_elim (root : List String) (rel : String) (e : Err)
    (h : resolveRel root rel = .error e) :
    e = .security ("For security reasons, paths must stay inside " ++
      pathStr (pyNormalize root) ++ ". Got: " ++ pathStr (resolveTarget root rel)) ∧
    inSandboxB (pyNormalize root) (resolveTarget root rel) = false := by
  unfold resolveRel at h
  split at h
  · exact absurd h (by simp)
  · refine ⟨by injection h with h2; exact h2.symm, by rename_i hc; simpa using hc⟩

theorem resolve_of_inSandbox (root : List String) (rel : String)
    (h : inSandboxB (pyNormalize root) (resolveTarget root rel) = true) :
    resolveRel root rel = .ok (resolveTarget root rel) := by
  unfold resolveRel
  rw [if_pos h]

theorem resolve_ok_root_pre (root : List String) (rel : String) (t : List String)
    (hv : validRoot root = true) (h : resolveRel root rel = .ok t) :
    root <+: t := by
  obtain ⟨rfl, hin⟩ := resolve_ok_elim root rel t h
  rw [validRoot_normalize root hv] at hin
  simp only [inSandboxB, Bool.or_eq_true, beq_iff_eq] at hin
  rcases hin with hin | hin
  · rw [hin]
  · exact startsWith_component_prefix root _ (fun x hx => (validRoot_segs root hv x hx).1)
      (resolveTarget_segs root rel hv) hin

theorem not_isPrefixOf_of_strict (root d : List String) (h : root <+: d) (hne : d ≠ root) :
    d.isPrefixOf root = false := by
  by_contra hc
  have hdr : d <+: root := List.isPrefixOf_iff_prefix.1 (by
    cases hcc : d.isPrefixOf root
    · exact absurd hcc hc
    · rfl)
  have h1 := h.length_le
  have h2 := hdr.length_le
  exact hne (hdr.eq_of_length (by omega))

/-! ## Claim C2: the contract of the path-resolution guard -/

/-- **C2**: applied to a relative path string, the guard computes
`target = normalize(root / relative)` and succeeds -- returning exactly that
target, never a clamped or truncated one -- if and only if `target` equals
the resolved root or `target`'s string form starts with the resolved root's
string followed immediately by the path separator; in every other case it
reports a security error naming the offending path. -/
theorem C2_resolve_guard_contract (root : List String) (rel : String) :
    (resolveRel root rel = .ok (resolveTarget root rel) ↔
      (resolveTarget root rel = pyNormalize root ∨
       pyStartsWith (pathStr (resolveTarget root rel))
         (pathStr (pyNormalize root) ++ "/") = true)) ∧
    (∀ e, resolveRel root rel = .error e →
      e = .security ("For security reasons, paths must stay inside " ++
        pathStr (pyNormalize root) ++ ". Got: " ++
        pathStr (resolveTarget root rel))) := by
  constructor
  · constructor
    · intro h
      have := (resolve_ok_elim root rel _ h).2
      simpa [inSandboxB] using this
    · intro h
      apply resolve_of_inSandbox
      simpa [inSandboxB] using h
  · intro e he
    exact (resolve_error_elim root rel e he).1

/-- Witness for C2 at a concrete root and relative path. -/
theorem C2_resolve_guard_contract_witness :
    resolveRel ["sb"] "notes/a.txt" = .ok (resolveTarget ["sb"] "notes/a.txt") :=
  (C2_resolve_guard_contract ["sb"] "notes/a.txt").1.mpr (by decide)

/-! ## Lemmas about mkdir, files and well-formedness -/

theorem lookup_some_mem {β : Type} (l : List (List String × β)) (p : List String) (c : β)
    (h : l.lookup p = some c) : (p, c) ∈ l := by
  induction l with
  | nil => simp [List.lookup] at h
  | cons e l ih =>
    obtain ⟨k, b⟩ := e
    rw [List.lookup_cons] at h
    cases hpk : (p == k) with
    | true =>
      rw [hpk] at h
      have h1 : p = k := by simpa using hpk
      have h2 : b = c := by simpa using h
      subst h1; subst h2
      exact List.mem_cons_self _ _
    | false =>
      rw [hpk] at h
      exact List.mem_cons.2 (Or.inr (ih h))

theorem isFileB_entry (fs : FS) (t : List String) (h : fs.isFileB t = true) :
    ∃ c, fs.getContent t = some c ∧ (t, c) ∈ fs.files := by
  cases hl : fs.getContent t with
  | none => simp [FS.isFileB, hl] at h
  | some c => exact ⟨c, rfl, lookup_some_mem fs.files t c hl⟩

theorem wf_spec (fs : FS) (h : fs.wf = true) :
    ∀ e ∈ fs.files, fs.isDirB e.1 = false ∧
      ∀ q ∈ fs.dirs ++ fs.files.map Prod.fst, ¬ (e.1 <+: q ∧ q ≠ e.1) := by
  intro e he
  have := List.all_eq_true.1 h e he
  simp only [Bool.and_eq_true, Bool.not_eq_eq_eq_not, Bool.not_true] at this
  refine ⟨this.1, ?_⟩
  intro q hq hcon
  have h2 := List.all_eq_true.1 this.2 q hq
  simp only [Bool.and_eq_true, Bool.not_eq_eq_eq_not, Bool.not_true, Bool.and_eq_false_iff,
    decide_eq_false_iff_not] at h2
  rcases h2 with h2 | h2
  · exact absurd (List.isPrefixOf_iff_prefix.2 hcon.1) (by simp [h2])
  · exact absurd hcon.2 (by simpa using h2)

theorem wf_no_file_above (fs : FS) (t : List String) (hwf : fs.wf = true)
    (ht : fs.isFileB t = true) : ∀ q, q <+: t → q ≠ t → fs.isFileB q = false := by
  intro q hq hne
  by_contra hf
  have hf' : fs.isFileB q = true := by
    cases hc : fs.isFileB q
    · exact absurd hc hf
    · rfl
  obtain ⟨cq, _, hqm⟩ := isFileB_entry fs q hf'
  obtain ⟨ct, _, htm⟩ := isFileB_entry fs t ht
  have := (wf_spec fs hwf (q, cq) hqm).2 t
    (List.mem_append.2 (Or.inr (List.mem_map.2 ⟨(t, ct), htm, rfl⟩)))
  exact this ⟨hq, fun hh => hne hh.symm⟩

theorem wf_file_not_dir (fs : FS) (t : List String) (hwf : fs.wf = true)
    (ht : fs.isFileB t = true) : fs.isDirB t = false := by
  obtain ⟨c, _, hm⟩ := isFileB_entry fs t ht
  exact (wf_spec fs hwf (t, c) hm).1

theorem pathPrefixes_isPre (p q : List String) (h : q ∈ pathPrefixes p) : q <+: p := by
  simp only [pathPrefixes, List.mem_map, List.mem_range] at h
  obtain ⟨k, _, rfl⟩ := h
  exact List.take_prefix k p

theorem mem_pathPrefixes (p q : List String) (h : q <+: p) : q ∈ pathPrefixes p := by
  obtain ⟨t, rfl⟩ := h
  simp only [pathPrefixes, List.mem_map, List.mem_range]
  exact ⟨q.length, by rw [List.length_append]; omega, by rw [List.take_left]⟩

theorem mkdirP_ok_exists (fs : FS) (p : List String)
    (h : ∀ q, q <+: p → fs.isFileB q = false) :
    ∃ fs', fs.mkdirP p true = .ok fs' ∧ fs'.files = fs.files ∧
      (∀ r, fs.isDirB r = true → fs'.isDirB r = true) ∧ fs'.isDirB p = true ∧
      (∀ r, fs'.isDirB r = true → fs.isDirB r = true ∨ r <+: p) := by
  have hany : ((pathPrefixes p).any fun q => fs.isFileB q) = false := by
    rw [List.any_eq_false]
    intro q hq
    simp [h q (pathPrefixes_isPre p q hq)]
  unfold FS.mkdirP
  rw [hany]
  simp only [Bool.false_eq_true, if_false]
  by_cases hd : fs.isDirB p = true
  · rw [if_pos hd]
    exact ⟨fs, rfl, rfl, fun r hr => hr, hd, fun r hr => Or.inl hr⟩
  · rw [if_neg hd]
    refine ⟨_, rfl, rfl, ?_, ?_, ?_⟩
    · intro r hr
      simp only [FS.isDirB, Bool.or_eq_true, decide_eq_true_eq, List.mem_append,
        beq_iff_eq] at hr ⊢
      rcases hr with hr | hr
      · exact Or.inl hr
      · exact Or.inr (Or.inl hr)
    · simp only [FS.isDirB, Bool.or_eq_true, decide_eq_true_eq, List.mem_append,
        beq_iff_eq]
      refine Or.inr (Or.inr (List.mem_filter.2 ⟨mem_pathPrefixes p p List.prefix_rfl, ?_⟩))
      simp only [decide_eq_true_eq]
      intro hcon
      apply hd
      simp only [FS.isDirB, Bool.or_eq_true, beq_iff_eq, decide_eq_true_eq]
      exact hcon
    · intro r hr
      simp only [FS.isDirB, Bool.or_eq_true, decide_eq_true_eq, List.mem_append,
        beq_iff_eq] at hr
      rcases hr with hr | hr | hr
      · exact Or.inl (by simp [FS.isDirB, hr])
      · exact Or.inl (by simp [FS.isDirB, hr])
      · exact Or.inr (pathPrefixes_isPre p r (List.mem_filter.1 hr).1)

/-! ## Claim C10: the read size ceiling is strict -/

theorem read_file_ok_of (root : List String) (fs : FS) (path : String) (maxBytes : Nat)
    (t : List String) (c : String)
    (hens : fs.mkdirP root true = .ok fs)
    (hres : resolveRel root path = .ok t)
    (hc : fs.getContent t = some c)
    (hsize : strBytes c ≤ maxBytes) :
    read_file root fs path maxBytes = (fs, .ok c) := by
  have hfile : fs.isFileB t = true := by simp [FS.isFileB, hc]
  have hex : fs.existsB t = true := by simp [FS.existsB, hfile]
  unfold read_file
  rw [hens, bindE_ok, hres, bindE_ok]
  rw [if_neg (by simp [hex, hfile])]
  rw [hc]
  simp only [Option.getD_some]
  rw [if_neg (by omega)]

theorem read_file_err_of (root : List String) (fs : FS) (path : String) (maxBytes : Nat)
    (t : List String) (c : String)
    (hens : fs.mkdirP root true = .ok fs)
    (hres : resolveRel root path = .ok t)
    (hc : fs.getContent t = some c)
    (hsize : strBytes c > maxBytes) :
    read_file root fs path maxBytes = (fs,
      .error (.value ("File is " ++ toString (strBytes c) ++ " bytes; exceeds limit " ++
        toString maxBytes ++ ". Increase max_bytes if needed."))) := by
  have hfile : fs.isFileB t = true := by simp [FS.isFileB, hc]
  have hex : fs.existsB t = true := by simp [FS.existsB, hfile]
  unfold read_file
  rw [hens, bindE_ok, hres, bindE_ok]
  rw [if_neg (by simp [hex, hfile])]
  rw [hc]
  simp only [Option.getD_some]
  rw [if_pos (by omega)]

/-- **C10**: the read_file byte-size ceiling is a strict bound: an existing
file whose size equals `max_bytes` exactly is read successfully, and the
SizeLimitExceeded failure occurs exactly when the size is strictly greater
than `max_bytes`. -/
theorem C10_read_size_limit_strict (root : List String) (fs : FS) (path : String)
    (maxBytes : Nat) (t : List String) (c : String)
    (hens : fs.mkdirP root true = .ok fs)
    (hres : resolveRel root path = .ok t)
    (hc : fs.getContent t = some c) :
    (strBytes c ≤ maxBytes → read_file root fs path maxBytes = (fs, .ok c)) ∧
    (strBytes c > maxBytes → read_file root fs path maxBytes = (fs,
      .error (.value ("File is " ++ toString (strBytes c) ++ " bytes; exceeds limit " ++
        toString maxBytes ++ ". Increase max_bytes if needed.")))) :=
  ⟨fun h => read_file_ok_of root fs path maxBytes t c hens hres hc h,
   fun h => read_file_err_of root fs path maxBytes t c hens hres hc h⟩

/-- Witness for C10: a 2-byte file read with `max_bytes = 2` succeeds. -/
theorem C10_read_size_limit_strict_witness :
    read_file ["sb"] ⟨[["sb"]], [(["sb", "h.txt"], "ab")]⟩ "h.txt" 2 =
      (⟨[["sb"]], [(["sb", "h.txt"], "ab")]⟩, .ok "ab") :=
  (C10_read_size_limit_strict ["sb"] ⟨[["sb"]], [(["sb", "h.txt"], "ab")]⟩ "h.txt" 2
    ["sb", "h.txt"] "ab" (by rfl) (by rfl) (by rfl)).1 (by decide)

/-! ## Claim C9: empty-range sequence operations -/

theorem intRange_nil (start stop : Int) (h : stop < start) : intRange start stop = [] := by
  unfold intRange
  have h0 : (stop + 1 - start).toNat = 0 := by omega
  rw [h0]
  rfl

/-- **C9**: for both create_files_sequence and create_folders_sequence,
`start > end` touches no filesystem entry and returns the report whose
created and skipped sections both read `(none)`. -/
theorem C9_empty_range_sequences (root : List String) (fs : FS) (pre suf content : String)
    (start stop : Int) (zeroPad : Nat)
    (hens : fs.mkdirP root true = .ok fs) (h : stop < start) :
    create_files_sequence root fs pre suf start stop zeroPad content =
      (fs, .ok "Created:\n(none)\n\nSkipped (already existed):\n(none)") ∧
    create_folders_sequence root fs pre suf start stop zeroPad =
      (fs, .ok "Created:\n(none)\n\nSkipped (already existed):\n(none)") := by
  constructor
  · unfold create_files_sequence
    rw [hens, bindE_ok, intRange_nil start stop h]
    rfl
  · unfold create_folders_sequence
    rw [hens, bindE_ok, intRange_nil start stop h]
    rfl

/-- Witness for C9 at a concrete state and range. -/
theorem C9_empty_range_sequences_witness :
    create_files_sequence ["sb"] ⟨[["sb"]], []⟩ "f" ".txt" 5 2 0 "" =
      (⟨[["sb"]], []⟩, .ok "Created:\n(none)\n\nSkipped (already existed):\n(none)") :=
  (C9_empty_range_sequences ["sb"] ⟨[["sb"]], []⟩ "f" ".txt" ""
    5 2 0 (by rfl) (by decide)).1

/-! ## Claim C7: create on existing path vs write -/

/-- **C7**: on a path where a file already exists, create_file always fails
with the AlreadyExists error and changes nothing, while write_file on the
same path always succeeds and overwrites exactly that file content. -/
theorem C7_create_fails_write_overwrites (root : List String) (fs : FS)
    (path content : String) (t : List String)
    (hwf : fs.wf = true)
    (hens : fs.mkdirP root true = .ok fs)
    (hres : resolveRel root path = .ok t)
    (hfile : fs.isFileB t = true) :
    create_file root fs path content =
      (fs, .error (.value ("File " ++ path ++ " already exists."))) ∧
    ∃ fs', write_file root fs path content = (fs', .ok (pathStr t)) ∧
      fs'.getContent t = some content ∧
      ∀ q, q ≠ t → fs'.getContent q = fs.getContent q := by
  have hex : fs.existsB t = true := by simp [FS.existsB, hfile]
  constructor
  · unfold create_file
    rw [hens, bindE_ok, hres, bindE_ok, if_pos hex]
  · have htnil : t ≠ [] := by
      intro hh
      have hc := wf_file_not_dir fs t hwf hfile
      rw [hh] at hc
      simp [FS.isDirB] at hc
    have htlen : t.length ≠ 0 := fun hl => htnil (List.eq_nil_of_length_eq_zero hl)
    have hpref : ∀ q, q <+: t.dropLast → fs.isFileB q = false := by
      intro q hq
      have hq2 : q <+: t := hq.trans (List.dropLast_prefix t)
      have hne : q ≠ t := by
        intro hh
        subst hh
        have h1 := hq.length_le
        rw [List.length_dropLast] at h1
        omega
      exact wf_no_file_above fs t hwf hfile q hq2 hne
    obtain ⟨fs2, hmk, hfiles2, hmono2, hdir2, hnew2⟩ := mkdirP_ok_exists fs t.dropLast hpref
    have hnd2 : fs2.isDirB t = false := by
      cases hc : fs2.isDirB t
      · rfl
      · exfalso
        rcases hnew2 t hc with hold | hpre
        · rw [wf_file_not_dir fs t hwf hfile] at hold
          exact Bool.false_ne_true hold
        · have h1 := hpre.length_le
          rw [List.length_dropLast] at h1
          omega
    refine ⟨fs2.setFile t content, ?_, ?_, ?_⟩
    · unfold write_file
      rw [hens, bindE_ok, hres, bindE_ok, hmk, bindE_ok]
      unfold FS.writeText
      rw [hnd2]
      simp only [Bool.false_eq_true, if_false, bindE_ok]
    · exact getContent_setFile_self fs2 t content
    · intro q hq
      rw [getContent_setFile_ne fs2 t q content hq]
      simp [FS.getContent, hfiles2]

/-- Witness for C7 at a concrete state. -/
theorem C7_create_fails_write_overwrites_witness :
    create_file ["sb"] ⟨[["sb"]], [(["sb", "h.txt"], "old")]⟩ "h.txt" "new" =
      (⟨[["sb"]], [(["sb", "h.txt"], "old")]⟩,
        .error (.value "File h.txt already exists.")) ∧
    ∃ fs', write_file ["sb"] ⟨[["sb"]], [(["sb", "h.txt"], "old")]⟩ "h.txt" "new" =
      (fs', .ok (pathStr ["sb", "h.txt"])) ∧
      fs'.getContent ["sb", "h.txt"] = some "new" := by
  obtain ⟨h1, fs', h2, h3, _⟩ := C7_create_fails_write_overwrites ["sb"]
    ⟨[["sb"]], [(["sb", "h.txt"], "old")]⟩ "h.txt" "new" ["sb", "h.txt"]
    (by decide) (by rfl) (by rfl) (by decide)
  exact ⟨h1, fs', h2, h3⟩

/-! ## Claim C8: create/read round-trip and the size cap -/

theorem strBytes_replicate_one (n : Nat) (c : Char) (h : c.utf8Size = 1) :
    strBytes (String.mk (List.replicate n c)) = n := by
  unfold strBytes
  suffices haux : ∀ (m : Nat) (acc : Nat),
      (List.replicate m c).foldl (fun k ch => k + ch.utf8Size) acc = acc + m by
    simpa using haux n 0
  intro m
  induction m with
  | zero => intro acc; simp
  | succ m ih =>
    intro acc
    rw [List.replicate_succ, List.foldl_cons, ih]
    omega

theorem mkdirP_noop (fs : FS) (p : List String)
    (hd : fs.isDirB p = true) (hf : ∀ q, q <+: p → fs.isFileB q = false) :
    fs.mkdirP p true = .ok fs := by
  have hany : ((pathPrefixes p).any fun q => fs.isFileB q) = false := by
    rw [List.any_eq_false]
    intro q hq
    simp [hf q (pathPrefixes_isPre p q hq)]
  unfold FS.mkdirP
  rw [hany]
  simp only [Bool.false_eq_true, if_false]
  rw [if_pos hd]
  simp

/-- C8 counterexample: with the default 200000-byte cap, a 200001-byte
content breaks the round-trip: create_file succeeds but read_file fails
with SizeLimitExceeded instead of returning the written content. -/
theorem C8_roundtrip_counterexample :
    create_file ["sb"] ⟨[["sb"]], []⟩ "big.txt" (String.mk (List.replicate 200001 'a')) =
      (⟨[["sb"]], [(["sb", "big.txt"], String.mk (List.replicate 200001 'a'))]⟩,
        .ok "/sb/big.txt") ∧
    read_file ["sb"]
        ⟨[["sb"]], [(["sb", "big.txt"], String.mk (List.replicate 200001 'a'))]⟩
        "big.txt" 200000 =
      (⟨[["sb"]], [(["sb", "big.txt"], String.mk (List.replicate 200001 'a'))]⟩,
        .error (.value
          "File is 200001 bytes; exceeds limit 200000. Increase max_bytes if needed.")) := by
  have hb : strBytes (String.mk (List.replicate 200001 'a')) = 200001 :=
    strBytes_replicate_one 200001 'a' (by decide)
  constructor
  · rfl
  · have h := read_file_err_of ["sb"]
      ⟨[["sb"]], [(["sb", "big.txt"], String.mk (List.replicate 200001 'a'))]⟩
      "big.txt" 200000 ["sb", "big.txt"] (String.mk (List.replicate 200001 'a'))
      (by rfl) (by rfl) (by rfl) (by rw [hb]; omega)
    rw [hb] at h
    exact h

/-- **C8 (amended)**: for every in-sandbox path at which nothing exists (and
whose ancestors are not blocked by files), create_file followed by read_file
returns exactly the written content, provided the content's UTF-8 byte size
does not exceed the read cap (the code's default cap is 200000 bytes). -/
theorem C8_create_read_roundtrip (root : List String) (fs : FS) (path content : String)
    (maxBytes : Nat) (t : List String)
    (hv : validRoot root = true)
    (hens : fs.mkdirP root true = .ok fs)
    (hres : resolveRel root path = .ok t)
    (hnew : fs.existsB t = false)
    (hpref : ∀ q, q <+: t → q ≠ t → fs.isFileB q = false)
    (hsize : strBytes content ≤ maxBytes) :
    ∃ fs', create_file root fs path content = (fs', .ok (pathStr t)) ∧
      read_file root fs' path maxBytes = (fs', .ok content) := by
  obtain ⟨hrootdir, hrootpref⟩ := mkdirP_self_ok fs root hens
  have htnil : t ≠ [] := by
    intro hh
    rw [hh] at hnew
    simp [FS.existsB, FS.isDirB] at hnew
  have htlen : t.length ≠ 0 := fun hl => htnil (List.eq_nil_of_length_eq_zero hl)
  have hnf : fs.isFileB t = false := by
    have := hnew
    simp only [FS.existsB, Bool.or_eq_false_iff] at this
    exact this.2
  have hprefAll : ∀ q, q <+: t → fs.isFileB q = false := by
    intro q hq
    by_cases hqt : q = t
    · rw [hqt]; exact hnf
    · exact hpref q hq hqt
  have hpref2 : ∀ q, q <+: t.dropLast → fs.isFileB q = false := by
    intro q hq
    exact hprefAll q (hq.trans (List.dropLast_prefix t))
  obtain ⟨fs2, hmk, hfiles2, hmono2, hdir2, hnew2⟩ := mkdirP_ok_exists fs t.dropLast hpref2
  have hnd2 : fs2.isDirB t = false := by
    cases hc : fs2.isDirB t
    · rfl
    · exfalso
      rcases hnew2 t hc with hold | hpre
      · have : fs.existsB t = true := by simp [FS.existsB, hold]
        rw [hnew] at this
        exact Bool.false_ne_true this
      · have h1 := hpre.length_le
        rw [List.length_dropLast] at h1
        omega
  have hrootp : root <+: t := resolve_ok_root_pre root path t hv hres
  have htroot : t ≠ root := by
    intro hh
    rw [hh] at hnew
    have : fs.existsB root = true := by simp [FS.existsB, hrootdir]
    rw [hnew] at this
    exact Bool.false_ne_true this
  refine ⟨fs2.setFile t content, ?_, ?_⟩
  · unfold create_file
    rw [hens, bindE_ok, hres, bindE_ok, if_neg (by simp [hnew]), hmk, bindE_ok]
    unfold FS.writeText
    rw [hnd2]
    simp only [Bool.false_eq_true, if_false, bindE_ok]
  · apply read_file_ok_of root (fs2.setFile t content) path maxBytes t content
    · apply mkdirP_noop
      · exact isDirB_setFile fs2 t root content ▸ hmono2 root hrootdir
      · intro q hq
        by_cases hqt : q = t
        · exfalso
          rw [hqt] at hq
          have hle1 := hq.length_le
          have hle2 := hrootp.length_le
          exact htroot (hq.eq_of_length (by omega))
        · rw [show (fs2.setFile t content).isFileB q = fs2.isFileB q from by
            simp [FS.isFileB, getContent_setFile_ne fs2 t q content hqt]]
          rw [show fs2.isFileB q = fs.isFileB q from by
            simp [FS.isFileB, FS.getContent, hfiles2]]
          exact hrootpref q (List.isPrefixOf_iff_prefix.2 hq)
    · exact hres
    · exact getContent_setFile_self fs2 t content
    · exact hsize

/-- Witness for the amended C8 at a concrete input (the repository's own
test scenario: create "hello.txt" with "hi" and read it back). -/
theorem C8_create_read_roundtrip_witness :
    ∃ fs', create_file ["sb"] ⟨[["sb"]], []⟩ "hello.txt" "hi" =
        (fs', .ok (pathStr ["sb", "hello.txt"])) ∧
      read_file ["sb"] fs' "hello.txt" 200000 = (fs', .ok "hi") :=
  C8_create_read_roundtrip ["sb"] ⟨[["sb"]], []⟩ "hello.txt" "hi" 200000
    ["sb", "hello.txt"] (by decide) (by rfl) (by rfl) (by rfl)
    (fun q _ _ => rfl) (by decide)

/-! ## Concrete counterexamples for claims C1, C3, C4, C5, C6 -/

/-- C1 counterexample: delete_glob with a `..`-escaping pattern does not
reject it with a SecurityViolation; it silently reports no matches (the
escaping match is filtered out), even though the pattern resolves outside
the sandbox and a file exists there. -/
theorem C1_glob_no_security_counterexample :
    delete_glob ["sb"] ⟨[["sb"]], [(["esc.txt"], "x")]⟩ "../esc.txt" =
      (⟨[["sb"]], [(["esc.txt"], "x")]⟩, .ok "No files matched.") ∧
    resolveRel ["sb"] "../esc.txt" =
      .error (.security
        "For security reasons, paths must stay inside /sb. Got: /esc.txt") :=
  ⟨rfl, rfl⟩

/-- C3 counterexample: an absolute path pointing inside the sandbox root is
accepted (create_file succeeds and writes the file), not rejected with a
security error. -/
theorem C3_absolute_inside_counterexample :
    isAbsStr "/sb/abs.txt" = true ∧
    create_file ["sb"] ⟨[["sb"]], []⟩ "/sb/abs.txt" "hi" =
      (⟨[["sb"]], [(["sb", "abs.txt"], "hi")]⟩, .ok "/sb/abs.txt") :=
  ⟨rfl, rfl⟩

/-- C4 counterexample: delete_folder on "." with recursive=true removes the
sandbox root directory itself. -/
theorem C4_delete_root_counterexample :
    delete_folder ["sb"] ⟨[["sb"], ["sb", "d"]], [(["sb", "a.txt"], "x")]⟩ "." true =
      (⟨[], []⟩, .ok "Recursively deleted .") ∧
    FS.isDirB ⟨[], []⟩ ["sb"] = false :=
  ⟨rfl, rfl⟩

/-- C5 counterexample: with skip_missing=false and the missing source at the
second index, the call raises on that index but the first file has already
been renamed: the batch does not fail "before renaming any file". -/
theorem C5_failfast_counterexample :
    rename_files_sequence ["sb"] ⟨[["sb"]], [(["sb", "a1.txt"], "")]⟩
        "a" ".txt" "b" ".txt" 1 2 0 false false =
      (⟨[["sb"]], [(["sb", "b1.txt"], "")]⟩, .error (.value "Missing: a2.txt")) :=
  rfl

/-- C6 counterexample: a preview (test_only=true) lists a rename whose target
already exists; the subsequent real run (test_only=false) with the same
arguments on the unchanged filesystem does not perform that rename -- it
aborts with AlreadyExists, leaving the filesystem unchanged.  The
substitution function stands for `re.sub("a", "b", name)`. -/
theorem C6_preview_counterexample :
    bulk_rename_regex ["sb"] ⟨[["sb"]], [(["sb", "a.txt"], "1"), (["sb", "b.txt"], "2")]⟩
        "." (fun n => String.mk (n.data.map (fun c => if c = 'a' then 'b' else c)))
        true true =
      (⟨[["sb"]], [(["sb", "a.txt"], "1"), (["sb", "b.txt"], "2")]⟩,
        .ok "Preview (no changes):\na.txt -> b.txt") ∧
    bulk_rename_regex ["sb"] ⟨[["sb"]], [(["sb", "a.txt"], "1"), (["sb", "b.txt"], "2")]⟩
        "." (fun n => String.mk (n.data.map (fun c => if c = 'a' then 'b' else c)))
        true false =
      (⟨[["sb"]], [(["sb", "a.txt"], "1"), (["sb", "b.txt"], "2")]⟩,
        .error (.value "Target already exists: b.txt")) :=
  ⟨rfl, rfl⟩

/-! ## Rejection of guard failures by the operations -/

theorem resolveTarget_abs (root : List String) (p : String) (h : isAbsStr p = true) :
    resolveTarget root p = pyNormalize (pathSegs p) := by
  unfold resolveTarget joinPath
  rw [if_pos h]

theorem intRange_cons (start stop : Int) (h : start ≤ stop) :
    intRange start stop = start :: intRange (start + 1) stop := by
  unfold intRange
  have h1 : (stop + 1 - start).toNat = (stop + 1 - (start + 1)).toNat + 1 := by omega
  rw [h1, List.range_succ_eq_map, List.map_cons, List.map_map]
  refine congrArg₂ List.cons (by simp) ?_
  apply List.map_congr_left
  intro k _
  simp only [Function.comp_apply, Int.ofNat_eq_natCast]
  push_cast
  ring

theorem foldl_removeFile_getContent (l : List (List String)) (fs : FS) (q : List String)
    (h : q ∉ l) : (l.foldl FS.removeFile fs).getContent q = fs.getContent q := by
  induction l generalizing fs with
  | nil => rfl
  | cons a l ih =>
    rw [List.foldl_cons]
    have hq : q ∉ l := fun hm => h (List.mem_cons.2 (Or.inr hm))
    have hqa : q ≠ a := fun hm => h (by rw [hm]; exact List.mem_cons_self a l)
    rw [ih (fs.removeFile a) hq]
    exact getContent_removeFile_ne fs a q hqa

theorem foldl_removeFile_dirs (l : List (List String)) (fs : FS) :
    (l.foldl FS.removeFile fs).dirs = fs.dirs := by
  induction l generalizing fs with
  | nil => rfl
  | cons a l ih =>
    rw [List.foldl_cons, ih]
    rfl

/-- All guard-using operations reject a path whose resolution fails, with
the guard's error, leaving the state exactly as `ensure()` left it (for
`copy/move/rename` this holds in both path positions). -/
theorem ops_reject_on_guard_error (root : List String) (fs fs1 : FS) (p : String) (e : Err)
    (hens : fs.mkdirP root true = .ok fs1)
    (hres : resolveRel root p = .error e) :
    (∀ tr md, list_dir root fs p tr md = (fs1, .error e)) ∧
    (∀ mb, read_file root fs p mb = (fs1, .error e)) ∧
    (∀ c, write_file root fs p c = (fs1, .error e)) ∧
    (∀ c, append_file root fs p c = (fs1, .error e)) ∧
    (∀ dst ov, copy_file root fs p dst ov = (fs1, .error e)) ∧
    (∀ src s ov, resolveRel root src = .ok s →
      copy_file root fs src p ov = (fs1, .error e)) ∧
    (∀ dst ov, move_file root fs p dst ov = (fs1, .error e)) ∧
    (∀ src s ov, resolveRel root src = .ok s →
      move_file root fs src p ov = (fs1, .error e)) ∧
    (∀ c, create_file root fs p c = (fs1, .error e)) ∧
    (∀ np, rename_file root fs p np = (fs1, .error e)) ∧
    (∀ op o, resolveRel root op = .ok o →
      rename_file root fs op p = (fs1, .error e)) ∧
    delete_file root fs p = (fs1, .error e) ∧
    (∀ ok, create_folder root fs p ok = (fs1, .error e)) ∧
    (∀ rec, delete_folder root fs p rec = (fs1, .error e)) ∧
    (∀ subst inc tOnly, bulk_rename_regex root fs p subst inc tOnly = (fs1, .error e)) := by
  refine ⟨?_, ?_, ?_, ?_, ?_, ?_, ?_, ?_, ?_, ?_, ?_, ?_, ?_, ?_, ?_⟩
  · intro tr md
    unfold list_dir
    rw [hens, bindE_ok, hres, bindE_error]
  · intro mb
    unfold read_file
    rw [hens, bindE_ok, hres, bindE_error]
  · intro c
    unfold write_file
    rw [hens, bindE_ok, hres, bindE_error]
  · intro c
    unfold append_file
    rw [hens, bindE_ok, hres, bindE_error]
  · intro dst ov
    unfold copy_file
    rw [hens, bindE_ok, hres, bindE_error]
  · intro src s ov hok
    unfold copy_file
    rw [hens, bindE_ok, hok, bindE_ok, hres, bindE_error]
  · intro dst ov
    unfold move_file
    rw [hens, bindE_ok, hres, bindE_error]
  · intro src s ov hok
    unfold move_file
    rw [hens, bindE_ok, hok, bindE_ok, hres, bindE_error]
  · intro c
    unfold create_file
    rw [hens, bindE_ok, hres, bindE_error]
  · intro np
    unfold rename_file
    rw [hens, bindE_ok, hres, bindE_error]
  · intro op o hok
    unfold rename_file
    rw [hens, bindE_ok, hok, bindE_ok, hres, bindE_error]
  · unfold delete_file
    rw [hens, bindE_ok, hres, bindE_error]
  · intro ok
    unfold create_folder
    rw [hens, bindE_ok, hres, bindE_error]
  · intro rec
    unfold delete_folder
    rw [hens, bindE_ok, hres, bindE_error]
  · intro subst inc tOnly
    unfold bulk_rename_regex
    rw [hens, bindE_ok, hres, bindE_error]

/-- The three sequence operations hit the guard on each constructed name:
when the first name in the range escapes, each raises the guard's error
with no mutation beyond `ensure()`. -/
theorem seq_ops_reject_first (root : List String) (fs fs1 : FS)
    (pre suf content oldPre oldSuf newPre newSuf : String)
    (start stop : Int) (zeroPad : Nat) (skipMissing overwrite : Bool) (e : Err)
    (hens : fs.mkdirP root true = .ok fs1)
    (hle : start ≤ stop) :
    (resolveRel root (pre ++ pyNum start zeroPad ++ suf) = .error e →
      create_files_sequence root fs pre suf start stop zeroPad content =
        (fs1, .error e) ∧
      create_folders_sequence root fs pre suf start stop zeroPad = (fs1, .error e)) ∧
    (resolveRel root (oldPre ++ pyNum start zeroPad ++ oldSuf) = .error e →
      rename_files_sequence root fs oldPre oldSuf newPre newSuf start stop zeroPad
        skipMissing overwrite = (fs1, .error e)) := by
  constructor
  · intro hres
    constructor
    · unfold create_files_sequence
      rw [hens, bindE_ok, intRange_cons start stop hle]
      simp only [create_files_loop, hres]
    · unfold create_folders_sequence
      rw [hens, bindE_ok, intRange_cons start stop hle]
      simp only [create_folders_loop, hres]
  · intro hres
    unfold rename_files_sequence
    rw [hens, bindE_ok, intRange_cons start stop hle]
    simp only [rename_seq_loop, hres]

/-- delete_glob never raises the guard's SecurityViolation, and deletes only
files lying inside the sandbox (out-of-root matches are silently skipped). -/
theorem delete_glob_clauses (root : List String) (fs fs1 : FS) (pattern : String)
    (hens : fs.mkdirP root true = .ok fs1) :
    (∀ e, (delete_glob root fs pattern).2 = .error e → ∃ m, e = .os m) ∧
    (delete_glob root fs pattern).1.dirs = fs1.dirs ∧
    (∀ q, (delete_glob root fs pattern).1.getContent q ≠ fs1.getContent q →
      inSandboxB (pyNormalize root) q = true ∧ fs1.isFileB q = true) := by
  have hglob : delete_glob root fs pattern =
      (if globDeleteSet root fs1 pattern = [] then (fs1, .ok "No files matched.")
       else ((globDeleteSet root fs1 pattern).foldl FS.removeFile fs1,
         .ok ("Deleted " ++ toString (globDeleteSet root fs1 pattern).length ++
           " files."))) := by
    unfold delete_glob
    rw [hens, bindE_ok]
  refine ⟨?_, ?_, ?_⟩
  · intro e he
    rw [hglob] at he
    split at he
    · exact absurd he (by simp)
    · exact absurd he (by simp)
  · rw [hglob]
    split
    · rfl
    · exact foldl_removeFile_dirs _ fs1
  · intro q hq
    rw [hglob] at hq
    split at hq
    · exact absurd rfl hq
    · by_cases hmem : q ∈ globDeleteSet root fs1 pattern
      · have := (List.mem_filter.1 hmem).2
        simp only [Bool.and_eq_true] at this
        exact this
      · exact absurd (foldl_removeFile_getContent _ fs1 q hmem) hq

/-- The create-files loop processes an appended index list in two stages:
the first list runs to completion (threading state and accumulators into the
second) unless it errors, in which case the error and the state reached are
returned as is. -/
theorem create_files_loop_append (root : List String) (pre suf content : String)
    (zeroPad : Nat) :
    ∀ (is1 is2 : List Int) (fs : FS) (cr sk : List String),
    create_files_loop root pre suf zeroPad content (is1 ++ is2) fs cr sk =
      (match create_files_loop root pre suf zeroPad content is1 fs cr sk with
       | (fsm, .ok (cr1, sk1)) =>
         create_files_loop root pre suf zeroPad content is2 fsm cr1 sk1
       | (fsm, .error e) => (fsm, .error e)) := by
  intro is1
  induction is1 with
  | nil =>
    intro is2 fs cr sk
    rfl
  | cons i is1 ih =>
    intro is2 fs cr sk
    rw [List.cons_append]
    cases hres : resolveRel root (pre ++ pyNum i zeroPad ++ suf) with
    | error e =>
      simp only [create_files_loop, hres]
    | ok p =>
      by_cases hex : fs.existsB p = true
      · simp only [create_files_loop, hres, hex, if_true]
        exact ih is2 fs cr _
      · cases hmk : fs.mkdirP p.dropLast true with
        | error e2 =>
          simp only [create_files_loop, hres, hex, Bool.false_eq_true, if_false, hmk]
        | ok fsa =>
          cases hw : fsa.writeText p content with
          | error e3 =>
            simp only [create_files_loop, hres, hex, Bool.false_eq_true, if_false, hmk, hw]
          | ok fsb =>
            simp only [create_files_loop, hres, hex, Bool.false_eq_true, if_false, hmk, hw]
            exact ih is2 fsb _ sk

/-- The create-folders loop decomposes over an appended index list the same
way. -/
theorem create_folders_loop_append (root : List String) (pre suf : String)
    (zeroPad : Nat) :
    ∀ (is1 is2 : List Int) (fs : FS) (cr sk : List String),
    create_folders_loop root pre suf zeroPad (is1 ++ is2) fs cr sk =
      (match create_folders_loop root pre suf zeroPad is1 fs cr sk with
       | (fsm, .ok (cr1, sk1)) =>
         create_folders_loop root pre suf zeroPad is2 fsm cr1 sk1
       | (fsm, .error e) => (fsm, .error e)) := by
  intro is1
  induction is1 with
  | nil =>
    intro is2 fs cr sk
    rfl
  | cons i is1 ih =>
    intro is2 fs cr sk
    rw [List.cons_append]
    cases hres : resolveRel root (pre ++ pyNum i zeroPad ++ suf) with
    | error e =>
      simp only [create_folders_loop, hres]
    | ok p =>
      by_cases hex : fs.existsB p = true
      · simp only [create_folders_loop, hres, hex, if_true]
        exact ih is2 fs cr _
      · cases hmk : fs.mkdirP p true with
        | error e2 =>
          simp only [create_folders_loop, hres, hex, Bool.false_eq_true, if_false, hmk]
        | ok fsa =>
          simp only [create_folders_loop, hres, hex, Bool.false_eq_true, if_false, hmk]
          exact ih is2 fsa _ sk

/-- The rename loop decomposes over an appended index list the same way. -/
theorem rename_seq_loop_append (root : List String)
    (oldPre oldSuf newPre newSuf : String) (zp : Nat) (sm ov : Bool) :
    ∀ (is1 is2 : List Int) (fs : FS) (ren mis con : List String),
    rename_seq_loop root oldPre oldSuf newPre newSuf zp sm ov (is1 ++ is2)
        fs ren mis con =
      (match rename_seq_loop root oldPre oldSuf newPre newSuf zp sm ov is1
          fs ren mis con with
       | (fsm, .ok (ren1, mis1, con1)) =>
         rename_seq_loop root oldPre oldSuf newPre newSuf zp sm ov is2
           fsm ren1 mis1 con1
       | (fsm, .error e) => (fsm, .error e)) := by
  intro is1
  induction is1 with
  | nil =>
    intro is2 fs ren mis con
    rfl
  | cons i is1 ih =>
    intro is2 fs ren mis con
    rw [List.cons_append]
    cases hres1 : resolveRel root (oldPre ++ pyNum i zp ++ oldSuf) with
    | error e =>
      simp only [rename_seq_loop, hres1]
    | ok oldP =>
      cases hres2 : resolveRel root (newPre ++ pyNum i zp ++ newSuf) with
      | error e =>
        simp only [rename_seq_loop, hres1, hres2]
      | ok newP =>
        simp only [rename_seq_loop, hres1, hres2]
        by_cases hexold : fs.existsB oldP = true
        · rw [if_neg (not_not_intro hexold), if_neg (not_not_intro hexold)]
          by_cases hcon : fs.existsB newP ∧ ¬ (ov = true)
          · rw [if_pos hcon, if_pos hcon]
            exact ih is2 fs ren mis _
          · rw [if_neg hcon, if_neg hcon]
            cases hmk : (fs.clearTarget newP).mkdirP newP.dropLast true with
            | error e2 =>
              simp only [hmk]
            | ok fsa =>
              simp only [hmk]
              cases hrn : fsa.renameP oldP newP with
              | error e3 =>
                simp only [hrn]
              | ok fsb =>
                simp only [hrn]
                exact ih is2 fsb _ mis con
        · rw [if_pos hexold, if_pos hexold]
          by_cases hsm : sm = true
          · rw [if_neg (not_not_intro hsm), if_neg (not_not_intro hsm)]
            exact ih is2 fs ren _ con
          · rw [if_pos hsm, if_pos hsm]

/-! ## Claim C1: escaping paths are rejected by the guard-using operations -/

/-- **C1 (amended)**: every path argument whose resolution escapes the
sandbox (in particular a relative path with `..` segments resolving outside
the root) is rejected with the guard's SecurityViolation error by every
guard-using operation, in every path position, with no filesystem mutation
beyond `ensure()` lazily creating the sandbox root.  The sequence batch
operations check the guard on each constructed name in range order: with the
offense at the range's first index they raise it with no mutation beyond
`ensure()`; in general, when the run reaches an offending index -- that is,
when all earlier iterations of the range completed without error -- it raises
the same SecurityViolation for that index's constructed name and returns with
the mutations of those earlier iterations retained, not rolled back; and if
an earlier iteration itself fails for any reason, that error is what is
raised, with the state the loop had reached.  delete_glob never raises a
SecurityViolation: it silently skips out-of-root matches and deletes only
files lying inside the sandbox. -/
theorem C1_escape_rejection (root : List String) (fs fs1 : FS) (p : String) (e : Err)
    (hens : fs.mkdirP root true = .ok fs1)
    (hres : resolveRel root p = .error e) :
    e.isSecurity = true ∧
    ((∀ tr md, list_dir root fs p tr md = (fs1, .error e)) ∧
     (∀ mb, read_file root fs p mb = (fs1, .error e)) ∧
     (∀ c, write_file root fs p c = (fs1, .error e)) ∧
     (∀ c, append_file root fs p c = (fs1, .error e)) ∧
     (∀ dst ov, copy_file root fs p dst ov = (fs1, .error e)) ∧
     (∀ src s ov, resolveRel root src = .ok s →
       copy_file root fs src p ov = (fs1, .error e)) ∧
     (∀ dst ov, move_file root fs p dst ov = (fs1, .error e)) ∧
     (∀ src s ov, resolveRel root src = .ok s →
       move_file root fs src p ov = (fs1, .error e)) ∧
     (∀ c, create_file root fs p c = (fs1, .error e)) ∧
     (∀ np, rename_file root fs p np = (fs1, .error e)) ∧
     (∀ op o, resolveRel root op = .ok o →
       rename_file root fs op p = (fs1, .error e)) ∧
     delete_file root fs p = (fs1, .error e) ∧
     (∀ ok, create_folder root fs p ok = (fs1, .error e)) ∧
     (∀ rec, delete_folder root fs p rec = (fs1, .error e)) ∧
     (∀ subst inc tOnly, bulk_rename_regex root fs p subst inc tOnly = (fs1, .error e))) ∧
    (∀ pre suf content oldPre oldSuf newPre newSuf start stop zeroPad
       skipMissing overwrite, start ≤ stop →
      (resolveRel root (pre ++ pyNum start zeroPad ++ suf) = .error e →
        create_files_sequence root fs pre suf start stop zeroPad content =
          (fs1, .error e) ∧
        create_folders_sequence root fs pre suf start stop zeroPad =
          (fs1, .error e)) ∧
      (resolveRel root (oldPre ++ pyNum start zeroPad ++ oldSuf) = .error e →
        rename_files_sequence root fs oldPre oldSuf newPre newSuf start stop zeroPad
          skipMissing overwrite = (fs1, .error e))) ∧
    (∀ (pre suf content : String) (zeroPad : Nat) (is1 is2 : List Int)
       (m start stop : Int) (fsm : FS) (cr sk : List String),
      intRange start stop = is1 ++ m :: is2 →
      (create_files_loop root pre suf zeroPad content is1 fs1 [] [] =
          (fsm, .ok (cr, sk)) →
        resolveRel root (pre ++ pyNum m zeroPad ++ suf) = .error e →
        create_files_sequence root fs pre suf start stop zeroPad content =
          (fsm, .error e)) ∧
      (create_folders_loop root pre suf zeroPad is1 fs1 [] [] = (fsm, .ok (cr, sk)) →
        resolveRel root (pre ++ pyNum m zeroPad ++ suf) = .error e →
        create_folders_sequence root fs pre suf start stop zeroPad =
          (fsm, .error e)) ∧
      (∀ e2, create_files_loop root pre suf zeroPad content is1 fs1 [] [] =
          (fsm, .error e2) →
        create_files_sequence root fs pre suf start stop zeroPad content =
          (fsm, .error e2)) ∧
      (∀ e2, create_folders_loop root pre suf zeroPad is1 fs1 [] [] =
          (fsm, .error e2) →
        create_folders_sequence root fs pre suf start stop zeroPad =
          (fsm, .error e2))) ∧
    (∀ (oldPre oldSuf newPre newSuf : String) (zeroPad : Nat) (is1 is2 : List Int)
       (m start stop : Int) (sm ov : Bool) (fsm : FS) (ren mis con : List String),
      intRange start stop = is1 ++ m :: is2 →
      (rename_seq_loop root oldPre oldSuf newPre newSuf zeroPad sm ov is1
          fs1 [] [] [] = (fsm, .ok (ren, mis, con)) →
        (resolveRel root (oldPre ++ pyNum m zeroPad ++ oldSuf) = .error e ∨
         (∃ t, resolveRel root (oldPre ++ pyNum m zeroPad ++ oldSuf) = .ok t ∧
           resolveRel root (newPre ++ pyNum m zeroPad ++ newSuf) = .error e)) →
        rename_files_sequence root fs oldPre oldSuf newPre newSuf start stop zeroPad
          sm ov = (fsm, .error e)) ∧
      (∀ e2, rename_seq_loop root oldPre oldSuf newPre newSuf zeroPad sm ov is1
          fs1 [] [] [] = (fsm, .error e2) →
        rename_files_sequence root fs oldPre oldSuf newPre newSuf start stop zeroPad
          sm ov = (fsm, .error e2))) ∧
    (∀ pattern,
      (∀ e2, (delete_glob root fs pattern).2 = .error e2 → ∃ m, e2 = .os m) ∧
      (delete_glob root fs pattern).1.dirs = fs1.dirs ∧
      (∀ q, (delete_glob root fs pattern).1.getContent q ≠ fs1.getContent q →
        inSandboxB (pyNormalize root) q = true ∧ fs1.isFileB q = true)) := by
  refine ⟨?_, ?_, ?_, ?_, ?_, ?_⟩
  · rw [(resolve_error_elim root p e hres).1]
    rfl
  · exact ops_reject_on_guard_error root fs fs1 p e hens hres
  · intro pre suf content oldPre oldSuf newPre newSuf start stop zeroPad
      skipMissing overwrite hle
    exact seq_ops_reject_first root fs fs1 pre suf content oldPre oldSuf newPre newSuf
      start stop zeroPad skipMissing overwrite e hens hle
  · intro pre suf content zeroPad is1 is2 m start stop fsm cr sk hsplit
    refine ⟨?_, ?_, ?_, ?_⟩
    · intro hmid hresm
      unfold create_files_sequence
      rw [hens, bindE_ok, hsplit,
        create_files_loop_append root pre suf content zeroPad is1 (m :: is2) fs1 [] []]
      rw [hmid]
      simp only [create_files_loop, hresm]
    · intro hmid hresm
      unfold create_folders_sequence
      rw [hens, bindE_ok, hsplit,
        create_folders_loop_append root pre suf zeroPad is1 (m :: is2) fs1 [] []]
      rw [hmid]
      simp only [create_folders_loop, hresm]
    · intro e2 hmid
      unfold create_files_sequence
      rw [hens, bindE_ok, hsplit,
        create_files_loop_append root pre suf content zeroPad is1 (m :: is2) fs1 [] []]
      rw [hmid]
    · intro e2 hmid
      unfold create_folders_sequence
      rw [hens, bindE_ok, hsplit,
        create_folders_loop_append root pre suf zeroPad is1 (m :: is2) fs1 [] []]
      rw [hmid]
  · intro oldPre oldSuf newPre newSuf zeroPad is1 is2 m start stop sm ov fsm
      ren mis con hsplit
    refine ⟨?_, ?_⟩
    · intro hmid hoff
      unfold rename_files_sequence
      rw [hens, bindE_ok, hsplit,
        rename_seq_loop_append root oldPre oldSuf newPre newSuf zeroPad sm ov
          is1 (m :: is2) fs1 [] [] []]
      rw [hmid]
      rcases hoff with hoe | ⟨t, hot, hne⟩
      · simp only [rename_seq_loop, hoe]
      · simp only [rename_seq_loop, hot, hne]
    · intro e2 hmid
      unfold rename_files_sequence
      rw [hens, bindE_ok, hsplit,
        rename_seq_loop_append root oldPre oldSuf newPre newSuf zeroPad sm ov
          is1 (m :: is2) fs1 [] [] []]
      rw [hmid]
  · intro pattern
    exact delete_glob_clauses root fs fs1 pattern hens

/-- Witness for the amended C1: the `..`-escaping path "../x" is rejected by
list_dir and create_file with the security error and no state change; and in
the sandbox `/7`, `create_files_sequence("../", "/data/f.txt", 7, 8)` creates
`/7/data/f.txt` at index 7 and then raises the security error at index 8
(whose constructed name resolves to `/8/data/f.txt`), keeping the creation,
and the analogous rename sequence keeps the index-7 rename when index 8's
old name escapes. -/
theorem C1_escape_rejection_witness :
    (list_dir ["sb"] ⟨[["sb"]], []⟩ "../x" true 2 =
      (⟨[["sb"]], []⟩, .error (.security
        "For security reasons, paths must stay inside /sb. Got: /x")) ∧
    create_file ["sb"] ⟨[["sb"]], []⟩ "../x" "hi" =
      (⟨[["sb"]], []⟩, .error (.security
        "For security reasons, paths must stay inside /sb. Got: /x"))) ∧
    create_files_sequence ["7"] ⟨[["7"]], []⟩ "../" "/data/f.txt" 7 8 0 "x" =
      (⟨[["7"], ["7", "data"]], [(["7", "data", "f.txt"], "x")]⟩,
       .error (.security
         "For security reasons, paths must stay inside /7. Got: /8/data/f.txt")) ∧
    rename_files_sequence ["7"] ⟨[["7"]], [(["7", "f.txt"], "z")]⟩
        "../" "/f.txt" "b" ".txt" 7 8 0 false false =
      (⟨[["7"]], [(["7", "b7.txt"], "z")]⟩,
       .error (.security
         "For security reasons, paths must stay inside /7. Got: /8/f.txt")) := by
  obtain ⟨-, hops, -, -, -, -⟩ := C1_escape_rejection ["sb"] ⟨[["sb"]], []⟩
    ⟨[["sb"]], []⟩ "../x"
    (.security "For security reasons, paths must stay inside /sb. Got: /x")
    (by rfl) (by rfl)
  obtain ⟨h1, -, -, -, -, -, -, -, h9, -⟩ := hops
  obtain ⟨-, -, -, hmidc, -, -⟩ := C1_escape_rejection ["7"] ⟨[["7"]], []⟩
    ⟨[["7"]], []⟩ "../8/data/f.txt"
    (.security "For security reasons, paths must stay inside /7. Got: /8/data/f.txt")
    (by rfl) (by rfl)
  obtain ⟨-, -, -, -, hmidr, -⟩ := C1_escape_rejection ["7"]
    ⟨[["7"]], [(["7", "f.txt"], "z")]⟩ ⟨[["7"]], [(["7", "f.txt"], "z")]⟩ "../8/f.txt"
    (.security "For security reasons, paths must stay inside /7. Got: /8/f.txt")
    (by rfl) (by rfl)
  refine ⟨⟨h1 true 2, h9 "hi"⟩, ?_, ?_⟩
  · exact (hmidc "../" "/data/f.txt" "x" 0 [7] [] 8 7 8
      ⟨[["7"], ["7", "data"]], [(["7", "data", "f.txt"], "x")]⟩
      ["../7/data/f.txt"] [] (by rfl)).1 (by rfl) (by rfl)
  · exact (hmidr "../" "/f.txt" "b" ".txt" 0 [7] [] 8 7 8 false false
      ⟨[["7"]], [(["7", "b7.txt"], "z")]⟩ ["../7/f.txt -> b7.txt"] [] []
      (by rfl)).1 (by rfl) (Or.inl (by rfl))

/-! ## Claim C3: absolute path arguments -/

/-- **C3 (amended)**: an absolute path argument is not rejected outright:
its resolution replaces the root entirely, and the guard accepts it exactly
when the result still lies inside the sandbox (so absolute paths pointing
inside the root are accepted and behave like the corresponding relative
path); an absolute path resolving outside the sandbox is rejected by every
guard-using operation with the SecurityViolation error before any mutation
beyond `ensure()`. -/
theorem C3_absolute_paths (root : List String) (fs fs1 : FS) (p : String)
    (hens : fs.mkdirP root true = .ok fs1)
    (habs : isAbsStr p = true) :
    (inSandboxB (pyNormalize root) (pyNormalize (pathSegs p)) = true →
      resolveRel root p = .ok (pyNormalize (pathSegs p))) ∧
    (∀ e, resolveRel root p = .error e →
      e.isSecurity = true ∧
      (∀ tr md, list_dir root fs p tr md = (fs1, .error e)) ∧
      (∀ mb, read_file root fs p mb = (fs1, .error e)) ∧
      (∀ c, write_file root fs p c = (fs1, .error e)) ∧
      (∀ c, append_file root fs p c = (fs1, .error e)) ∧
      (∀ dst ov, copy_file root fs p dst ov = (fs1, .error e)) ∧
      (∀ src s ov, resolveRel root src = .ok s →
        copy_file root fs src p ov = (fs1, .error e)) ∧
      (∀ dst ov, move_file root fs p dst ov = (fs1, .error e)) ∧
      (∀ src s ov, resolveRel root src = .ok s →
        move_file root fs src p ov = (fs1, .error e)) ∧
      (∀ c, create_file root fs p c = (fs1, .error e)) ∧
      (∀ np, rename_file root fs p np = (fs1, .error e)) ∧
      (∀ op o, resolveRel root op = .ok o →
        rename_file root fs op p = (fs1, .error e)) ∧
      delete_file root fs p = (fs1, .error e) ∧
      (∀ ok, create_folder root fs p ok = (fs1, .error e)) ∧
      (∀ rec, delete_folder root fs p rec = (fs1, .error e)) ∧
      (∀ subst inc tOnly, bulk_rename_regex root fs p subst inc tOnly =
        (fs1, .error e))) := by
  constructor
  · intro hin
    have := resolve_of_inSandbox root p
    rw [resolveTarget_abs root p habs] at this
    exact this hin
  · intro e hres
    refine ⟨?_, ?_⟩
    · rw [(resolve_error_elim root p e hres).1]
      rfl
    · exact ops_reject_on_guard_error root fs fs1 p e hens hres

/-- Witness for the amended C3: an absolute path inside the sandbox is
accepted; an absolute path outside is rejected by delete_file with the
security error and no state change. -/
theorem C3_absolute_paths_witness :
    resolveRel ["sb"] "/sb/a.txt" = .ok ["sb", "a.txt"] ∧
    delete_file ["sb"] ⟨[["sb"]], []⟩ "/etc/passwd" =
      (⟨[["sb"]], []⟩, .error (.security
        "For security reasons, paths must stay inside /sb. Got: /etc/passwd")) := by
  constructor
  · exact (C3_absolute_paths ["sb"] ⟨[["sb"]], []⟩ ⟨[["sb"]], []⟩ "/sb/a.txt"
      (by rfl) (by rfl)).1 (by decide)
  · obtain ⟨-, h⟩ := (C3_absolute_paths ["sb"] ⟨[["sb"]], []⟩ ⟨[["sb"]], []⟩ "/etc/passwd"
      (by rfl) (by rfl)).2
      (.security "For security reasons, paths must stay inside /sb. Got: /etc/passwd")
      (by rfl)
    obtain ⟨-, -, -, -, -, -, -, -, -, -, -, hdel, -⟩ := h
    exact hdel

/-! ## Preservation of the sandbox root (claim C4) -/

theorem mem_keys_of_isFileB (fs : FS) (q : List String) (h : fs.isFileB q = true) :
    q ∈ fs.files.map Prod.fst := by
  obtain ⟨c, _, hm⟩ := isFileB_entry fs q h
  exact List.mem_map.2 ⟨(q, c), hm, rfl⟩

theorem lookup_isSome_of_mem {β : Type} (l : List (List String × β)) (q : List String)
    (h : q ∈ l.map Prod.fst) : (l.lookup q).isSome = true := by
  induction l with
  | nil => simp at h
  | cons e l ih =>
    obtain ⟨k, b⟩ := e
    rw [List.lookup_cons]
    cases hqk : (q == k) with
    | true => rfl
    | false =>
      simp only [hqk]
      apply ih
      simp only [List.map_cons, List.mem_cons] at h
      rcases h with h | h
      · exfalso
        rw [h] at hqk
        simp at hqk
      · exact h

theorem isFileB_of_mem_keys (fs : FS) (q : List String)
    (h : q ∈ fs.files.map Prod.fst) : fs.isFileB q = true :=
  lookup_isSome_of_mem fs.files q h

theorem isDirB_mem_dirs (fs : FS) (r : List String) (hr : fs.isDirB r = true)
    (hne : r ≠ []) : r ∈ fs.dirs := by
  simp only [FS.isDirB, Bool.or_eq_true, beq_iff_eq, decide_eq_true_eq] at hr
  rcases hr with h | h
  · exact absurd h hne
  · exact h

theorem isDirB_remapAll_of_not_sub (fs : FS) (s d r : List String)
    (hr : fs.isDirB r = true) (hns : s.isPrefixOf r = false) :
    (fs.remapAll s d).isDirB r = true := by
  by_cases hnil : r = []
  · simp [FS.isDirB, hnil]
  · have hmem := isDirB_mem_dirs fs r hr hnil
    simp only [FS.isDirB, Bool.or_eq_true, beq_iff_eq, decide_eq_true_eq]
    refine Or.inr ?_
    simp only [FS.remapAll, List.mem_map]
    exact ⟨r, hmem, by simp [hns]⟩

theorem isDirB_remapAll_target (fs : FS) (s d : List String)
    (hs : fs.isDirB s = true) (hne : s ≠ []) :
    (fs.remapAll s d).isDirB d = true := by
  have hmem := isDirB_mem_dirs fs s hs hne
  simp only [FS.isDirB, Bool.or_eq_true, beq_iff_eq, decide_eq_true_eq]
  refine Or.inr ?_
  simp only [FS.remapAll, List.mem_map]
  refine ⟨s, hmem, ?_⟩
  rw [List.isPrefixOf_iff_prefix.2 List.prefix_rfl]
  simp

theorem isFileB_remapAll_cases (fs : FS) (s d q : List String)
    (h : (fs.remapAll s d).isFileB q = true) :
    fs.isFileB q = true ∨ ∃ k, s <+: k ∧ q = d ++ k.drop s.length := by
  have hmem := mem_keys_of_isFileB _ q h
  simp only [FS.remapAll, List.map_map, List.mem_map] at hmem
  obtain ⟨e, he, heq⟩ := hmem
  simp only [Function.comp_apply] at heq
  by_cases hp : s.isPrefixOf e.1 = true
  · rw [if_pos hp] at heq
    exact Or.inr ⟨e.1, List.isPrefixOf_iff_prefix.1 hp, heq.symm⟩
  · rw [if_neg hp] at heq
    refine Or.inl (isFileB_of_mem_keys fs q ?_)
    rw [← heq]
    exact List.mem_map.2 ⟨e, he, rfl⟩

theorem prefix_length_lt (root d : List String) (h : root <+: d) (hne : d ≠ root) :
    root.length < d.length := by
  have h1 := h.length_le
  rcases Nat.lt_or_ge root.length d.length with hlt | hge
  · exact hlt
  · exact absurd (h.eq_of_length (by omega)).symm hne

theorem not_prefixOf_of_longer (d root : List String) (h : root.length < d.length) :
    d.isPrefixOf root = false := by
  cases hc : d.isPrefixOf root
  · rfl
  · have := (List.isPrefixOf_iff_prefix.1 hc).length_le
    omega

theorem rootIntact_setFile (root : List String) (fs : FS) (p : List String) (c : String)
    (hI : rootIntact root fs) (hp : p.isPrefixOf root = false) :
    rootIntact root (fs.setFile p c) := by
  refine ⟨by simpa using hI.1, ?_⟩
  intro q hq
  have hqp : q ≠ p := by
    intro hh
    rw [hh] at hq
    rw [hq] at hp
    simp at hp
  simp only [FS.isFileB]
  rw [getContent_setFile_ne fs p q c hqp]
  exact hI.2 q hq

theorem rootIntact_removeFile (root : List String) (fs : FS) (p : List String)
    (hI : rootIntact root fs) : rootIntact root (fs.removeFile p) := by
  refine ⟨by simpa using hI.1, ?_⟩
  intro q hq
  by_cases hqp : q = p
  · subst hqp
    simp [FS.isFileB]
  · simp only [FS.isFileB]
    rw [getContent_removeFile_ne fs p q hqp]
    exact hI.2 q hq

theorem rootIntact_removeDir (root : List String) (fs : FS) (d : List String)
    (hI : rootIntact root fs) (hd : d ≠ root) : rootIntact root (fs.removeDir d) := by
  constructor
  · by_cases hnil : root = []
    · simp [FS.isDirB, hnil]
    · have hmem := isDirB_mem_dirs fs root hI.1 hnil
      simp only [FS.isDirB, Bool.or_eq_true, beq_iff_eq, decide_eq_true_eq]
      refine Or.inr ?_
      simp only [FS.removeDir, List.mem_filter]
      refine ⟨hmem, ?_⟩
      simp only [decide_eq_true_eq]
      exact fun h => hd h.symm
  · intro q hq
    exact hI.2 q hq

theorem rootIntact_rmtree (root : List String) (fs : FS) (d : List String)
    (hI : rootIntact root fs) (hd : d.isPrefixOf root = false) :
    rootIntact root (fs.rmtree d) := by
  constructor
  · by_cases hnil : root = []
    · simp [FS.isDirB, hnil]
    · have hmem := isDirB_mem_dirs fs root hI.1 hnil
      simp only [FS.isDirB, Bool.or_eq_true, beq_iff_eq, decide_eq_true_eq]
      refine Or.inr ?_
      simp only [FS.rmtree, List.mem_filter]
      exact ⟨hmem, by simp [hd]⟩
  · intro q hq
    cases hf : (fs.rmtree d).isFileB q
    · rfl
    · exfalso
      have hmem := mem_keys_of_isFileB _ q hf
      have hq2 : q ∈ fs.files.map Prod.fst := by
        rcases List.mem_map.1 hmem with ⟨e, he, rfl⟩
        have he2 : e ∈ fs.files.filter (fun e => ¬ d.isPrefixOf e.1) := he
        exact List.mem_map.2 ⟨e, (List.mem_filter.1 he2).1, rfl⟩
      have := isFileB_of_mem_keys fs q hq2
      rw [hI.2 q hq] at this
      exact Bool.false_ne_true this

theorem rootIntact_mkdirP (root : List String) (fs fs' : FS) (p : List String) (ok : Bool)
    (hI : rootIntact root fs) (h : fs.mkdirP p ok = .ok fs') : rootIntact root fs' := by
  refine ⟨mkdirP_dirs_mono fs fs' p root ok h hI.1, ?_⟩
  intro q hq
  rw [mkdirP_isFileB fs fs' p q ok h]
  exact hI.2 q hq

theorem rootIntact_remapAll (root : List String) (fs : FS) (s d : List String)
    (hI : rootIntact root fs) (hs : s.isPrefixOf root = false)
    (hdlen : root.length < d.length) : rootIntact root (fs.remapAll s d) := by
  refine ⟨isDirB_remapAll_of_not_sub fs s d root hI.1 hs, ?_⟩
  intro q hq
  cases hf : (fs.remapAll s d).isFileB q
  · rfl
  · exfalso
    rcases isFileB_remapAll_cases fs s d q hf with hc | ⟨k, hk, rfl⟩
    · rw [hI.2 q hq] at hc
      exact Bool.false_ne_true hc
    · have h1 := (List.isPrefixOf_iff_prefix.1 hq).length_le
      rw [List.length_append] at h1
      omega

theorem renameP_rootIntact (fs fs' : FS) (root s d : List String)
    (hI : rootIntact root fs)
    (hsp : s = root ∨ root <+: s) (hdp : root <+: d) (hdne : d ≠ root)
    (hren : fs.renameP s d = .ok fs') : rootIntact root fs' := by
  have hdlen : root.length < d.length := prefix_length_lt root d hdp hdne
  unfold FS.renameP at hren
  split at hren
  · exact absurd hren (by simp)
  · split at hren
    · injection hren with h'
      subst h'
      exact hI
    · split at hren
      · exact absurd hren (by simp)
      · split at hren
        · rename_i hfs
          split at hren
          · exact absurd hren (by simp)
          · injection hren with h'
            subst h'
            have hsnp : s.isPrefixOf root = false := by
              cases hc : s.isPrefixOf root
              · rfl
              · rw [hI.2 s hc] at hfs
                exact absurd hfs (by simp)
            exact rootIntact_remapAll root (fs.removeFile d) s d
              (rootIntact_removeFile root fs d hI) hsnp hdlen
        · rename_i hnfs
          split at hren
          · exact absurd hren (by simp)
          · rename_i hnsd
            have hsr : root <+: s ∧ s ≠ root := by
              rcases hsp with rfl | hsp2
              · exact absurd (List.isPrefixOf_iff_prefix.2 hdp) hnsd
              · refine ⟨hsp2, ?_⟩
                intro hh
                subst hh
                exact hnsd (List.isPrefixOf_iff_prefix.2 hdp)
            have hsnp : s.isPrefixOf root = false :=
              not_prefixOf_of_longer s root (prefix_length_lt root s hsr.1 hsr.2)
            split at hren
            · exact absurd hren (by simp)
            · split at hren
              · split at hren
                · exact absurd hren (by simp)
                · injection hren with h'
                  subst h'
                  exact rootIntact_remapAll root (fs.removeDir d) s d
                    (rootIntact_removeDir root fs d hI hdne) hsnp hdlen
              · injection hren with h'
                subst h'
                exact rootIntact_remapAll root fs s d hI hsnp hdlen

theorem renameP_root_dir (fs fs' : FS) (root s d : List String)
    (hI : rootIntact root fs)
    (hsp : s = root ∨ root <+: s) (hdp : d = root ∨ root <+: d)
    (hren : fs.renameP s d = .ok fs') : fs'.isDirB root = true := by
  by_cases hdr : d = root
  · rw [hdr] at hren
    unfold FS.renameP at hren
    split at hren
    · exact absurd hren (by simp)
    · rename_i hex
      split at hren
      · injection hren with h'
        subst h'
        exact hI.1
      · split at hren
        · exact absurd hren (by simp)
        · split at hren
          · rename_i hfs
            split at hren
            · exact absurd hren (by simp)
            · rename_i hnd
              exact absurd hI.1 hnd
          · rename_i hnfs
            split at hren
            · exact absurd hren (by simp)
            · rename_i hnsd
              have hsr : root <+: s ∧ s ≠ root := by
                rcases hsp with rfl | hsp2
                · exact absurd (List.isPrefixOf_iff_prefix.2 List.prefix_rfl) hnsd
                · refine ⟨hsp2, ?_⟩
                  intro hh
                  subst hh
                  exact hnsd (List.isPrefixOf_iff_prefix.2 List.prefix_rfl)
              split at hren
              · exact absurd hren (by simp)
              · split at hren
                · split at hren
                  · exact absurd hren (by simp)
                  · injection hren with h'
                    subst h'
                    have hex2 : fs.existsB s = true := by
                      cases hc : fs.existsB s
                      · exact absurd hc (by simpa using hex)
                      · rfl
                    have hsdir : fs.isDirB s = true := by
                      simp only [FS.existsB, Bool.or_eq_true] at hex2
                      rcases hex2 with h2 | h2
                      · exact h2
                      · exact absurd h2 (by simpa using hnfs)
                    have hsne : s ≠ [] := by
                      intro hh
                      rw [hh] at hsr
                      have h1 := hsr.1.length_le
                      simp only [List.length_nil, Nat.le_zero] at h1
                      exact hsr.2 (List.eq_nil_of_length_eq_zero h1).symm
                    apply isDirB_remapAll_target
                    · by_cases hnil : s = []
                      · exact absurd hnil hsne
                      · have hmem := isDirB_mem_dirs fs s hsdir hnil
                        simp only [FS.isDirB, Bool.or_eq_true, beq_iff_eq,
                          decide_eq_true_eq]
                        refine Or.inr ?_
                        simp only [FS.removeDir, List.mem_filter]
                        refine ⟨hmem, ?_⟩
                        simp only [decide_eq_true_eq]
                        exact hsr.2
                    · exact hsne
                · exact absurd hI.1 (by rename_i hnd; exact hnd)
  · have hdp2 : root <+: d := by
      rcases hdp with rfl | h
      · exact absurd rfl hdr
      · exact h
    exact (renameP_rootIntact fs fs' root s d hI hsp hdp2 hdr hren).1

theorem mem_insertBy {α : Type} (le : α → α → Bool) (a x : α) (l : List α)
    (h : x ∈ insertBy le a l) : x = a ∨ x ∈ l := by
  induction l with
  | nil => simpa [insertBy] using h
  | cons b bs ih =>
    unfold insertBy at h
    split at h
    · rcases List.mem_cons.1 h with h | h
      · exact Or.inl h
      · exact Or.inr h
    · rcases List.mem_cons.1 h with h | h
      · exact Or.inr (by rw [h]; exact List.mem_cons_self b bs)
      · rcases ih h with h | h
        · exact Or.inl h
        · exact Or.inr (List.mem_cons.2 (Or.inr h))

theorem mem_sortBy {α : Type} (le : α → α → Bool) (x : α) (l : List α)
    (h : x ∈ sortBy le l) : x ∈ l := by
  induction l with
  | nil => simpa [sortBy] using h
  | cons b bs ih =>
    unfold sortBy at h ih
    rcases mem_insertBy le b x _ h with h | h
    · exact (by rw [h]; exact List.mem_cons_self b bs)
    · exact List.mem_cons.2 (Or.inr (ih h))

theorem mem_descPaths (fs : FS) (b q : List String) (h : q ∈ fs.descPaths b) :
    b <+: q ∧ q ≠ b := by
  have h2 := List.mem_dedup.1 h
  have h3 := (List.mem_filter.1 h2).2
  simp only [Bool.and_eq_true, decide_eq_true_eq] at h3
  exact ⟨List.isPrefixOf_iff_prefix.1 h3.1, h3.2⟩

theorem mem_bulkWalker (fs : FS) (base : List String) (inc : Bool) (p : List String)
    (h : p ∈ bulkWalker fs base inc) : base.length < p.length := by
  unfold bulkWalker at h
  have h2 := mem_sortBy _ p _ h
  cases inc with
  | true =>
    simp only [if_pos rfl] at h2
    obtain ⟨hpre, hne⟩ := mem_descPaths fs base p h2
    exact prefix_length_lt base p hpre hne
  | false =>
    simp only [Bool.false_eq_true, if_false] at h2
    obtain ⟨n, _, rfl⟩ := List.mem_map.1 h2
    simp [List.length_append]

theorem renameP_isDirB_root_file (fs fs' : FS) (root s d : List String)
    (hroot : fs.isDirB root = true) (hs : s.isPrefixOf root = false)
    (hfs : fs.isFileB s = true)
    (hren : fs.renameP s d = .ok fs') : fs'.isDirB root = true := by
  unfold FS.renameP at hren
  by_cases h1 : ¬ (fs.existsB s = true)
  · rw [if_pos h1] at hren
    exact absurd hren (by simp)
  · rw [if_neg h1] at hren
    by_cases h2 : s = d
    · rw [if_pos h2] at hren
      injection hren with h'
      subst h'
      exact hroot
    · rw [if_neg h2] at hren
      by_cases h3 : ¬ (fs.isDirB d.dropLast = true)
      · rw [if_pos h3] at hren
        exact absurd hren (by simp)
      · rw [if_neg h3] at hren
        rw [if_pos hfs] at hren
        by_cases h5 : fs.isDirB d = true
        · rw [if_pos h5] at hren
          exact absurd hren (by simp)
        · rw [if_neg h5] at hren
          injection hren with h'
          subst h'
          exact isDirB_remapAll_of_not_sub (fs.removeFile d) s d root
            (by simpa using hroot) hs

theorem isDirB_eq_of_dirs (fs fs' : FS) (q : List String) (h : fs'.dirs = fs.dirs) :
    fs'.isDirB q = fs.isDirB q := by
  simp [FS.isDirB, h]

theorem writeText_ok_dirs (fs fs' : FS) (p : List String) (c : String)
    (h : fs.writeText p c = .ok fs') : fs'.dirs = fs.dirs := by
  unfold FS.writeText at h
  split at h
  · exact absurd h (by simp)
  · injection h with h'
    subst h'
    rfl

theorem appendText_ok_dirs (fs fs' : FS) (p : List String) (c : String)
    (h : fs.appendText p c = .ok fs') : fs'.dirs = fs.dirs := by
  unfold FS.appendText at h
  split at h
  · exact absurd h (by simp)
  · injection h with h'
    subst h'
    rfl

theorem copy2_ok_dirs (fs fs' : FS) (p q : List String)
    (h : fs.copy2 p q = .ok fs') : fs'.dirs = fs.dirs := by
  unfold FS.copy2 at h
  split at h
  · exact absurd h (by simp)
  · cases hc : fs.getContent p with
    | none =>
      rw [hc] at h
      exact absurd h (by simp)
    | some c =>
      rw [hc] at h
      injection h with h'
      subst h'
      rfl

theorem list_dir_root (root : List String) (fs : FS) (path : String) (tr : Bool) (md : Int)
    (hd : fs.isDirB root = true) : (list_dir root fs path tr md).1.isDirB root = true := by
  unfold list_dir
  cases hmk : fs.mkdirP root true with
  | error e =>
    rw [bindE_error]
    exact hd
  | ok fs1 =>
    rw [bindE_ok]
    have hd1 := mkdirP_dirs_mono fs fs1 root root true hmk hd
    cases hres : resolveRel root path with
    | error e =>
      rw [bindE_error]
      exact hd1
    | ok p =>
      rw [bindE_ok]
      split
      · exact hd1
      · split
        · exact hd1
        · split
          · exact hd1
          · exact hd1

theorem read_file_root (root : List String) (fs : FS) (path : String) (mb : Nat)
    (hd : fs.isDirB root = true) : (read_file root fs path mb).1.isDirB root = true := by
  unfold read_file
  cases hmk : fs.mkdirP root true with
  | error e =>
    rw [bindE_error]
    exact hd
  | ok fs1 =>
    rw [bindE_ok]
    have hd1 := mkdirP_dirs_mono fs fs1 root root true hmk hd
    cases hres : resolveRel root path with
    | error e =>
      rw [bindE_error]
      exact hd1
    | ok p =>
      rw [bindE_ok]
      split
      · exact hd1
      · split
        · exact hd1
        · exact hd1

theorem write_file_root (root : List String) (fs : FS) (path content : String)
    (hd : fs.isDirB root = true) : (write_file root fs path content).1.isDirB root = true := by
  unfold write_file
  cases hmk : fs.mkdirP root true with
  | error e =>
    rw [bindE_error]
    exact hd
  | ok fs1 =>
    rw [bindE_ok]
    have hd1 := mkdirP_dirs_mono fs fs1 root root true hmk hd
    cases hres : resolveRel root path with
    | error e =>
      rw [bindE_error]
      exact hd1
    | ok t =>
      rw [bindE_ok]
      cases hmk2 : fs1.mkdirP t.dropLast true with
      | error e =>
        rw [bindE_error]
        exact hd1
      | ok fs2 =>
        rw [bindE_ok]
        have hd2 := mkdirP_dirs_mono fs1 fs2 t.dropLast root true hmk2 hd1
        cases hw : fs2.writeText t content with
        | error e =>
          rw [bindE_error]
          exact hd2
        | ok fs3 =>
          rw [bindE_ok]
          rw [show (fs3, Except.ok (pathStr t)).1 = fs3 from rfl]
          rw [isDirB_eq_of_dirs fs2 fs3 root (writeText_ok_dirs fs2 fs3 t content hw)]
          exact hd2

theorem append_file_root (root : List String) (fs : FS) (path content : String)
    (hd : fs.isDirB root = true) : (append_file root fs path content).1.isDirB root = true := by
  unfold append_file
  cases hmk : fs.mkdirP root true with
  | error e =>
    rw [bindE_error]
    exact hd
  | ok fs1 =>
    rw [bindE_ok]
    have hd1 := mkdirP_dirs_mono fs fs1 root root true hmk hd
    cases hres : resolveRel root path with
    | error e =>
      rw [bindE_error]
      exact hd1
    | ok t =>
      rw [bindE_ok]
      cases hmk2 : fs1.mkdirP t.dropLast true with
      | error e =>
        rw [bindE_error]
        exact hd1
      | ok fs2 =>
        rw [bindE_ok]
        have hd2 := mkdirP_dirs_mono fs1 fs2 t.dropLast root true hmk2 hd1
        cases hw : fs2.appendText t content with
        | error e =>
          rw [bindE_error]
          exact hd2
        | ok fs3 =>
          rw [bindE_ok]
          rw [show (fs3, Except.ok (pathStr t)).1 = fs3 from rfl]
          rw [isDirB_eq_of_dirs fs2 fs3 root (appendText_ok_dirs fs2 fs3 t content hw)]
          exact hd2

theorem create_file_root (root : List String) (fs : FS) (path content : String)
    (hd : fs.isDirB root = true) : (create_file root fs path content).1.isDirB root = true := by
  unfold create_file
  cases hmk : fs.mkdirP root true with
  | error e =>
    rw [bindE_error]
    exact hd
  | ok fs1 =>
    rw [bindE_ok]
    have hd1 := mkdirP_dirs_mono fs fs1 root root true hmk hd
    cases hres : resolveRel root path with
    | error e =>
      rw [bindE_error]
      exact hd1
    | ok t =>
      rw [bindE_ok]
      split
      · exact hd1
      · cases hmk2 : fs1.mkdirP t.dropLast true with
        | error e =>
          rw [bindE_error]
          exact hd1
        | ok fs2 =>
          rw [bindE_ok]
          have hd2 := mkdirP_dirs_mono fs1 fs2 t.dropLast root true hmk2 hd1
          cases hw : fs2.writeText t content with
          | error e =>
            rw [bindE_error]
            exact hd2
          | ok fs3 =>
            rw [bindE_ok]
            rw [show (fs3, Except.ok (pathStr t)).1 = fs3 from rfl]
            rw [isDirB_eq_of_dirs fs2 fs3 root (writeText_ok_dirs fs2 fs3 t content hw)]
            exact hd2

theorem copy_file_root (root : List String) (fs : FS) (src dst : String) (ov : Bool)
    (hd : fs.isDirB root = true) : (copy_file root fs src dst ov).1.isDirB root = true := by
  unfold copy_file
  cases hmk : fs.mkdirP root true with
  | error e =>
    rw [bindE_error]
    exact hd
  | ok fs1 =>
    rw [bindE_ok]
    have hd1 := mkdirP_dirs_mono fs fs1 root root true hmk hd
    cases hres : resolveRel root src with
    | error e =>
      rw [bindE_error]
      exact hd1
    | ok sp =>
      rw [bindE_ok]
      cases hres2 : resolveRel root dst with
      | error e =>
        rw [bindE_error]
        exact hd1
      | ok dp =>
        rw [bindE_ok]
        split
        · exact hd1
        · split
          · exact hd1
          · cases hmk2 : fs1.mkdirP dp.dropLast true with
            | error e =>
              rw [bindE_error]
              exact hd1
            | ok fs2 =>
              rw [bindE_ok]
              have hd2 := mkdirP_dirs_mono fs1 fs2 dp.dropLast root true hmk2 hd1
              cases hc : fs2.copy2 sp dp with
              | error e =>
                rw [bindE_error]
                exact hd2
              | ok fs3 =>
                rw [bindE_ok]
                rw [show (fs3, Except.ok (pathStr dp)).1 = fs3 from rfl]
                rw [isDirB_eq_of_dirs fs2 fs3 root (copy2_ok_dirs fs2 fs3 sp dp hc)]
                exact hd2

theorem delete_file_root (root : List String) (fs : FS) (path : String)
    (hd : fs.isDirB root = true) : (delete_file root fs path).1.isDirB root = true := by
  unfold delete_file
  cases hmk : fs.mkdirP root true with
  | error e =>
    rw [bindE_error]
    exact hd
  | ok fs1 =>
    rw [bindE_ok]
    have hd1 := mkdirP_dirs_mono fs fs1 root root true hmk hd
    cases hres : resolveRel root path with
    | error e =>
      rw [bindE_error]
      exact hd1
    | ok t =>
      rw [bindE_ok]
      split
      · exact hd1
      · split
        · exact hd1
        · rw [show (fs1.removeFile t, Except.ok (pathStr t)).1 = fs1.removeFile t from rfl]
          simpa using hd1

theorem create_folder_root (root : List String) (fs : FS) (path : String) (ok : Bool)
    (hd : fs.isDirB root = true) : (create_folder root fs path ok).1.isDirB root = true := by
  unfold create_folder
  cases hmk : fs.mkdirP root true with
  | error e =>
    rw [bindE_error]
    exact hd
  | ok fs1 =>
    rw [bindE_ok]
    have hd1 := mkdirP_dirs_mono fs fs1 root root true hmk hd
    cases hres : resolveRel root path with
    | error e =>
      rw [bindE_error]
      exact hd1
    | ok t =>
      rw [bindE_ok]
      split
      · exact hd1
      · cases hmk2 : fs1.mkdirP t ok with
        | error e =>
          rw [bindE_error]
          exact hd1
        | ok fs2 =>
          rw [bindE_ok]
          exact mkdirP_dirs_mono fs1 fs2 t root ok hmk2 hd1

theorem delete_glob_root (root : List String) (fs : FS) (pattern : String)
    (hd : fs.isDirB root = true) : (delete_glob root fs pattern).1.isDirB root = true := by
  unfold delete_glob
  cases hmk : fs.mkdirP root true with
  | error e =>
    rw [bindE_error]
    exact hd
  | ok fs1 =>
    rw [bindE_ok]
    have hd1 := mkdirP_dirs_mono fs fs1 root root true hmk hd
    split
    · exact hd1
    · rw [isDirB_eq_of_dirs fs1 _ root (foldl_removeFile_dirs _ fs1)]
      exact hd1

theorem create_files_loop_root (root : List String) (pre suf content : String)
    (zeroPad : Nat) :
    ∀ (is : List Int) (fs : FS) (cr sk : List String),
    fs.isDirB root = true →
    (create_files_loop root pre suf zeroPad content is fs cr sk).1.isDirB root = true := by
  intro is
  induction is with
  | nil =>
    intro fs cr sk hd
    exact hd
  | cons i is ih =>
    intro fs cr sk hd
    cases hres : resolveRel root (pre ++ pyNum i zeroPad ++ suf) with
    | error e =>
      simp only [create_files_loop, hres]
      exact hd
    | ok p =>
      by_cases hex : fs.existsB p = true
      · simp only [create_files_loop, hres, hex, if_true]
        exact ih fs cr _ hd
      · cases hmk : fs.mkdirP p.dropLast true with
        | error e2 =>
          simp only [create_files_loop, hres, hex, if_false, hmk]
          exact hd
        | ok fs1 =>
          cases hw : fs1.writeText p content with
          | error e3 =>
            simp only [create_files_loop, hres, hex, if_false, hmk, hw]
            exact mkdirP_dirs_mono fs fs1 p.dropLast root true hmk hd
          | ok fs2 =>
            simp only [create_files_loop, hres, hex, if_false, hmk, hw]
            refine ih fs2 _ sk ?_
            rw [isDirB_eq_of_dirs fs1 fs2 root (writeText_ok_dirs fs1 fs2 p content hw)]
            exact mkdirP_dirs_mono fs fs1 p.dropLast root true hmk hd

theorem create_folders_loop_root (root : List String) (pre suf : String) (zeroPad : Nat) :
    ∀ (is : List Int) (fs : FS) (cr sk : List String),
    fs.isDirB root = true →
    (create_folders_loop root pre suf zeroPad is fs cr sk).1.isDirB root = true := by
  intro is
  induction is with
  | nil =>
    intro fs cr sk hd
    exact hd
  | cons i is ih =>
    intro fs cr sk hd
    cases hres : resolveRel root (pre ++ pyNum i zeroPad ++ suf) with
    | error e =>
      simp only [create_folders_loop, hres]
      exact hd
    | ok p =>
      by_cases hex : fs.existsB p = true
      · simp only [create_folders_loop, hres, hex, if_true]
        exact ih fs cr _ hd
      · cases hmk : fs.mkdirP p true with
        | error e2 =>
          simp only [create_folders_loop, hres, hex, if_false, hmk]
          exact hd
        | ok fs1 =>
          simp only [create_folders_loop, hres, hex, if_false, hmk]
          exact ih fs1 _ sk (mkdirP_dirs_mono fs fs1 p root true hmk hd)

theorem clearTarget_rootIntact (root : List String) (fs : FS) (p : List String)
    (hI : rootIntact root fs) (hp : p ≠ root) (hpre : root <+: p) :
    rootIntact root (fs.clearTarget p) := by
  unfold FS.clearTarget
  split
  · split
    · exact rootIntact_removeFile root fs p hI
    · exact rootIntact_rmtree root fs p hI
        (not_prefixOf_of_longer p root (prefix_length_lt root p hpre hp))
  · exact hI

theorem rename_seq_loop_rootIntact (root : List String)
    (oldPre oldSuf newPre newSuf : String) (zeroPad : Nat) (sm ov : Bool)
    (hv : validRoot root = true) :
    ∀ (is : List Int) (fs : FS) (r m c : List String),
    rootIntact root fs →
    (∀ i ∈ is, ov = true →
      resolveRel root (newPre ++ pyNum i zeroPad ++ newSuf) ≠ .ok root) →
    rootIntact root
      (rename_seq_loop root oldPre oldSuf newPre newSuf zeroPad sm ov is fs r m c).1 := by
  intro is
  induction is with
  | nil =>
    intro fs r m c hI _
    exact hI
  | cons i is ih =>
    intro fs r m c hI hexc
    have hexc_tail : ∀ j ∈ is, ov = true →
        resolveRel root (newPre ++ pyNum j zeroPad ++ newSuf) ≠ .ok root :=
      fun j hj => hexc j (List.mem_cons.2 (Or.inr hj))
    cases hres1 : resolveRel root (oldPre ++ pyNum i zeroPad ++ oldSuf) with
    | error e =>
      simp only [rename_seq_loop, hres1]
      exact hI
    | ok oldP =>
      cases hres2 : resolveRel root (newPre ++ pyNum i zeroPad ++ newSuf) with
      | error e =>
        simp only [rename_seq_loop, hres1, hres2]
        exact hI
      | ok newP =>
        simp only [rename_seq_loop, hres1, hres2]
        by_cases hexold : fs.existsB oldP = true
        · rw [if_neg (not_not_intro hexold)]
          by_cases hcon : fs.existsB newP ∧ ¬ (ov = true)
          · rw [if_pos hcon]
            exact ih fs r m _ hI hexc_tail
          · rw [if_neg hcon]
            have hnewP_pre : root <+: newP := resolve_ok_root_pre root _ newP hv hres2
            have hnewP_ne : newP ≠ root := by
              by_cases hexd : fs.existsB newP = true
              · have hov : ov = true := by
                  by_contra hovf
                  exact hcon ⟨hexd, fun hh => hovf hh⟩
                intro hh
                exact hexc i (List.mem_cons_self i is) hov (by rw [hres2, hh])
              · intro hh
                rw [hh] at hexd
                exact hexd (by simp [FS.existsB, hI.1])
            have hI2 : rootIntact root (fs.clearTarget newP) :=
              clearTarget_rootIntact root fs newP hI hnewP_ne hnewP_pre
            cases hmk : (fs.clearTarget newP).mkdirP newP.dropLast true with
            | error e =>
              simp only [hmk]
              exact hI2
            | ok fs1 =>
              have hI3 := rootIntact_mkdirP root (fs.clearTarget newP) fs1
                newP.dropLast true hI2 hmk
              simp only [hmk]
              cases hrn : fs1.renameP oldP newP with
              | error e =>
                simp only [hrn]
                exact hI3
              | ok fs2 =>
                simp only [hrn]
                refine ih fs2 _ m c ?_ hexc_tail
                exact renameP_rootIntact fs1 fs2 root oldP newP hI3
                  (Or.inr (resolve_ok_root_pre root _ oldP hv hres1))
                  hnewP_pre hnewP_ne hrn
        · rw [if_pos hexold]
          by_cases hsm : sm = true
          · rw [if_neg (not_not_intro hsm)]
            exact ih fs r _ c hI hexc_tail
          · rw [if_pos hsm]
            exact hI

theorem bulk_loop_root (root : List String) (subst : String → String) (tOnly : Bool) :
    ∀ (ws : List (List String)) (fs : FS) (ch : List String),
    fs.isDirB root = true →
    (∀ p ∈ ws, root.length < p.length) →
    (bulk_loop root subst tOnly ws fs ch).1.isDirB root = true := by
  intro ws
  induction ws with
  | nil =>
    intro fs ch hd _
    exact hd
  | cons p ps ih =>
    intro fs ch hd hlen
    have hlen_tail : ∀ q ∈ ps, root.length < q.length :=
      fun q hq => hlen q (List.mem_cons.2 (Or.inr hq))
    simp only [bulk_loop]
    by_cases hfsp : fs.isFileB p = true
    · rw [if_neg (not_not_intro hfsp)]
      by_cases hname : subst (lastName p) = lastName p
      · rw [if_pos hname]
        exact ih fs ch hd hlen_tail
      · rw [if_neg hname]
        by_cases hbad : subst (lastName p) = "" ∨ subst (lastName p) = "." ∨
            (subst (lastName p)).data.contains '/'
        · rw [if_pos hbad]
          exact hd
        · rw [if_neg hbad]
          cases hres : resolveRel root
              (relStr root (p.dropLast ++ [subst (lastName p)])) with
          | error e =>
            simp only [hres]
            exact hd
          | ok t =>
            simp only [hres]
            by_cases hto : tOnly = true
            · rw [if_pos hto]
              exact ih fs _ hd hlen_tail
            · rw [if_neg hto]
              by_cases hext : fs.existsB
                  (pyNormalize (p.dropLast ++ [subst (lastName p)])) = true
              · rw [if_pos hext]
                exact hd
              · rw [if_neg hext]
                cases hrn : fs.renameP p
                    (pyNormalize (p.dropLast ++ [subst (lastName p)])) with
                | error e =>
                  simp only [hrn]
                  exact hd
                | ok fs1 =>
                  simp only [hrn]
                  refine ih fs1 _ ?_ hlen_tail
                  exact renameP_isDirB_root_file fs fs1 root p _ hd
                    (not_prefixOf_of_longer p root (hlen p (List.mem_cons_self p ps)))
                    hfsp hrn
    · rw [if_pos hfsp]
      exact ih fs ch hd hlen_tail

theorem move_file_root (root : List String) (fs : FS) (src dst : String) (ov : Bool)
    (hv : validRoot root = true) (hI : rootIntact root fs)
    (hexc : ov = true → resolveRel root dst ≠ .ok root) :
    (move_file root fs src dst ov).1.isDirB root = true := by
  unfold move_file
  cases hmk : fs.mkdirP root true with
  | error e =>
    rw [bindE_error]
    exact hI.1
  | ok fs1 =>
    rw [bindE_ok]
    have hI1 := rootIntact_mkdirP root fs fs1 root true hI hmk
    cases hres1 : resolveRel root src with
    | error e =>
      rw [bindE_error]
      exact hI1.1
    | ok s =>
      rw [bindE_ok]
      cases hres2 : resolveRel root dst with
      | error e =>
        rw [bindE_error]
        exact hI1.1
      | ok d =>
        rw [bindE_ok]
        by_cases h1 : ¬ (fs1.existsB s = true)
        · rw [if_pos h1]
          exact hI1.1
        · rw [if_neg h1]
          by_cases h2 : fs1.existsB d ∧ ¬ (ov = true)
          · rw [if_pos h2]
            exact hI1.1
          · rw [if_neg h2]
            by_cases h3 : fs1.existsB d ∧ fs1.isFileB s ∧ fs1.isDirB d
            · rw [if_pos h3]
              exact hI1.1
            · rw [if_neg h3]
              by_cases h4 : fs1.existsB d ∧ fs1.isDirB s ∧ fs1.isFileB d
              · rw [if_pos h4]
                exact hI1.1
              · rw [if_neg h4]
                have hdp : root <+: d := resolve_ok_root_pre root dst d hv hres2
                have hdne : d ≠ root := by
                  by_cases hexd : fs1.existsB d = true
                  · have hov : ov = true := by
                      by_contra hovf
                      exact h2 ⟨hexd, fun hh => hovf hh⟩
                    intro hh
                    exact hexc hov (by rw [hres2, hh])
                  · intro hh
                    rw [hh] at hexd
                    exact hexd (by simp [FS.existsB, hI1.1])
                have hI2 : rootIntact root (fs1.clearTarget d) :=
                  clearTarget_rootIntact root fs1 d hI1 hdne hdp
                cases hmk2 : (fs1.clearTarget d).mkdirP d.dropLast true with
                | error e =>
                  rw [bindE_error]
                  exact hI2.1
                | ok fs2 =>
                  rw [bindE_ok]
                  have hI3 := rootIntact_mkdirP root (fs1.clearTarget d) fs2
                    d.dropLast true hI2 hmk2
                  cases hrn : fs2.renameP s d with
                  | error e =>
                    rw [bindE_error]
                    exact hI3.1
                  | ok fs3 =>
                    rw [bindE_ok]
                    exact (renameP_rootIntact fs2 fs3 root s d hI3
                      (Or.inr (resolve_ok_root_pre root src s hv hres1))
                      hdp hdne hrn).1

theorem rename_file_root (root : List String) (fs : FS) (oldPath newPath : String)
    (hv : validRoot root = true) (hI : rootIntact root fs) :
    (rename_file root fs oldPath newPath).1.isDirB root = true := by
  unfold rename_file
  cases hmk : fs.mkdirP root true with
  | error e =>
    rw [bindE_error]
    exact hI.1
  | ok fs1 =>
    rw [bindE_ok]
    have hI1 := rootIntact_mkdirP root fs fs1 root true hI hmk
    cases hres1 : resolveRel root oldPath with
    | error e =>
      rw [bindE_error]
      exact hI1.1
    | ok o =>
      rw [bindE_ok]
      cases hres2 : resolveRel root newPath with
      | error e =>
        rw [bindE_error]
        exact hI1.1
      | ok n =>
        rw [bindE_ok]
        by_cases h1 : ¬ (fs1.existsB o = true)
        · rw [if_pos h1]
          exact hI1.1
        · rw [if_neg h1]
          cases hmk2 : fs1.mkdirP n.dropLast true with
          | error e =>
            rw [bindE_error]
            exact hI1.1
          | ok fs2 =>
            rw [bindE_ok]
            have hI2 := rootIntact_mkdirP root fs1 fs2 n.dropLast true hI1 hmk2
            cases hrn : fs2.renameP o n with
            | error e =>
              rw [bindE_error]
              exact hI2.1
            | ok fs3 =>
              rw [bindE_ok]
              exact renameP_root_dir fs2 fs3 root o n hI2
                (Or.inr (resolve_ok_root_pre root oldPath o hv hres1))
                (Or.inr (resolve_ok_root_pre root newPath n hv hres2)) hrn

theorem delete_folder_root (root : List String) (fs : FS) (path : String) (rc : Bool)
    (hv : validRoot root = true) (hI : rootIntact root fs)
    (hexc : resolveRel root path ≠ .ok root) :
    (delete_folder root fs path rc).1.isDirB root = true := by
  unfold delete_folder
  cases hmk : fs.mkdirP root true with
  | error e =>
    rw [bindE_error]
    exact hI.1
  | ok fs1 =>
    rw [bindE_ok]
    have hI1 := rootIntact_mkdirP root fs fs1 root true hI hmk
    cases hres : resolveRel root path with
    | error e =>
      rw [bindE_error]
      exact hI1.1
    | ok d =>
      rw [bindE_ok]
      have hdne : d ≠ root := fun hh => hexc (by rw [hres, hh])
      by_cases h1 : ¬ (fs1.existsB d = true)
      · rw [if_pos h1]
        exact hI1.1
      · rw [if_neg h1]
        by_cases h2 : ¬ (fs1.isDirB d = true)
        · rw [if_pos h2]
          exact hI1.1
        · rw [if_neg h2]
          by_cases h3 : rc = true
          · rw [if_pos h3]
            have hdp : root <+: d := resolve_ok_root_pre root path d hv hres
            exact (rootIntact_rmtree root fs1 d hI1
              (not_prefixOf_of_longer d root (prefix_length_lt root d hdp hdne))).1
          · rw [if_neg h3]
            by_cases h4 : fs1.childNames d ≠ []
            · rw [if_pos h4]
              exact hI1.1
            · rw [if_neg h4]
              exact (rootIntact_removeDir root fs1 d hI1 hdne).1

theorem create_files_sequence_root (root : List String) (fs : FS) (pre suf : String)
    (start stop : Int) (zp : Nat) (content : String)
    (hd : fs.isDirB root = true) :
    (create_files_sequence root fs pre suf start stop zp content).1.isDirB root = true := by
  unfold create_files_sequence
  cases hmk : fs.mkdirP root true with
  | error e =>
    rw [bindE_error]
    exact hd
  | ok fs1 =>
    rw [bindE_ok]
    have hd1 := mkdirP_dirs_mono fs fs1 root root true hmk hd
    have hloop := create_files_loop_root root pre suf content zp
      (intRange start stop) fs1 [] [] hd1
    cases hres : create_files_loop root pre suf zp content (intRange start stop) fs1 [] [] with
    | mk fs2 r =>
      rw [hres] at hloop
      cases r with
      | error e => exact hloop
      | ok pr =>
        obtain ⟨cr, sk⟩ := pr
        exact hloop

theorem create_folders_sequence_root (root : List String) (fs : FS) (pre suf : String)
    (start stop : Int) (zp : Nat)
    (hd : fs.isDirB root = true) :
    (create_folders_sequence root fs pre suf start stop zp).1.isDirB root = true := by
  unfold create_folders_sequence
  cases hmk : fs.mkdirP root true with
  | error e =>
    rw [bindE_error]
    exact hd
  | ok fs1 =>
    rw [bindE_ok]
    have hd1 := mkdirP_dirs_mono fs fs1 root root true hmk hd
    have hloop := create_folders_loop_root root pre suf zp
      (intRange start stop) fs1 [] [] hd1
    cases hres : create_folders_loop root pre suf zp (intRange start stop) fs1 [] [] with
    | mk fs2 r =>
      rw [hres] at hloop
      cases r with
      | error e => exact hloop
      | ok pr =>
        obtain ⟨cr, sk⟩ := pr
        exact hloop

theorem rename_files_sequence_root (root : List String) (fs : FS)
    (oldPre oldSuf newPre newSuf : String) (start stop : Int) (zp : Nat)
    (sm ov : Bool) (hv : validRoot root = true) (hI : rootIntact root fs)
    (hexc : ∀ i ∈ intRange start stop, ov = true →
      resolveRel root (newPre ++ pyNum i zp ++ newSuf) ≠ .ok root) :
    (rename_files_sequence root fs oldPre oldSuf newPre newSuf
      start stop zp sm ov).1.isDirB root = true := by
  unfold rename_files_sequence
  cases hmk : fs.mkdirP root true with
  | error e =>
    rw [bindE_error]
    exact hI.1
  | ok fs1 =>
    rw [bindE_ok]
    have hI1 := rootIntact_mkdirP root fs fs1 root true hI hmk
    have hloop := rename_seq_loop_rootIntact root oldPre oldSuf newPre newSuf zp sm ov hv
      (intRange start stop) fs1 [] [] [] hI1 hexc
    cases hres : rename_seq_loop root oldPre oldSuf newPre newSuf zp sm ov
        (intRange start stop) fs1 [] [] [] with
    | mk fs2 r =>
      rw [hres] at hloop
      cases r with
      | error e => exact hloop.1
      | ok tr =>
        obtain ⟨a, b, c⟩ := tr
        exact hloop.1

theorem bulk_rename_regex_root (root : List String) (fs : FS) (basePath : String)
    (subst : String → String) (inc tOnly : Bool)
    (hv : validRoot root = true) (hI : rootIntact root fs) :
    (bulk_rename_regex root fs basePath subst inc tOnly).1.isDirB root = true := by
  unfold bulk_rename_regex
  cases hmk : fs.mkdirP root true with
  | error e =>
    rw [bindE_error]
    exact hI.1
  | ok fs1 =>
    rw [bindE_ok]
    have hI1 := rootIntact_mkdirP root fs fs1 root true hI hmk
    cases hres : resolveRel root basePath with
    | error e =>
      rw [bindE_error]
      exact hI1.1
    | ok base =>
      rw [bindE_ok]
      by_cases h1 : ¬ (fs1.existsB base = true)
      · rw [if_pos h1]
        exact hI1.1
      · rw [if_neg h1]
        by_cases h2 : ¬ (fs1.isDirB base = true)
        · rw [if_pos h2]
          exact hI1.1
        · rw [if_neg h2]
          have hbase : root <+: base := resolve_ok_root_pre root basePath base hv hres
          have hlen : ∀ p ∈ bulkWalker fs1 base inc, root.length < p.length := by
            intro p hp
            have hl1 := mem_bulkWalker fs1 base inc p hp
            have hle := hbase.length_le
            omega
          have hloop := bulk_loop_root root subst tOnly
            (bulkWalker fs1 base inc) fs1 [] hI1.1 hlen
          cases hres2 : bulk_loop root subst tOnly (bulkWalker fs1 base inc) fs1 [] with
          | mk fs2 r =>
            rw [hres2] at hloop
            cases r with
            | error e => exact hloop
            | ok changes =>
              cases changes with
              | nil => exact hloop
              | cons a as => exact hloop

/-- **C4** (corrected): starting from a sandbox whose root directory exists and
whose filesystem has no file at or above the root, every public operation —
list, read, write, append, copy, move, create file, create files sequence,
rename, rename files sequence, delete file, glob delete, create folder,
create folders sequence, delete folder, and bulk regex rename — leaves the
root directory in place at its original path whether it succeeds or errors,
EXCEPT that the exclusions are necessary: `delete_folder` on an argument
resolving to the root itself (such as `"."` with `recursive=True`) deletes the
sandbox root, and overwriting moves/renames targeted at the root can relocate
it; under the stated exclusions (the destination of an overwriting
`move_file`/`rename_files_sequence` and the path of `delete_folder` do not
resolve to the root) the root always survives. -/
theorem C4_root_survives (root : List String) (fs : FS)
    (hv : validRoot root = true) (hI : rootIntact root fs) :
    (∀ (path : String) (tr : Bool) (md : Int),
      (list_dir root fs path tr md).1.isDirB root = true) ∧
    (∀ (path : String) (mb : Nat),
      (read_file root fs path mb).1.isDirB root = true) ∧
    (∀ (path content : String),
      (write_file root fs path content).1.isDirB root = true) ∧
    (∀ (path content : String),
      (append_file root fs path content).1.isDirB root = true) ∧
    (∀ (src dst : String) (ov : Bool),
      (copy_file root fs src dst ov).1.isDirB root = true) ∧
    (∀ (src dst : String) (ov : Bool),
      (ov = true → resolveRel root dst ≠ .ok root) →
      (move_file root fs src dst ov).1.isDirB root = true) ∧
    (∀ (path content : String),
      (create_file root fs path content).1.isDirB root = true) ∧
    (∀ (pre suf : String) (start stop : Int) (zp : Nat) (content : String),
      (create_files_sequence root fs pre suf start stop zp content).1.isDirB root = true) ∧
    (∀ (oldPath newPath : String),
      (rename_file root fs oldPath newPath).1.isDirB root = true) ∧
    (∀ (oldPre oldSuf newPre newSuf : String) (start stop : Int) (zp : Nat) (sm ov : Bool),
      (∀ i ∈ intRange start stop, ov = true →
        resolveRel root (newPre ++ pyNum i zp ++ newSuf) ≠ .ok root) →
      (rename_files_sequence root fs oldPre oldSuf newPre newSuf
        start stop zp sm ov).1.isDirB root = true) ∧
    (∀ (path : String),
      (delete_file root fs path).1.isDirB root = true) ∧
    (∀ (pattern : String),
      (delete_glob root fs pattern).1.isDirB root = true) ∧
    (∀ (path : String) (ok : Bool),
      (create_folder root fs path ok).1.isDirB root = true) ∧
    (∀ (pre suf : String) (start stop : Int) (zp : Nat),
      (create_folders_sequence root fs pre suf start stop zp).1.isDirB root = true) ∧
    (∀ (path : String) (rc : Bool), resolveRel root path ≠ .ok root →
      (delete_folder root fs path rc).1.isDirB root = true) ∧
    (∀ (basePath : String) (subst : String → String) (inc tOnly : Bool),
      (bulk_rename_regex root fs basePath subst inc tOnly).1.isDirB root = true) := by
  refine ⟨fun path tr md => list_dir_root root fs path tr md hI.1,
    fun path mb => read_file_root root fs path mb hI.1,
    fun path content => write_file_root root fs path content hI.1,
    fun path content => append_file_root root fs path content hI.1,
    fun src dst ov => copy_file_root root fs src dst ov hI.1,
    fun src dst ov hexc => move_file_root root fs src dst ov hv hI hexc,
    fun path content => create_file_root root fs path content hI.1,
    fun pre suf start stop zp content =>
      create_files_sequence_root root fs pre suf start stop zp content hI.1,
    fun oldPath newPath => rename_file_root root fs oldPath newPath hv hI,
    fun oldPre oldSuf newPre newSuf start stop zp sm ov hexc =>
      rename_files_sequence_root root fs oldPre oldSuf newPre newSuf
        start stop zp sm ov hv hI hexc,
    fun path => delete_file_root root fs path hI.1,
    fun pattern => delete_glob_root root fs pattern hI.1,
    fun path ok => create_folder_root root fs path ok hI.1,
    fun pre suf start stop zp =>
      create_folders_sequence_root root fs pre suf start stop zp hI.1,
    fun path rc hexc => delete_folder_root root fs path rc hv hI hexc,
    fun basePath subst inc tOnly =>
      bulk_rename_regex_root root fs basePath subst inc tOnly hv hI⟩

/-- A concrete instance of the C4 theorem: in the sandbox `/sb` holding the
directory `d`, an overwriting move of `d` to `e`, an empty-range rename
sequence, and a recursive delete of `d` all leave `/sb` standing. -/
theorem C4_root_survives_witness :
    (move_file ["sb"] ⟨[["sb"], ["sb", "d"]], []⟩ "d" "e" true).1.isDirB ["sb"] = true ∧
    (rename_files_sequence ["sb"] ⟨[["sb"], ["sb", "d"]], []⟩ "f" ".txt" "g" ".txt"
      1 0 0 false false).1.isDirB ["sb"] = true ∧
    (delete_folder ["sb"] ⟨[["sb"], ["sb", "d"]], []⟩ "d" true).1.isDirB ["sb"] = true := by
  have h := C4_root_survives ["sb"] ⟨[["sb"], ["sb", "d"]], []⟩ (by decide)
    ⟨by decide, fun q _ => rfl⟩
  refine ⟨?_, ?_, ?_⟩
  · refine h.2.2.2.2.2.1 "d" "e" true ?_
    intro _ hcon
    rw [show resolveRel ["sb"] "e" = Except.ok [("sb" : String), "e"] from rfl] at hcon
    injection hcon with h2
    exact absurd h2 (by decide)
  · refine h.2.2.2.2.2.2.2.2.2.1 "f" ".txt" "g" ".txt" 1 0 0 false false ?_
    intro i hi
    rw [show intRange 1 0 = ([] : List Int) from rfl] at hi
    exact absurd hi (List.not_mem_nil i)
  · refine h.2.2.2.2.2.2.2.2.2.2.2.2.2.2.1 "d" true ?_
    intro hcon
    rw [show resolveRel ["sb"] "d" = Except.ok [("sb" : String), "d"] from rfl] at hcon
    injection hcon with h2
    exact absurd h2 (by decide)

/-! ## Frame lemmas for remapAll and the rename-sequence machinery -/

theorem intRange_nodup (start stop : Int) : (intRange start stop).Nodup := by
  unfold intRange
  refine List.Nodup.map ?_ (List.nodup_range _)
  intro a b hab
  simp only [Int.ofNat_eq_natCast] at hab
  omega

theorem isPrefixOf_concat_ne (root : List String) (a b : String) (h : a ≠ b) :
    (root ++ [a]).isPrefixOf (root ++ [b]) = false := by
  cases hc : (root ++ [a]).isPrefixOf (root ++ [b])
  · rfl
  · exfalso
    have hp := List.isPrefixOf_iff_prefix.1 hc
    have h2 := hp.eq_of_length (by simp)
    have h3 : [a] = [b] := List.append_cancel_left h2
    injection h3 with h4
    exact h h4

theorem lookup_map_remap_frame (s d q : List String) (hs : s.isPrefixOf q = false)
    (hd : d.isPrefixOf q = false) :
    ∀ (l : List (List String × String)),
    (l.map (fun e =>
      (if s.isPrefixOf e.1 then d ++ e.1.drop s.length else e.1, e.2))).lookup q
      = l.lookup q := by
  intro l
  induction l with
  | nil => rfl
  | cons e l ih =>
    obtain ⟨k, c⟩ := e
    simp only [List.map_cons]
    by_cases hk : s.isPrefixOf k = true
    · rw [if_pos hk]
      have h1 : (q == d ++ k.drop s.length) = false := by
        rw [beq_eq_false_iff_ne]
        intro hq
        rw [hq] at hd
        have ht := List.isPrefixOf_iff_prefix.2 (List.prefix_append d (k.drop s.length))
        rw [ht] at hd
        exact absurd hd (by decide)
      rw [List.lookup_cons, List.lookup_cons]
      simp only [h1]
      have h2 : (q == k) = false := by
        rw [beq_eq_false_iff_ne]
        intro hq
        rw [hq] at hs
        rw [hk] at hs
        exact absurd hs (by decide)
      simp only [h2]
      exact ih
    · rw [if_neg hk]
      rw [List.lookup_cons, List.lookup_cons]
      cases hq : (q == k)
      · simp only [ih]
      · rfl

theorem lookup_map_remap_target (s d : List String) :
    ∀ (l : List (List String × String)), l.lookup d = none →
    (l.map (fun e =>
      (if s.isPrefixOf e.1 then d ++ e.1.drop s.length else e.1, e.2))).lookup d
      = l.lookup s := by
  intro l
  induction l with
  | nil => intro _; rfl
  | cons e l ih =>
    intro hnone
    obtain ⟨k, c⟩ := e
    rw [List.lookup_cons] at hnone
    cases hdk : (d == k) with
    | true =>
      rw [hdk] at hnone
      exact absurd hnone (by simp)
    | false =>
      rw [hdk] at hnone
      simp only [List.map_cons]
      by_cases hk : s.isPrefixOf k = true
      · rw [if_pos hk]
        by_cases hks : k = s
        · subst hks
          rw [List.drop_length, List.append_nil]
          rw [List.lookup_cons, List.lookup_cons]
          simp
        · have hrest : k.drop s.length ≠ [] := by
            have hp := List.isPrefixOf_iff_prefix.1 hk
            intro hdrop
            apply hks
            have hlen : k.length ≤ s.length := by
              have hl := congrArg List.length hdrop
              simp only [List.length_drop, List.length_nil] at hl
              omega
            exact (hp.eq_of_length (le_antisymm hp.length_le hlen)).symm
          have h1 : (d == d ++ k.drop s.length) = false := by
            rw [beq_eq_false_iff_ne]
            intro hq
            have hl := congrArg List.length hq
            rw [List.length_append] at hl
            have : (k.drop s.length).length = 0 := by omega
            exact hrest (List.eq_nil_of_length_eq_zero this)
          have h2 : (s == k) = false := by
            rw [beq_eq_false_iff_ne]
            intro hq
            exact hks hq.symm
          rw [List.lookup_cons, List.lookup_cons]
          simp only [h1, h2]
          exact ih hnone
      · rw [if_neg hk]
        rw [List.lookup_cons, List.lookup_cons]
        have h2 : (s == k) = false := by
          rw [beq_eq_false_iff_ne]
          intro hq
          rw [← hq] at hk
          exact hk (List.isPrefixOf_iff_prefix.2 List.prefix_rfl)
        simp only [hdk, h2]
        exact ih hnone

theorem lookup_map_remap_source (s d : List String) (hds : d.isPrefixOf s = false) :
    ∀ (l : List (List String × String)),
    (l.map (fun e =>
      (if s.isPrefixOf e.1 then d ++ e.1.drop s.length else e.1, e.2))).lookup s
      = none := by
  intro l
  induction l with
  | nil => rfl
  | cons e l ih =>
    obtain ⟨k, c⟩ := e
    simp only [List.map_cons]
    by_cases hk : s.isPrefixOf k = true
    · rw [if_pos hk]
      have h1 : (s == d ++ k.drop s.length) = false := by
        rw [beq_eq_false_iff_ne]
        intro hq
        rw [hq] at hds
        have ht := List.isPrefixOf_iff_prefix.2 (List.prefix_append d (k.drop s.length))
        rw [ht] at hds
        exact absurd hds (by decide)
      rw [List.lookup_cons]
      simp only [h1]
      exact ih
    · rw [if_neg hk]
      have h2 : (s == k) = false := by
        rw [beq_eq_false_iff_ne]
        intro hq
        rw [← hq] at hk
        exact hk (List.isPrefixOf_iff_prefix.2 List.prefix_rfl)
      rw [List.lookup_cons]
      simp only [h2]
      exact ih

theorem getContent_remapAll_frame (fs : FS) (s d q : List String)
    (hs : s.isPrefixOf q = false) (hd : d.isPrefixOf q = false) :
    (fs.remapAll s d).getContent q = fs.getContent q :=
  lookup_map_remap_frame s d q hs hd fs.files

theorem isFileB_remapAll_frame (fs : FS) (s d q : List String)
    (hs : s.isPrefixOf q = false) (hd : d.isPrefixOf q = false) :
    (fs.remapAll s d).isFileB q = fs.isFileB q := by
  simp [FS.isFileB, getContent_remapAll_frame fs s d q hs hd]

theorem isDirB_remapAll_frame (fs : FS) (s d q : List String)
    (hs : s.isPrefixOf q = false) (hd : d.isPrefixOf q = false) :
    (fs.remapAll s d).isDirB q = fs.isDirB q := by
  simp only [FS.isDirB, FS.remapAll]
  congr 1
  refine decide_eq_decide.2 ?_
  constructor
  · intro hmem
    obtain ⟨x, hx, hfx⟩ := List.mem_map.1 hmem
    by_cases hxs : s.isPrefixOf x = true
    · rw [if_pos hxs] at hfx
      exfalso
      rw [← hfx] at hd
      have ht := List.isPrefixOf_iff_prefix.2 (List.prefix_append d (x.drop s.length))
      rw [ht] at hd
      exact absurd hd (by decide)
    · rw [if_neg hxs] at hfx
      rw [← hfx]
      exact hx
  · intro hmem
    refine List.mem_map.2 ⟨q, hmem, ?_⟩
    rw [if_neg (by simp [hs])]

theorem existsB_remapAll_frame (fs : FS) (s d q : List String)
    (hs : s.isPrefixOf q = false) (hd : d.isPrefixOf q = false) :
    (fs.remapAll s d).existsB q = fs.existsB q := by
  simp [FS.existsB, isDirB_remapAll_frame fs s d q hs hd,
    isFileB_remapAll_frame fs s d q hs hd]

theorem getContent_remapAll_target (fs : FS) (s d : List String)
    (hfd : fs.isFileB d = false) :
    (fs.remapAll s d).getContent d = fs.getContent s := by
  have hnone : fs.files.lookup d = none := by
    cases hl : fs.files.lookup d with
    | none => rfl
    | some c => simp [FS.isFileB, FS.getContent, hl] at hfd
  exact lookup_map_remap_target s d fs.files hnone

theorem isDirB_remapAll_source (fs : FS) (s d : List String)
    (hds : d.isPrefixOf s = false) (hne : s ≠ []) :
    (fs.remapAll s d).isDirB s = false := by
  simp only [FS.isDirB, FS.remapAll, Bool.or_eq_false_iff]
  constructor
  · exact beq_eq_false_iff_ne.2 hne
  · rw [decide_eq_false_iff_not]
    intro hmem
    obtain ⟨x, hx, hfx⟩ := List.mem_map.1 hmem
    by_cases hxs : s.isPrefixOf x = true
    · rw [if_pos hxs] at hfx
      rw [← hfx] at hds
      have ht := List.isPrefixOf_iff_prefix.2 (List.prefix_append d (x.drop s.length))
      rw [ht] at hds
      exact absurd hds (by decide)
    · rw [if_neg hxs] at hfx
      rw [hfx] at hxs
      exact hxs (List.isPrefixOf_iff_prefix.2 List.prefix_rfl)

theorem existsB_remapAll_source (fs : FS) (s d : List String)
    (hds : d.isPrefixOf s = false) (hne : s ≠ []) :
    (fs.remapAll s d).existsB s = false := by
  simp only [FS.existsB, Bool.or_eq_false_iff]
  refine ⟨isDirB_remapAll_source fs s d hds hne, ?_⟩
  simp only [FS.isFileB, FS.getContent, FS.remapAll]
  rw [lookup_map_remap_source s d hds fs.files]
  rfl

theorem clearTarget_noop (fs : FS) (p : List String) (h : fs.existsB p = false) :
    fs.clearTarget p = fs := by
  unfold FS.clearTarget
  rw [h]
  simp

theorem rootIntact_ensure (root : List String) (fs : FS) (hI : rootIntact root fs) :
    fs.mkdirP root true = .ok fs :=
  mkdirP_noop fs root hI.1 (fun q hq => hI.2 q (List.isPrefixOf_iff_prefix.2 hq))

theorem rootIntact_of_files_longer (root : List String) (fs : FS)
    (hd : fs.isDirB root = true)
    (hf : ∀ e ∈ fs.files, root.length < e.1.length) : rootIntact root fs := by
  refine ⟨hd, ?_⟩
  intro q hq
  cases hc : fs.isFileB q
  · rfl
  · exfalso
    have hmem := mem_keys_of_isFileB fs q hc
    obtain ⟨e, he, heq⟩ := List.mem_map.1 hmem
    have h1 := hf e he
    have h2 := (List.isPrefixOf_iff_prefix.1 hq).length_le
    rw [heq] at h1
    omega

theorem renSeqFold_cons (root : List String) (oldPre oldSuf newPre newSuf : String)
    (zp : Nat) (i : Int) (is : List Int) (fs : FS) :
    renSeqFold root oldPre oldSuf newPre newSuf zp (i :: is) fs =
      renSeqFold root oldPre oldSuf newPre newSuf zp is
        (fs.remapAll (root ++ [oldPre ++ pyNum i zp ++ oldSuf])
          (root ++ [newPre ++ pyNum i zp ++ newSuf])) := rfl

theorem renSeqFold_frame (root : List String) (oldPre oldSuf newPre newSuf : String)
    (zp : Nat) :
    ∀ (is : List Int) (fs : FS) (q : List String),
    (∀ i ∈ is, (root ++ [oldPre ++ pyNum i zp ++ oldSuf]).isPrefixOf q = false ∧
               (root ++ [newPre ++ pyNum i zp ++ newSuf]).isPrefixOf q = false) →
    (renSeqFold root oldPre oldSuf newPre newSuf zp is fs).getContent q = fs.getContent q ∧
    (renSeqFold root oldPre oldSuf newPre newSuf zp is fs).existsB q = fs.existsB q := by
  intro is
  induction is with
  | nil =>
    intro fs q _
    exact ⟨rfl, rfl⟩
  | cons i is ih =>
    intro fs q h
    have hi := h i (List.mem_cons_self i is)
    have ht := ih (fs.remapAll (root ++ [oldPre ++ pyNum i zp ++ oldSuf])
      (root ++ [newPre ++ pyNum i zp ++ newSuf])) q
      (fun j hj => h j (List.mem_cons.2 (Or.inr hj)))
    rw [renSeqFold_cons]
    refine ⟨?_, ?_⟩
    · rw [ht.1, getContent_remapAll_frame fs _ _ q hi.1 hi.2]
    · rw [ht.2, existsB_remapAll_frame fs _ _ q hi.1 hi.2]

theorem renSeqFold_facts (root : List String) (oldPre oldSuf newPre newSuf : String)
    (zp : Nat) :
    ∀ (is : List Int) (fs : FS),
    is.Nodup →
    (∀ i ∈ is, fs.isFileB (root ++ [oldPre ++ pyNum i zp ++ oldSuf]) = true) →
    (∀ i ∈ is, fs.existsB (root ++ [newPre ++ pyNum i zp ++ newSuf]) = false) →
    (∀ i ∈ is, ∀ j ∈ is, i ≠ j →
      oldPre ++ pyNum i zp ++ oldSuf ≠ oldPre ++ pyNum j zp ++ oldSuf) →
    (∀ i ∈ is, ∀ j ∈ is, i ≠ j →
      newPre ++ pyNum i zp ++ newSuf ≠ newPre ++ pyNum j zp ++ newSuf) →
    (∀ i ∈ is, ∀ j ∈ is,
      oldPre ++ pyNum i zp ++ oldSuf ≠ newPre ++ pyNum j zp ++ newSuf) →
    ∀ i ∈ is,
      (renSeqFold root oldPre oldSuf newPre newSuf zp is fs).getContent
        (root ++ [newPre ++ pyNum i zp ++ newSuf]) =
        fs.getContent (root ++ [oldPre ++ pyNum i zp ++ oldSuf]) ∧
      (renSeqFold root oldPre oldSuf newPre newSuf zp is fs).existsB
        (root ++ [oldPre ++ pyNum i zp ++ oldSuf]) = false := by
  intro is
  induction is with
  | nil =>
    intro fs _ _ _ _ _ _ i hi
    exact absurd hi (List.not_mem_nil i)
  | cons a as ih =>
    intro fs hnd hsrc hfresh hoo hnn hon i hi
    have hna : a ∉ as := (List.nodup_cons.1 hnd).1
    have hmem_a : a ∈ a :: as := List.mem_cons_self a as
    have hfa : fs.isFileB (root ++ [newPre ++ pyNum a zp ++ newSuf]) = false := by
      have := hfresh a hmem_a
      simp only [FS.existsB, Bool.or_eq_false_iff] at this
      exact this.2
    rw [renSeqFold_cons]
    rcases List.mem_cons.1 hi with rfl | hi2
    · constructor
      · have hfr := renSeqFold_frame root oldPre oldSuf newPre newSuf zp as
          (fs.remapAll (root ++ [oldPre ++ pyNum i zp ++ oldSuf])
            (root ++ [newPre ++ pyNum i zp ++ newSuf]))
          (root ++ [newPre ++ pyNum i zp ++ newSuf]) ?_
        · rw [hfr.1]
          exact getContent_remapAll_target fs _ _ hfa
        · intro j hj
          have hji : j ≠ i := fun hh => hna (hh ▸ hj)
          constructor
          · exact isPrefixOf_concat_ne root _ _
              (hon j (List.mem_cons.2 (Or.inr hj)) i hmem_a)
          · exact isPrefixOf_concat_ne root _ _
              (hnn j (List.mem_cons.2 (Or.inr hj)) i hmem_a hji)
      · have hfr := renSeqFold_frame root oldPre oldSuf newPre newSuf zp as
          (fs.remapAll (root ++ [oldPre ++ pyNum i zp ++ oldSuf])
            (root ++ [newPre ++ pyNum i zp ++ newSuf]))
          (root ++ [oldPre ++ pyNum i zp ++ oldSuf]) ?_
        · rw [hfr.2]
          refine existsB_remapAll_source fs _ _ ?_ (by simp)
          exact isPrefixOf_concat_ne root _ _
            (fun hh => hon i hmem_a i hmem_a hh.symm)
        · intro j hj
          have hji : j ≠ i := fun hh => hna (hh ▸ hj)
          constructor
          · exact isPrefixOf_concat_ne root _ _
              (hoo j (List.mem_cons.2 (Or.inr hj)) i hmem_a hji)
          · exact isPrefixOf_concat_ne root _ _
              (fun hh => hon i hmem_a j (List.mem_cons.2 (Or.inr hj)) hh.symm)
    · have hia : i ≠ a := fun hh => hna (hh ▸ hi2)
      have hstep := ih (fs.remapAll (root ++ [oldPre ++ pyNum a zp ++ oldSuf])
        (root ++ [newPre ++ pyNum a zp ++ newSuf])) (List.nodup_cons.1 hnd).2
        ?_ ?_ ?_ ?_ ?_ i hi2
      · refine ⟨?_, hstep.2⟩
        rw [hstep.1]
        exact getContent_remapAll_frame fs _ _ _
          (isPrefixOf_concat_ne root _ _ (hoo a hmem_a i hi
            (fun hh => hia hh.symm)))
          (isPrefixOf_concat_ne root _ _ (fun hh => hon i hi a hmem_a hh.symm))
      · intro j hj
        have hja : j ≠ a := fun hh => hna (hh ▸ hj)
        rw [isFileB_remapAll_frame fs _ _ _
          (isPrefixOf_concat_ne root _ _ (hoo a hmem_a j (List.mem_cons.2 (Or.inr hj))
            (fun hh => hja hh.symm)))
          (isPrefixOf_concat_ne root _ _
            (fun hh => hon j (List.mem_cons.2 (Or.inr hj)) a hmem_a hh.symm))]
        exact hsrc j (List.mem_cons.2 (Or.inr hj))
      · intro j hj
        have hja : j ≠ a := fun hh => hna (hh ▸ hj)
        rw [existsB_remapAll_frame fs _ _ _
          (isPrefixOf_concat_ne root _ _ (hon a hmem_a j (List.mem_cons.2 (Or.inr hj))))
          (isPrefixOf_concat_ne root _ _ (hnn a hmem_a j (List.mem_cons.2 (Or.inr hj))
            (fun hh => hja hh.symm)))]
        exact hfresh j (List.mem_cons.2 (Or.inr hj))
      · intro x hx y hy hxy
        exact hoo x (List.mem_cons.2 (Or.inr hx)) y (List.mem_cons.2 (Or.inr hy)) hxy
      · intro x hx y hy hxy
        exact hnn x (List.mem_cons.2 (Or.inr hx)) y (List.mem_cons.2 (Or.inr hy)) hxy
      · intro x hx y hy
        exact hon x (List.mem_cons.2 (Or.inr hx)) y (List.mem_cons.2 (Or.inr hy))

theorem renameP_file_fresh (root : List String) (fs : FS) (a b : String)
    (hdir : fs.isDirB root = true)
    (hsrc : fs.isFileB (root ++ [a]) = true)
    (hfresh : fs.existsB (root ++ [b]) = false)
    (hab : a ≠ b) :
    fs.renameP (root ++ [a]) (root ++ [b]) =
      .ok (fs.remapAll (root ++ [a]) (root ++ [b])) := by
  have hexold : fs.existsB (root ++ [a]) = true := by
    simp [FS.existsB, hsrc]
  have hfd : fs.isFileB (root ++ [b]) = false := by
    have := hfresh
    simp only [FS.existsB, Bool.or_eq_false_iff] at this
    exact this.2
  have hdd : fs.isDirB (root ++ [b]) = false := by
    have := hfresh
    simp only [FS.existsB, Bool.or_eq_false_iff] at this
    exact this.1
  unfold FS.renameP
  rw [if_neg (not_not_intro hexold)]
  rw [if_neg (show ¬ (root ++ [a] = root ++ [b]) by
    intro hh
    have h3 : [a] = [b] := List.append_cancel_left hh
    injection h3 with h4
    exact hab h4)]
  rw [if_neg (not_not_intro (show fs.isDirB (root ++ [b]).dropLast = true by
    rw [show (root ++ [b]).dropLast = root by simp]
    exact hdir))]
  rw [if_pos hsrc]
  rw [if_neg (show ¬ (fs.isDirB (root ++ [b]) = true) by simp [hdd])]
  rw [removeFile_eq_of_not_file fs _ hfd]

theorem rename_seq_loop_all_present (root : List String)
    (oldPre oldSuf newPre newSuf : String) (zp : Nat) (sm ov : Bool) :
    ∀ (is : List Int) (fs : FS) (ren mis con : List String),
    rootIntact root fs →
    is.Nodup →
    (∀ i ∈ is, resolveRel root (oldPre ++ pyNum i zp ++ oldSuf) =
      .ok (root ++ [oldPre ++ pyNum i zp ++ oldSuf])) →
    (∀ i ∈ is, resolveRel root (newPre ++ pyNum i zp ++ newSuf) =
      .ok (root ++ [newPre ++ pyNum i zp ++ newSuf])) →
    (∀ i ∈ is, fs.isFileB (root ++ [oldPre ++ pyNum i zp ++ oldSuf]) = true) →
    (∀ i ∈ is, fs.existsB (root ++ [newPre ++ pyNum i zp ++ newSuf]) = false) →
    (∀ i ∈ is, ∀ j ∈ is, i ≠ j →
      oldPre ++ pyNum i zp ++ oldSuf ≠ oldPre ++ pyNum j zp ++ oldSuf) →
    (∀ i ∈ is, ∀ j ∈ is, i ≠ j →
      newPre ++ pyNum i zp ++ newSuf ≠ newPre ++ pyNum j zp ++ newSuf) →
    (∀ i ∈ is, ∀ j ∈ is,
      oldPre ++ pyNum i zp ++ oldSuf ≠ newPre ++ pyNum j zp ++ newSuf) →
    rename_seq_loop root oldPre oldSuf newPre newSuf zp sm ov is fs ren mis con =
      (renSeqFold root oldPre oldSuf newPre newSuf zp is fs,
       .ok (ren ++ is.map (fun i => (oldPre ++ pyNum i zp ++ oldSuf) ++ " -> " ++
         (newPre ++ pyNum i zp ++ newSuf)), mis, con)) := by
  intro is
  induction is with
  | nil =>
    intro fs ren mis con _ _ _ _ _ _ _ _ _
    simp [rename_seq_loop, renSeqFold]
  | cons i is ih =>
    intro fs ren mis con hI hnd hro hrn hsrc hfresh hoo hnn hon
    have hmem_i : i ∈ i :: is := List.mem_cons_self i is
    have hni : i ∉ is := (List.nodup_cons.1 hnd).1
    have hroi := hro i hmem_i
    have hrni := hrn i hmem_i
    have hsrci := hsrc i hmem_i
    have hfreshi := hfresh i hmem_i
    have hexold : fs.existsB (root ++ [oldPre ++ pyNum i zp ++ oldSuf]) = true := by
      simp [FS.existsB, hsrci]
    have hA := clearTarget_noop fs (root ++ [newPre ++ pyNum i zp ++ newSuf]) hfreshi
    have hB := rootIntact_ensure root fs hI
    have hC := renameP_file_fresh root fs (oldPre ++ pyNum i zp ++ oldSuf)
      (newPre ++ pyNum i zp ++ newSuf) hI.1 hsrci hfreshi (hon i hmem_i i hmem_i)
    simp only [rename_seq_loop, hroi, hrni]
    rw [if_neg (not_not_intro hexold)]
    rw [if_neg (show ¬ (fs.existsB (root ++ [newPre ++ pyNum i zp ++ newSuf]) ∧
        ¬ (ov = true)) by
      intro hc
      rw [hfreshi] at hc
      exact absurd hc.1 (by decide))]
    rw [show (root ++ [newPre ++ pyNum i zp ++ newSuf]).dropLast = root by simp]
    simp only [hA, hB, hC]
    rw [renSeqFold_cons]
    rw [ih (fs.remapAll (root ++ [oldPre ++ pyNum i zp ++ oldSuf])
        (root ++ [newPre ++ pyNum i zp ++ newSuf]))
      (ren ++ [oldPre ++ pyNum i zp ++ oldSuf ++ " -> " ++
        (newPre ++ pyNum i zp ++ newSuf)]) mis con
      (rootIntact_remapAll root fs _ _ hI
        (not_prefixOf_of_longer _ root (by simp)) (by simp))
      (List.nodup_cons.1 hnd).2
      (fun j hj => hro j (List.mem_cons.2 (Or.inr hj)))
      (fun j hj => hrn j (List.mem_cons.2 (Or.inr hj)))
      (fun j hj => by
        have hja : j ≠ i := fun hh => hni (hh ▸ hj)
        rw [isFileB_remapAll_frame fs _ _ _
          (isPrefixOf_concat_ne root _ _ (hoo i hmem_i j (List.mem_cons.2 (Or.inr hj))
            (fun hh => hja hh.symm)))
          (isPrefixOf_concat_ne root _ _
            (fun hh => hon j (List.mem_cons.2 (Or.inr hj)) i hmem_i hh.symm))]
        exact hsrc j (List.mem_cons.2 (Or.inr hj)))
      (fun j hj => by
        have hja : j ≠ i := fun hh => hni (hh ▸ hj)
        rw [existsB_remapAll_frame fs _ _ _
          (isPrefixOf_concat_ne root _ _ (hon i hmem_i j (List.mem_cons.2 (Or.inr hj))))
          (isPrefixOf_concat_ne root _ _ (hnn i hmem_i j (List.mem_cons.2 (Or.inr hj))
            (fun hh => hja hh.symm)))]
        exact hfresh j (List.mem_cons.2 (Or.inr hj)))
      (fun x hx y hy hxy => hoo x (List.mem_cons.2 (Or.inr hx))
        y (List.mem_cons.2 (Or.inr hy)) hxy)
      (fun x hx y hy hxy => hnn x (List.mem_cons.2 (Or.inr hx))
        y (List.mem_cons.2 (Or.inr hy)) hxy)
      (fun x hx y hy => hon x (List.mem_cons.2 (Or.inr hx))
        y (List.mem_cons.2 (Or.inr hy)))]
    simp [List.append_assoc]

theorem rename_seq_loop_one_missing (root : List String)
    (oldPre oldSuf newPre newSuf : String) (zp : Nat) (sm ov : Bool) (m : Int) :
    ∀ (is : List Int) (fs : FS) (ren mis con : List String),
    rootIntact root fs →
    is.Nodup →
    m ∈ is →
    (∀ i ∈ is, resolveRel root (oldPre ++ pyNum i zp ++ oldSuf) =
      .ok (root ++ [oldPre ++ pyNum i zp ++ oldSuf])) →
    (∀ i ∈ is, resolveRel root (newPre ++ pyNum i zp ++ newSuf) =
      .ok (root ++ [newPre ++ pyNum i zp ++ newSuf])) →
    fs.existsB (root ++ [oldPre ++ pyNum m zp ++ oldSuf]) = false →
    (∀ i ∈ is, i ≠ m → fs.isFileB (root ++ [oldPre ++ pyNum i zp ++ oldSuf]) = true) →
    (∀ i ∈ is, i ≠ m → fs.existsB (root ++ [newPre ++ pyNum i zp ++ newSuf]) = false) →
    (∀ i ∈ is, ∀ j ∈ is, i ≠ j →
      oldPre ++ pyNum i zp ++ oldSuf ≠ oldPre ++ pyNum j zp ++ oldSuf) →
    (∀ i ∈ is, ∀ j ∈ is, i ≠ j →
      newPre ++ pyNum i zp ++ newSuf ≠ newPre ++ pyNum j zp ++ newSuf) →
    (∀ i ∈ is, ∀ j ∈ is,
      oldPre ++ pyNum i zp ++ oldSuf ≠ newPre ++ pyNum j zp ++ newSuf) →
    rename_seq_loop root oldPre oldSuf newPre newSuf zp sm ov is fs ren mis con =
      (if sm = true then
        (renSeqFold root oldPre oldSuf newPre newSuf zp (is.erase m) fs,
         .ok (ren ++ (is.erase m).map (fun i => (oldPre ++ pyNum i zp ++ oldSuf) ++
             " -> " ++ (newPre ++ pyNum i zp ++ newSuf)),
           mis ++ [oldPre ++ pyNum m zp ++ oldSuf], con))
      else
        (renSeqFold root oldPre oldSuf newPre newSuf zp
           (is.takeWhile (fun i => i != m)) fs,
         .error (.value ("Missing: " ++ (oldPre ++ pyNum m zp ++ oldSuf))))) := by
  intro is
  induction is with
  | nil =>
    intro fs ren mis con _ _ hm _ _ _ _ _ _ _ _
    exact absurd hm (List.not_mem_nil m)
  | cons i is ih =>
    intro fs ren mis con hI hnd hm hro hrn hmiss hsrc hfresh hoo hnn hon
    have hmem_i : i ∈ i :: is := List.mem_cons_self i is
    have hni : i ∉ is := (List.nodup_cons.1 hnd).1
    by_cases hime : i = m
    · subst hime
      simp only [rename_seq_loop, hro i hmem_i, hrn i hmem_i]
      rw [if_pos (show ¬ (fs.existsB (root ++ [oldPre ++ pyNum i zp ++ oldSuf]) = true)
        by simp [hmiss])]
      by_cases hsm : sm = true
      · rw [if_neg (not_not_intro hsm), if_pos hsm]
        rw [show (i :: is).erase i = is from by simp]
        exact rename_seq_loop_all_present root oldPre oldSuf newPre newSuf zp sm ov
          is fs ren (mis ++ [oldPre ++ pyNum i zp ++ oldSuf]) con hI
          (List.nodup_cons.1 hnd).2
          (fun j hj => hro j (List.mem_cons.2 (Or.inr hj)))
          (fun j hj => hrn j (List.mem_cons.2 (Or.inr hj)))
          (fun j hj => hsrc j (List.mem_cons.2 (Or.inr hj)) (fun hh => hni (hh ▸ hj)))
          (fun j hj => hfresh j (List.mem_cons.2 (Or.inr hj)) (fun hh => hni (hh ▸ hj)))
          (fun x hx y hy hxy => hoo x (List.mem_cons.2 (Or.inr hx))
            y (List.mem_cons.2 (Or.inr hy)) hxy)
          (fun x hx y hy hxy => hnn x (List.mem_cons.2 (Or.inr hx))
            y (List.mem_cons.2 (Or.inr hy)) hxy)
          (fun x hx y hy => hon x (List.mem_cons.2 (Or.inr hx))
            y (List.mem_cons.2 (Or.inr hy)))
      · rw [if_pos hsm, if_neg hsm]
        rw [show (i :: is).takeWhile (fun x => x != i) = [] from by
          simp [List.takeWhile_cons]]
        rfl
    · have him : (i == m) = false := beq_eq_false_iff_ne.2 hime
      have hm2 : m ∈ is := by
        rcases List.mem_cons.1 hm with heq | h
        · exact absurd heq.symm hime
        · exact h
      have hroi := hro i hmem_i
      have hrni := hrn i hmem_i
      have hsrci := hsrc i hmem_i hime
      have hfreshi := hfresh i hmem_i hime
      have hexold : fs.existsB (root ++ [oldPre ++ pyNum i zp ++ oldSuf]) = true := by
        simp [FS.existsB, hsrci]
      have hA := clearTarget_noop fs (root ++ [newPre ++ pyNum i zp ++ newSuf]) hfreshi
      have hB := rootIntact_ensure root fs hI
      have hC := renameP_file_fresh root fs (oldPre ++ pyNum i zp ++ oldSuf)
        (newPre ++ pyNum i zp ++ newSuf) hI.1 hsrci hfreshi (hon i hmem_i i hmem_i)
      simp only [rename_seq_loop, hroi, hrni]
      rw [if_neg (not_not_intro hexold)]
      rw [if_neg (show ¬ (fs.existsB (root ++ [newPre ++ pyNum i zp ++ newSuf]) ∧
          ¬ (ov = true)) by
        intro hc
        rw [hfreshi] at hc
        exact absurd hc.1 (by decide))]
      rw [show (root ++ [newPre ++ pyNum i zp ++ newSuf]).dropLast = root by simp]
      simp only [hA, hB, hC]
      have ihi := ih (fs.remapAll (root ++ [oldPre ++ pyNum i zp ++ oldSuf])
          (root ++ [newPre ++ pyNum i zp ++ newSuf]))
        (ren ++ [oldPre ++ pyNum i zp ++ oldSuf ++ " -> " ++
          (newPre ++ pyNum i zp ++ newSuf)]) mis con
        (rootIntact_remapAll root fs _ _ hI
          (not_prefixOf_of_longer _ root (by simp)) (by simp))
        (List.nodup_cons.1 hnd).2
        hm2
        (fun j hj => hro j (List.mem_cons.2 (Or.inr hj)))
        (fun j hj => hrn j (List.mem_cons.2 (Or.inr hj)))
        (by
          rw [existsB_remapAll_frame fs _ _ _
            (isPrefixOf_concat_ne root _ _ (hoo i hmem_i m hm hime))
            (isPrefixOf_concat_ne root _ _
              (fun hh => hon m hm i hmem_i hh.symm))]
          exact hmiss)
        (fun j hj hjm => by
          have hja : j ≠ i := fun hh => hni (hh ▸ hj)
          rw [isFileB_remapAll_frame fs _ _ _
            (isPrefixOf_concat_ne root _ _ (hoo i hmem_i j (List.mem_cons.2 (Or.inr hj))
              (fun hh => hja hh.symm)))
            (isPrefixOf_concat_ne root _ _
              (fun hh => hon j (List.mem_cons.2 (Or.inr hj)) i hmem_i hh.symm))]
          exact hsrc j (List.mem_cons.2 (Or.inr hj)) hjm)
        (fun j hj hjm => by
          have hja : j ≠ i := fun hh => hni (hh ▸ hj)
          rw [existsB_remapAll_frame fs _ _ _
            (isPrefixOf_concat_ne root _ _ (hon i hmem_i j (List.mem_cons.2 (Or.inr hj))))
            (isPrefixOf_concat_ne root _ _ (hnn i hmem_i j (List.mem_cons.2 (Or.inr hj))
              (fun hh => hja hh.symm)))]
          exact hfresh j (List.mem_cons.2 (Or.inr hj)) hjm)
        (fun x hx y hy hxy => hoo x (List.mem_cons.2 (Or.inr hx))
          y (List.mem_cons.2 (Or.inr hy)) hxy)
        (fun x hx y hy hxy => hnn x (List.mem_cons.2 (Or.inr hx))
          y (List.mem_cons.2 (Or.inr hy)) hxy)
        (fun x hx y hy => hon x (List.mem_cons.2 (Or.inr hx))
          y (List.mem_cons.2 (Or.inr hy)))
      by_cases hsm : sm = true
      · rw [if_pos hsm] at ihi ⊢
        rw [ihi]
        rw [show (i :: is).erase m = i :: is.erase m from by
          simp [List.erase_cons, him]]
        rw [renSeqFold_cons]
        simp [List.append_assoc]
      · rw [if_neg hsm] at ihi ⊢
        rw [ihi]
        rw [show (i :: is).takeWhile (fun x => x != m) =
            i :: is.takeWhile (fun x => x != m) from by
          simp [List.takeWhile_cons, him, hime]]
        rw [renSeqFold_cons]

/-- **C5** (corrected): `rename_files_sequence` over a range with exactly one
missing source (index `m`; every other index has its source file present, all
new names are fresh, and the constructed names are pairwise distinct and
resolve inside the sandbox at root level).  With `skip_missing=true` it
renames every other index in range order and reports the missing old name in
the Missing section.  With `skip_missing=false` it fails with `Missing:
<old name>` upon reaching index `m` — but, contrary to the original claim that
no rename in the batch is applied, the renames of all indices BEFORE `m` have
already been applied and are kept (the batch is non-atomic, matching the
fail-fast note of the spec). -/
theorem C5_one_missing_source (root : List String) (fs : FS)
    (oldPre oldSuf newPre newSuf : String) (start stop : Int) (zp : Nat)
    (ov : Bool) (m : Int)
    (hI : rootIntact root fs)
    (hm : m ∈ intRange start stop)
    (hro : ∀ i ∈ intRange start stop, resolveRel root (oldPre ++ pyNum i zp ++ oldSuf) =
      .ok (root ++ [oldPre ++ pyNum i zp ++ oldSuf]))
    (hrn : ∀ i ∈ intRange start stop, resolveRel root (newPre ++ pyNum i zp ++ newSuf) =
      .ok (root ++ [newPre ++ pyNum i zp ++ newSuf]))
    (hmiss : fs.existsB (root ++ [oldPre ++ pyNum m zp ++ oldSuf]) = false)
    (hsrc : ∀ i ∈ intRange start stop, i ≠ m →
      fs.isFileB (root ++ [oldPre ++ pyNum i zp ++ oldSuf]) = true)
    (hfresh : ∀ i ∈ intRange start stop, i ≠ m →
      fs.existsB (root ++ [newPre ++ pyNum i zp ++ newSuf]) = false)
    (hoo : ∀ i ∈ intRange start stop, ∀ j ∈ intRange start stop, i ≠ j →
      oldPre ++ pyNum i zp ++ oldSuf ≠ oldPre ++ pyNum j zp ++ oldSuf)
    (hnn : ∀ i ∈ intRange start stop, ∀ j ∈ intRange start stop, i ≠ j →
      newPre ++ pyNum i zp ++ newSuf ≠ newPre ++ pyNum j zp ++ newSuf)
    (hon : ∀ i ∈ intRange start stop, ∀ j ∈ intRange start stop,
      oldPre ++ pyNum i zp ++ oldSuf ≠ newPre ++ pyNum j zp ++ newSuf) :
    (rename_files_sequence root fs oldPre oldSuf newPre newSuf start stop zp true ov =
      (renSeqFold root oldPre oldSuf newPre newSuf zp ((intRange start stop).erase m) fs,
       .ok ("Renamed:\n" ++ joinOrNone (((intRange start stop).erase m).map
           (fun i => (oldPre ++ pyNum i zp ++ oldSuf) ++ " -> " ++
             (newPre ++ pyNum i zp ++ newSuf))) ++
         "\n\nMissing:\n" ++ joinOrNone [oldPre ++ pyNum m zp ++ oldSuf] ++
         "\n\nConflicted (exists, not overwritten):\n" ++ joinOrNone []))) ∧
    (∀ i ∈ intRange start stop, i ≠ m →
      (renSeqFold root oldPre oldSuf newPre newSuf zp
        ((intRange start stop).erase m) fs).getContent
          (root ++ [newPre ++ pyNum i zp ++ newSuf]) =
        fs.getContent (root ++ [oldPre ++ pyNum i zp ++ oldSuf]) ∧
      (renSeqFold root oldPre oldSuf newPre newSuf zp
        ((intRange start stop).erase m) fs).existsB
          (root ++ [oldPre ++ pyNum i zp ++ oldSuf]) = false) ∧
    (rename_files_sequence root fs oldPre oldSuf newPre newSuf start stop zp false ov =
      (renSeqFold root oldPre oldSuf newPre newSuf zp
         ((intRange start stop).takeWhile (fun i => i != m)) fs,
       .error (.value ("Missing: " ++ (oldPre ++ pyNum m zp ++ oldSuf))))) ∧
    (∀ i ∈ (intRange start stop).takeWhile (fun i => i != m),
      (renSeqFold root oldPre oldSuf newPre newSuf zp
        ((intRange start stop).takeWhile (fun i => i != m)) fs).getContent
          (root ++ [newPre ++ pyNum i zp ++ newSuf]) =
        fs.getContent (root ++ [oldPre ++ pyNum i zp ++ oldSuf]) ∧
      (renSeqFold root oldPre oldSuf newPre newSuf zp
        ((intRange start stop).takeWhile (fun i => i != m)) fs).existsB
          (root ++ [oldPre ++ pyNum i zp ++ oldSuf]) = false) := by
  have hens := rootIntact_ensure root fs hI
  have hndR := intRange_nodup start stop
  refine ⟨?_, ?_, ?_, ?_⟩
  · unfold rename_files_sequence
    rw [hens, bindE_ok]
    have hloop := rename_seq_loop_one_missing root oldPre oldSuf newPre newSuf zp
      true ov m (intRange start stop) fs [] [] [] hI hndR hm hro hrn hmiss hsrc
      hfresh hoo hnn hon
    rw [if_pos rfl] at hloop
    rw [hloop]
    simp only [List.nil_append]
  · have hfacts := renSeqFold_facts root oldPre oldSuf newPre newSuf zp
      ((intRange start stop).erase m) fs (hndR.erase m)
      (fun j hj => hsrc j (List.mem_of_mem_erase hj) ((hndR.mem_erase_iff.1 hj).1))
      (fun j hj => hfresh j (List.mem_of_mem_erase hj) ((hndR.mem_erase_iff.1 hj).1))
      (fun x hx y hy hxy => hoo x (List.mem_of_mem_erase hx)
        y (List.mem_of_mem_erase hy) hxy)
      (fun x hx y hy hxy => hnn x (List.mem_of_mem_erase hx)
        y (List.mem_of_mem_erase hy) hxy)
      (fun x hx y hy => hon x (List.mem_of_mem_erase hx)
        y (List.mem_of_mem_erase hy))
    intro i hi hine
    exact hfacts i (hndR.mem_erase_iff.2 ⟨hine, hi⟩)
  · unfold rename_files_sequence
    rw [hens, bindE_ok]
    have hloop := rename_seq_loop_one_missing root oldPre oldSuf newPre newSuf zp
      false ov m (intRange start stop) fs [] [] [] hI hndR hm hro hrn hmiss hsrc
      hfresh hoo hnn hon
    rw [if_neg (by decide)] at hloop
    rw [hloop]
  · have hmemT : ∀ j ∈ (intRange start stop).takeWhile (fun i => i != m),
        j ∈ intRange start stop ∧ j ≠ m := by
      intro j hj
      refine ⟨(List.takeWhile_sublist _).subset hj, ?_⟩
      have hp := List.mem_takeWhile_imp hj
      simpa [bne_iff_ne] using hp
    have hfacts := renSeqFold_facts root oldPre oldSuf newPre newSuf zp
      ((intRange start stop).takeWhile (fun i => i != m)) fs
      (hndR.sublist (List.takeWhile_sublist _))
      (fun j hj => hsrc j (hmemT j hj).1 (hmemT j hj).2)
      (fun j hj => hfresh j (hmemT j hj).1 (hmemT j hj).2)
      (fun x hx y hy hxy => hoo x (hmemT x hx).1 y (hmemT y hy).1 hxy)
      (fun x hx y hy hxy => hnn x (hmemT x hx).1 y (hmemT y hy).1 hxy)
      (fun x hx y hy => hon x (hmemT x hx).1 y (hmemT y hy).1)
    intro i hi
    exact hfacts i hi

/-- A concrete instance of the C5 theorem: in `/sb` with `a1.txt` and
`a3.txt` present and `a2.txt` missing, the skip--missing run over 1..3
renames the two present files and reports `a2.txt` as missing. -/
theorem C5_one_missing_source_witness :
    rename_files_sequence ["sb"]
        ⟨[["sb"]], [(["sb", "a1.txt"], "one"), (["sb", "a3.txt"], "three")]⟩
        "a" ".txt" "b" ".txt" 1 3 0 true false =
      (renSeqFold ["sb"] "a" ".txt" "b" ".txt" 0 ((intRange 1 3).erase 2)
        ⟨[["sb"]], [(["sb", "a1.txt"], "one"), (["sb", "a3.txt"], "three")]⟩,
       .ok ("Renamed:\n" ++ joinOrNone (((intRange 1 3).erase 2).map
           (fun i => ("a" ++ pyNum i 0 ++ ".txt") ++ " -> " ++
             ("b" ++ pyNum i 0 ++ ".txt"))) ++
         "\n\nMissing:\n" ++ joinOrNone ["a" ++ pyNum 2 0 ++ ".txt"] ++
         "\n\nConflicted (exists, not overwritten):\n" ++ joinOrNone [])) := by
  refine (C5_one_missing_source ["sb"]
    ⟨[["sb"]], [(["sb", "a1.txt"], "one"), (["sb", "a3.txt"], "three")]⟩
    "a" ".txt" "b" ".txt" 1 3 0 false 2
    (rootIntact_of_files_longer ["sb"] _ (by decide) (by decide))
    (by decide) ?_ ?_ (by decide) ?_ ?_ ?_ ?_ ?_).1
  · intro i hi
    rw [show intRange 1 3 = [(1 : Int), 2, 3] from rfl] at hi
    fin_cases hi <;> rfl
  · intro i hi
    rw [show intRange 1 3 = [(1 : Int), 2, 3] from rfl] at hi
    fin_cases hi <;> rfl
  · intro i hi hne
    rw [show intRange 1 3 = [(1 : Int), 2, 3] from rfl] at hi
    fin_cases hi
    · decide
    · exact absurd rfl hne
    · decide
  · intro i hi hne
    rw [show intRange 1 3 = [(1 : Int), 2, 3] from rfl] at hi
    fin_cases hi <;> decide
  · intro i hi j hj hij
    rw [show intRange 1 3 = [(1 : Int), 2, 3] from rfl] at hi hj
    fin_cases hi <;> fin_cases hj <;> first | decide | exact absurd rfl hij
  · intro i hi j hj hij
    rw [show intRange 1 3 = [(1 : Int), 2, 3] from rfl] at hi hj
    fin_cases hi <;> fin_cases hj <;> first | decide | exact absurd rfl hij
  · intro i hi j hj
    rw [show intRange 1 3 = [(1 : Int), 2, 3] from rfl] at hi hj
    fin_cases hi <;> fin_cases hj <;> decide

/-! ## Machinery for the bulk regex rename -/

theorem ne_of_concat_ne (base : List String) (a b : String)
    (h : base ++ [a] ≠ base ++ [b]) : a ≠ b :=
  fun ha => h (by rw [ha])

theorem insertBy_perm {α : Type} (le : α → α → Bool) (a : α) :
    ∀ (l : List α), (insertBy le a l).Perm (a :: l) := by
  intro l
  induction l with
  | nil => exact List.Perm.refl _
  | cons b bs ih =>
    unfold insertBy
    by_cases h : le a b = true
    · rw [if_pos h]
    · rw [if_neg h]
      exact ((ih.cons b).trans (List.Perm.swap a b bs)).symm.symm
      
theorem sortBy_perm {α : Type} (le : α → α → Bool) :
    ∀ (l : List α), (sortBy le l).Perm l := by
  intro l
  induction l with
  | nil => exact List.Perm.refl _
  | cons b bs ih =>
    unfold sortBy
    rw [List.foldr_cons]
    exact (insertBy_perm le b _).trans (ih.cons b)

theorem lastName_concat (l : List String) (a : String) : lastName (l ++ [a]) = a := by
  simp [lastName]

theorem mem_childNames_exists (fs : FS) (base : List String) (n : String)
    (h : n ∈ fs.childNames base) : fs.existsB (base ++ [n]) = true := by
  have h2 := List.mem_dedup.1 h
  obtain ⟨q, hq, hq2⟩ := List.mem_filterMap.1 h2
  by_cases hc : q.dropLast = base ∧ q ≠ []
  · rw [if_pos hc] at hq2
    have hqe : q = base ++ [n] := by
      have h3 := List.getLast?_eq_getLast q hc.2
      rw [h3] at hq2
      injection hq2 with h4
      rw [← hc.1, ← h4]
      exact (List.dropLast_append_getLast hc.2).symm
    rw [← hqe]
    rcases List.mem_append.1 hq with hd | hf
    · simp only [FS.existsB, Bool.or_eq_true]
      refine Or.inl ?_
      simp [FS.isDirB, hd]
    · simp only [FS.existsB, Bool.or_eq_true]
      exact Or.inr (isFileB_of_mem_keys fs q hf)
  · rw [if_neg hc] at hq2
    exact absurd hq2 (by simp)

theorem mem_bulkWalker0 (fs : FS) (base : List String) (p : List String)
    (h : p ∈ bulkWalker fs base false) :
    p = base ++ [lastName p] ∧ fs.existsB p = true := by
  have h2 := mem_sortBy _ p _ h
  simp only [Bool.false_eq_true, if_false] at h2
  obtain ⟨n, hn, rfl⟩ := List.mem_map.1 h2
  rw [lastName_concat]
  exact ⟨rfl, mem_childNames_exists fs base n hn⟩

theorem bulkWalker0_nodup (fs : FS) (base : List String) :
    (bulkWalker fs base false).Nodup := by
  unfold bulkWalker
  refine ((sortBy_perm _ _).nodup_iff).2 ?_
  simp only [Bool.false_eq_true, if_false]
  refine List.Nodup.map ?_ (List.nodup_dedup _)
  intro a b hab
  have h3 : [a] = [b] := List.append_cancel_left hab
  injection h3 with h4

theorem bulk_loop_testOnly_fst (root : List String) (subst : String → String) :
    ∀ (ws : List (List String)) (fs : FS) (ch : List String),
    (bulk_loop root subst true ws fs ch).1 = fs := by
  intro ws
  induction ws with
  | nil =>
    intro fs ch
    rfl
  | cons p ps ih =>
    intro fs ch
    simp only [bulk_loop]
    by_cases hfp : fs.isFileB p = true
    · rw [if_neg (not_not_intro hfp)]
      by_cases hname : subst (lastName p) = lastName p
      · rw [if_pos hname]
        exact ih fs ch
      · rw [if_neg hname]
        by_cases hbad : subst (lastName p) = "" ∨ subst (lastName p) = "." ∨
            (subst (lastName p)).data.contains '/'
        · rw [if_pos hbad]
        · rw [if_neg hbad]
          cases hres : resolveRel root (relStr root (p.dropLast ++ [subst (lastName p)])) with
          | error e =>
            simp only [hres]
          | ok t =>
            simp only [hres]
            exact ih fs (ch ++ [relStr root p ++ " -> " ++
              relStr root (p.dropLast ++ [subst (lastName p)])])
    · rw [if_pos hfp]
      exact ih fs ch

theorem dropLast_concat_eq (l : List String) (b : String) : (l ++ [b]).dropLast = l := by
  simp

theorem bulkRenFold_cons (subst : String → String) (p : List String)
    (ps : List (List String)) (fs : FS) :
    bulkRenFold subst (p :: ps) fs =
      bulkRenFold subst ps (fs.remapAll p (p.dropLast ++ [subst (lastName p)])) := rfl

theorem bulk_loop_preview (root : List String) (subst : String → String) (fs : FS) :
    ∀ (ws : List (List String)) (ch : List String),
    (∀ p ∈ ws, fs.isFileB p = true → subst (lastName p) ≠ lastName p →
      ¬ (subst (lastName p) = "" ∨ subst (lastName p) = "." ∨
        (subst (lastName p)).data.contains '/')) →
    (∀ p ∈ ws, fs.isFileB p = true → subst (lastName p) ≠ lastName p →
      ∀ e, resolveRel root (relStr root (p.dropLast ++ [subst (lastName p)])) ≠ .error e) →
    bulk_loop root subst true ws fs ch =
      (fs, .ok (ch ++ (ws.filter (fun p => fs.isFileB p &&
        !(subst (lastName p) == lastName p))).map
        (fun p => relStr root p ++ " -> " ++
          relStr root (p.dropLast ++ [subst (lastName p)])))) := by
  intro ws
  induction ws with
  | nil =>
    intro ch _ _
    simp [bulk_loop]
  | cons p ps ih =>
    intro ch hgood hresE
    have hmem_p : p ∈ p :: ps := List.mem_cons_self p ps
    simp only [bulk_loop]
    by_cases hfp : fs.isFileB p = true
    · rw [if_neg (not_not_intro hfp)]
      by_cases hname : subst (lastName p) = lastName p
      · rw [if_pos hname]
        rw [List.filter_cons_of_neg (by simp [hname])]
        exact ih ch (fun q hq => hgood q (List.mem_cons.2 (Or.inr hq)))
          (fun q hq => hresE q (List.mem_cons.2 (Or.inr hq)))
      · rw [if_neg hname]
        rw [if_neg (hgood p hmem_p hfp hname)]
        cases hres : resolveRel root (relStr root (p.dropLast ++ [subst (lastName p)])) with
        | error e => exact absurd hres (hresE p hmem_p hfp hname e)
        | ok t =>
          simp only [hres]
          have IH := ih (ch ++ [relStr root p ++ " -> " ++
              relStr root (p.dropLast ++ [subst (lastName p)])])
            (fun q hq => hgood q (List.mem_cons.2 (Or.inr hq)))
            (fun q hq => hresE q (List.mem_cons.2 (Or.inr hq)))
          refine IH.trans ?_
          rw [List.filter_cons_of_pos (by simp [hfp, hname])]
          rw [List.map_cons]
          simp [List.append_assoc]
    · rw [if_pos hfp]
      rw [List.filter_cons_of_neg (by simp [hfp])]
      exact ih ch (fun q hq => hgood q (List.mem_cons.2 (Or.inr hq)))
        (fun q hq => hresE q (List.mem_cons.2 (Or.inr hq)))

theorem bulk_loop_real (root base : List String) (subst : String → String) (fs : FS) :
    ∀ (ws : List (List String)) (fsc : FS) (ch : List String),
    ws.Nodup →
    (∀ p ∈ ws, p = base ++ [lastName p]) →
    (∀ p ∈ ws, fs.existsB p = true) →
    (∀ p ∈ ws, fs.isFileB p = true → subst (lastName p) ≠ lastName p →
      ¬ (subst (lastName p) = "" ∨ subst (lastName p) = "." ∨
        (subst (lastName p)).data.contains '/')) →
    (∀ p ∈ ws, fs.isFileB p = true → subst (lastName p) ≠ lastName p →
      ∀ e, resolveRel root (relStr root (p.dropLast ++ [subst (lastName p)])) ≠ .error e) →
    (∀ p ∈ ws, fs.isFileB p = true → subst (lastName p) ≠ lastName p →
      pyNormalize (p.dropLast ++ [subst (lastName p)]) = p.dropLast ++ [subst (lastName p)]) →
    (∀ p ∈ ws, fs.isFileB p = true → subst (lastName p) ≠ lastName p →
      fs.existsB (base ++ [subst (lastName p)]) = false) →
    (∀ p ∈ ws, ∀ q ∈ ws, fs.isFileB p = true → subst (lastName p) ≠ lastName p →
      fs.isFileB q = true → subst (lastName q) ≠ lastName q → p ≠ q →
      subst (lastName p) ≠ subst (lastName q)) →
    fsc.isDirB base = true →
    (∀ q ∈ ws, fsc.isFileB q = fs.isFileB q) →
    (∀ q ∈ ws, fs.isFileB q = true → subst (lastName q) ≠ lastName q →
      fsc.existsB (base ++ [subst (lastName q)]) = false) →
    bulk_loop root subst false ws fsc ch =
      (bulkRenFold subst (ws.filter (fun p => fs.isFileB p &&
          !(subst (lastName p) == lastName p))) fsc,
       .ok (ch ++ (ws.filter (fun p => fs.isFileB p &&
          !(subst (lastName p) == lastName p))).map
         (fun p => relStr root p ++ " -> " ++
           relStr root (p.dropLast ++ [subst (lastName p)])))) := by
  intro ws
  induction ws with
  | nil =>
    intro fsc ch _ _ _ _ _ _ _ _ _ _ _
    simp [bulk_loop, bulkRenFold]
  | cons p ps ih =>
    intro fsc ch hnd hshape hex hgood hresE hnorm hfreshT htd hdir hfile hfreshC
    have hmem_p : p ∈ p :: ps := List.mem_cons_self p ps
    obtain ⟨n, rfl⟩ : ∃ n, p = base ++ [n] := ⟨lastName p, hshape p hmem_p⟩
    have hni : (base ++ [n]) ∉ ps := (List.nodup_cons.1 hnd).1
    have hln : lastName (base ++ [n]) = n := lastName_concat base n
    by_cases hfp : fs.isFileB (base ++ [n]) = true
    · by_cases hname : subst n = n
      · simp only [bulk_loop, hln]
        rw [if_neg (not_not_intro (by rw [hfile _ hmem_p]; exact hfp))]
        rw [if_pos hname]
        rw [List.filter_cons_of_neg (by simp [hln, hname])]
        exact ih fsc ch (List.nodup_cons.1 hnd).2
          (fun q hq => hshape q (List.mem_cons.2 (Or.inr hq)))
          (fun q hq => hex q (List.mem_cons.2 (Or.inr hq)))
          (fun q hq => hgood q (List.mem_cons.2 (Or.inr hq)))
          (fun q hq => hresE q (List.mem_cons.2 (Or.inr hq)))
          (fun q hq => hnorm q (List.mem_cons.2 (Or.inr hq)))
          (fun q hq => hfreshT q (List.mem_cons.2 (Or.inr hq)))
          (fun x hx y hy => htd x (List.mem_cons.2 (Or.inr hx))
            y (List.mem_cons.2 (Or.inr hy)))
          hdir
          (fun q hq => hfile q (List.mem_cons.2 (Or.inr hq)))
          (fun q hq => hfreshC q (List.mem_cons.2 (Or.inr hq)))
      · have hname2 : subst (lastName (base ++ [n])) ≠ lastName (base ++ [n]) := by
          rw [hln]
          exact hname
        have hfreshTi : fs.existsB (base ++ [subst n]) = false := by
          have := hfreshT _ hmem_p hfp hname2
          rw [hln] at this
          exact this
        have hfreshCi : fsc.existsB (base ++ [subst n]) = false := by
          have := hfreshC _ hmem_p hfp hname2
          rw [hln] at this
          exact this
        have hsrcc : fsc.isFileB (base ++ [n]) = true := by
          rw [hfile _ hmem_p]
          exact hfp
        have hnormi : pyNormalize ((base ++ [n]).dropLast ++ [subst n]) =
            (base ++ [n]).dropLast ++ [subst n] := by
          have := hnorm _ hmem_p hfp hname2
          rw [hln] at this
          exact this
        simp only [bulk_loop, hln]
        rw [if_neg (not_not_intro hsrcc)]
        rw [if_neg hname]
        rw [if_neg (by
          have := hgood _ hmem_p hfp hname2
          rw [hln] at this
          exact this)]
        cases hres : resolveRel root
            (relStr root ((base ++ [n]).dropLast ++ [subst n])) with
        | error e =>
          exact absurd hres (by
            have := hresE _ hmem_p hfp hname2 e
            rw [hln] at this
            exact this)
        | ok t =>
          simp only [hres]
          rw [hnormi, dropLast_concat_eq]
          rw [if_neg (show ¬ (fsc.existsB (base ++ [subst n]) = true) by
            simp [hfreshCi])]
          rw [show fsc.renameP (base ++ [n]) (base ++ [subst n]) =
              .ok (fsc.remapAll (base ++ [n]) (base ++ [subst n])) from
            renameP_file_fresh base fsc n (subst n) hdir hsrcc hfreshCi
              (fun h => hname h.symm)]
          have IH := ih (fsc.remapAll (base ++ [n]) (base ++ [subst n]))
            (ch ++ [relStr root (base ++ [n]) ++ " -> " ++ relStr root (base ++ [subst n])])
            (List.nodup_cons.1 hnd).2
            (fun q hq => hshape q (List.mem_cons.2 (Or.inr hq)))
            (fun q hq => hex q (List.mem_cons.2 (Or.inr hq)))
            (fun q hq => hgood q (List.mem_cons.2 (Or.inr hq)))
            (fun q hq => hresE q (List.mem_cons.2 (Or.inr hq)))
            (fun q hq => hnorm q (List.mem_cons.2 (Or.inr hq)))
            (fun q hq => hfreshT q (List.mem_cons.2 (Or.inr hq)))
            (fun x hx y hy => htd x (List.mem_cons.2 (Or.inr hx))
              y (List.mem_cons.2 (Or.inr hy)))
            (by
              rw [isDirB_remapAll_frame fsc _ _ base
                (not_prefixOf_of_longer _ base (by simp))
                (not_prefixOf_of_longer _ base (by simp))]
              exact hdir)
            (fun q hq => by
              have hqmem : q ∈ (base ++ [n]) :: ps := List.mem_cons.2 (Or.inr hq)
              have hqshape := hshape q hqmem
              have hnq : n ≠ lastName q := by
                intro hh
                apply hni
                rw [hh, ← hqshape]
                exact hq
              have htq : subst n ≠ lastName q := by
                intro hh
                have hexq := hex q hqmem
                rw [hqshape, ← hh] at hexq
                rw [hfreshTi] at hexq
                exact absurd hexq (by decide)
              rw [hqshape]
              rw [isFileB_remapAll_frame fsc _ _ _
                (isPrefixOf_concat_ne base _ _ hnq)
                (isPrefixOf_concat_ne base _ _ htq)]
              rw [← hqshape]
              exact hfile q hqmem)
            (fun q hq hq1 hq2 => by
              have hqmem : q ∈ (base ++ [n]) :: ps := List.mem_cons.2 (Or.inr hq)
              have hqne : (base ++ [n]) ≠ q := fun hh => hni (hh ▸ hq)
              have hn1 : n ≠ subst (lastName q) := by
                intro hh
                have hexp : fs.existsB (base ++ [n]) = true := by
                  simp [FS.existsB, hfp]
                rw [hh] at hexp
                rw [hfreshT q hqmem hq1 hq2] at hexp
                exact absurd hexp (by decide)
              have hn2 : subst n ≠ subst (lastName q) := by
                have := htd _ hmem_p q hqmem hfp hname2 hq1 hq2 hqne
                rw [hln] at this
                exact this
              rw [existsB_remapAll_frame fsc _ _ _
                (isPrefixOf_concat_ne base _ _ hn1)
                (isPrefixOf_concat_ne base _ _ hn2)]
              exact hfreshC q hqmem hq1 hq2)
          refine IH.trans ?_
          rw [List.filter_cons_of_pos (by simp [hln, hfp, hname])]
          rw [bulkRenFold_cons, List.map_cons]
          simp only [hln, dropLast_concat_eq]
          simp [List.append_assoc]
    · simp only [bulk_loop, hln]
      rw [if_pos (show ¬ (fsc.isFileB (base ++ [n]) = true) by
        rw [hfile _ hmem_p]
        simp [hfp])]
      rw [List.filter_cons_of_neg (by simp [hfp])]
      exact ih fsc ch (List.nodup_cons.1 hnd).2
        (fun q hq => hshape q (List.mem_cons.2 (Or.inr hq)))
        (fun q hq => hex q (List.mem_cons.2 (Or.inr hq)))
        (fun q hq => hgood q (List.mem_cons.2 (Or.inr hq)))
        (fun q hq => hresE q (List.mem_cons.2 (Or.inr hq)))
        (fun q hq => hnorm q (List.mem_cons.2 (Or.inr hq)))
        (fun q hq => hfreshT q (List.mem_cons.2 (Or.inr hq)))
        (fun x hx y hy => htd x (List.mem_cons.2 (Or.inr hx))
          y (List.mem_cons.2 (Or.inr hy)))
        hdir
        (fun q hq => hfile q (List.mem_cons.2 (Or.inr hq)))
        (fun q hq => hfreshC q (List.mem_cons.2 (Or.inr hq)))

theorem bulk_rename_regex_testOnly_fst (root : List String) (fs : FS) (bp : String)
    (subst : String → String) (inc : Bool) (hI : rootIntact root fs) :
    (bulk_rename_regex root fs bp subst inc true).1 = fs := by
  unfold bulk_rename_regex
  rw [rootIntact_ensure root fs hI, bindE_ok]
  cases hres : resolveRel root bp with
  | error e =>
    rw [bindE_error]
  | ok base =>
    rw [bindE_ok]
    by_cases h1 : ¬ (fs.existsB base = true)
    · rw [if_pos h1]
    · rw [if_neg h1]
      by_cases h2 : ¬ (fs.isDirB base = true)
      · rw [if_pos h2]
      · rw [if_neg h2]
        have hfst := bulk_loop_testOnly_fst root subst (bulkWalker fs base inc) fs []
        cases hbl : bulk_loop root subst true (bulkWalker fs base inc) fs [] with
        | mk f2 r =>
          rw [hbl] at hfst
          cases r with
          | error e => exact hfst
          | ok changes =>
            cases changes with
            | nil => exact hfst
            | cons a as => exact hfst

/-- **C6** (corrected): under the sandbox invariant, `bulk_rename_regex` with
`test_only=true` never mutates the filesystem, for every base path,
substitution and subtree flag.  The previewed renames agree with the real run
only under extra conditions the original claim omitted: when every previewed
target name is valid, resolves, is fresh, and the previewed targets are
pairwise distinct, the subsequent `test_only=false` call on the unchanged
filesystem (here with `include_subdirs=false`) succeeds, lists exactly the
previewed renames, and its resulting state is exactly the fold of those
renames; without those conditions the preview can list renames the real run
refuses (see the counterexample: a previewed target that already exists makes
the real run abort). -/
theorem C6_preview_contract (root : List String) (fs : FS) (basePath : String)
    (subst : String → String) (base : List String)
    (hI : rootIntact root fs)
    (hbase : resolveRel root basePath = .ok base)
    (hbex : fs.existsB base = true)
    (hbdir : fs.isDirB base = true)
    (hgood : ∀ p ∈ bulkWalker fs base false, fs.isFileB p = true →
      subst (lastName p) ≠ lastName p →
      ¬ (subst (lastName p) = "" ∨ subst (lastName p) = "." ∨
        (subst (lastName p)).data.contains '/'))
    (hresE : ∀ p ∈ bulkWalker fs base false, fs.isFileB p = true →
      subst (lastName p) ≠ lastName p →
      ∀ e, resolveRel root (relStr root (p.dropLast ++ [subst (lastName p)])) ≠ .error e)
    (hnorm : ∀ p ∈ bulkWalker fs base false, fs.isFileB p = true →
      subst (lastName p) ≠ lastName p →
      pyNormalize (p.dropLast ++ [subst (lastName p)]) = p.dropLast ++ [subst (lastName p)])
    (hfreshT : ∀ p ∈ bulkWalker fs base false, fs.isFileB p = true →
      subst (lastName p) ≠ lastName p →
      fs.existsB (base ++ [subst (lastName p)]) = false)
    (htd : ∀ p ∈ bulkWalker fs base false, ∀ q ∈ bulkWalker fs base false,
      fs.isFileB p = true → subst (lastName p) ≠ lastName p →
      fs.isFileB q = true → subst (lastName q) ≠ lastName q → p ≠ q →
      subst (lastName p) ≠ subst (lastName q)) :
    (∀ (bp : String) (sub : String → String) (inc : Bool),
      (bulk_rename_regex root fs bp sub inc true).1 = fs) ∧
    (bulk_rename_regex root fs basePath subst false true =
      (fs, .ok (if ((bulkWalker fs base false).filter (fun p => fs.isFileB p &&
            !(subst (lastName p) == lastName p))).map
            (fun p => relStr root p ++ " -> " ++
              relStr root (p.dropLast ++ [subst (lastName p)])) = []
        then "No matches."
        else "Preview (no changes):\n" ++ String.intercalate "\n"
          (((bulkWalker fs base false).filter (fun p => fs.isFileB p &&
            !(subst (lastName p) == lastName p))).map
            (fun p => relStr root p ++ " -> " ++
              relStr root (p.dropLast ++ [subst (lastName p)])))))) ∧
    (bulk_rename_regex root fs basePath subst false false =
      (bulkRenFold subst ((bulkWalker fs base false).filter (fun p => fs.isFileB p &&
          !(subst (lastName p) == lastName p))) fs,
       .ok (if ((bulkWalker fs base false).filter (fun p => fs.isFileB p &&
            !(subst (lastName p) == lastName p))).map
            (fun p => relStr root p ++ " -> " ++
              relStr root (p.dropLast ++ [subst (lastName p)])) = []
        then "No matches."
        else "Renamed:\n" ++ String.intercalate "\n"
          (((bulkWalker fs base false).filter (fun p => fs.isFileB p &&
            !(subst (lastName p) == lastName p))).map
            (fun p => relStr root p ++ " -> " ++
              relStr root (p.dropLast ++ [subst (lastName p)])))))) := by
  refine ⟨fun bp sub inc => bulk_rename_regex_testOnly_fst root fs bp sub inc hI,
    ?_, ?_⟩
  · unfold bulk_rename_regex
    rw [rootIntact_ensure root fs hI, bindE_ok, hbase, bindE_ok]
    rw [if_neg (not_not_intro hbex), if_neg (not_not_intro hbdir)]
    rw [bulk_loop_preview root subst fs (bulkWalker fs base false) [] hgood hresE]
    simp only [List.nil_append]
    by_cases hmp : ((bulkWalker fs base false).filter (fun p => fs.isFileB p &&
        !(subst (lastName p) == lastName p))).map
        (fun p => relStr root p ++ " -> " ++
          relStr root (p.dropLast ++ [subst (lastName p)])) = []
    · rw [if_pos hmp, if_pos hmp]
    · rw [if_neg hmp, if_neg hmp]
      rfl
  · unfold bulk_rename_regex
    rw [rootIntact_ensure root fs hI, bindE_ok, hbase, bindE_ok]
    rw [if_neg (not_not_intro hbex), if_neg (not_not_intro hbdir)]
    rw [bulk_loop_real root base subst fs (bulkWalker fs base false) fs []
      (bulkWalker0_nodup fs base)
      (fun p hp => (mem_bulkWalker0 fs base p hp).1)
      (fun p hp => (mem_bulkWalker0 fs base p hp).2)
      hgood hresE hnorm hfreshT htd hbdir
      (fun q _ => rfl) hfreshT]
    simp only [List.nil_append]
    by_cases hmp : ((bulkWalker fs base false).filter (fun p => fs.isFileB p &&
        !(subst (lastName p) == lastName p))).map
        (fun p => relStr root p ++ " -> " ++
          relStr root (p.dropLast ++ [subst (lastName p)])) = []
    · rw [if_pos hmp, if_pos hmp]
    · rw [if_neg hmp, if_neg hmp]
      rfl

/-- A concrete instance of the C6 theorem: previewing a rename of `a.txt` to
`c.txt` in `/sb` leaves the filesystem untouched. -/
theorem C6_preview_contract_witness :
    (bulk_rename_regex ["sb"] ⟨[["sb"]], [(["sb", "a.txt"], "1")]⟩ "."
      (fun nm => String.mk (nm.data.map (fun ch => if ch = 'a' then 'c' else ch)))
      false true).1 = (⟨[["sb"]], [(["sb", "a.txt"], "1")]⟩ : FS) := by
  refine (C6_preview_contract ["sb"] ⟨[["sb"]], [(["sb", "a.txt"], "1")]⟩ "."
    (fun nm => String.mk (nm.data.map (fun ch => if ch = 'a' then 'c' else ch)))
    ["sb"]
    (rootIntact_of_files_longer ["sb"] _ (by decide) (by decide))
    (by rfl) (by decide) (by decide) ?_ ?_ ?_ ?_ ?_).1 "."
    (fun nm => String.mk (nm.data.map (fun ch => if ch = 'a' then 'c' else ch))) false
  · intro p hp h1 h2
    rw [show bulkWalker (⟨[["sb"]], [(["sb", "a.txt"], "1")]⟩ : FS) ["sb"] false =
      [["sb", "a.txt"]] from rfl] at hp
    fin_cases hp
    decide
  · intro p hp h1 h2 e he
    rw [show bulkWalker (⟨[["sb"]], [(["sb", "a.txt"], "1")]⟩ : FS) ["sb"] false =
      [["sb", "a.txt"]] from rfl] at hp
    fin_cases hp
    have h2 := congrArg Except.isOk he
    rw [show (Except.error e : Except Err (List String)).isOk = false from rfl] at h2
    exact absurd h2 (by decide)
  · intro p hp h1 h2
    rw [show bulkWalker (⟨[["sb"]], [(["sb", "a.txt"], "1")]⟩ : FS) ["sb"] false =
      [["sb", "a.txt"]] from rfl] at hp
    fin_cases hp
    decide
  · intro p hp h1 h2
    rw [show bulkWalker (⟨[["sb"]], [(["sb", "a.txt"], "1")]⟩ : FS) ["sb"] false =
      [["sb", "a.txt"]] from rfl] at hp
    fin_cases hp
    decide
  · intro p hp q hq h1 h2 h3 h4 hpq
    rw [show bulkWalker (⟨[["sb"]], [(["sb", "a.txt"], "1")]⟩ : FS) ["sb"] false =
      [["sb", "a.txt"]] from rfl] at hp hq
    fin_cases hp
    fin_cases hq
    exact absurd rfl hpq

end FSA
